import Mathlib

/-!
Amortizing loans: notional schedule, redemption synthesis, price identities.

A shallow embedding of `ql/instruments/loan.cpp` and
`ql/pricingengines/loan/loanfunctions.cpp`.

* `Real` is embedded as `ℚ` (exact arithmetic).  Where rounding decides a property, the
  `double` arithmetic of the source is embedded next to it: `roundDouble` rounds to the
  nearest `double`, and the definitions named `...Double` round every operation.
* `Date` is embedded as its serial number, a `Nat`; the null date `Date()` has
  serial `0` and compares below every other date.
* `std::vector` is embedded as `List`, `push_back` as `· ++ [x]`.
* `QL_REQUIRE` failures are `Except.error`; a read past the end of a vector
  (undefined behaviour in the source) is the explicit outcome `Error.outOfRange`.
* `std::sort` is any rearrangement into date order (`StdSort`); `std::stable_sort` and
  `std::lower_bound` are embedded as insertion sort and as the binary-search loop.
-/

namespace QuantLib

/-! The embedded program and the notions used to state its properties -/

/-- The null date `Date()`, serial number `0`. -/
def nullDate : Nat := 0

/-- Failures raised by `QL_REQUIRE` in the embedded code, plus out-of-range reads, a
division of a `Real` by zero (an infinity or a NaN in the source, no number of the exact
arithmetic) and the failures of the external root finder. -/
inductive Error where
  | increasingCouponNotionals
  | noCouponsProvided
  | issueDateNotEarlier
  | multipleRedemptions
  | nonTradable
  | settlementValueNotProvided
  | outOfRange
  | divisionByZero
  | rootNotBracketed
  | maxIterationsExceeded
  deriving DecidableEq, Repr

/-- The dynamic type of a cash flow: `Coupon` (with its nominal), `AmortizingPayment`
or `Redemption`. -/
inductive Kind where
  | coupon (nominal : ℚ)
  | amortizingPayment
  | redemption
  deriving DecidableEq, Repr

/-- A cash flow of the leg: payment date, amount and dynamic type. -/
structure CashFlow where
  date : Nat
  amount : ℚ
  kind : Kind
  deriving DecidableEq, Repr

/-- A `Coupon` paying `amount` on `date` on the nominal `nominal`. -/
def Coupon (date : Nat) (amount nominal : ℚ) : CashFlow :=
  { date := date, amount := amount, kind := Kind.coupon nominal }

/-- The cash flow `AmortizingPayment(amount, date)`. -/
def AmortizingPayment (amount : ℚ) (date : Nat) : CashFlow :=
  { date := date, amount := amount, kind := Kind.amortizingPayment }

/-- The cash flow `Redemption(amount, date)`. -/
def Redemption (amount : ℚ) (date : Nat) : CashFlow :=
  { date := date, amount := amount, kind := Kind.redemption }

/-- Result of `dynamic_pointer_cast<Coupon>`: the nominal of a coupon, nothing otherwise. -/
def CashFlow.nominal? (cf : CashFlow) : Option ℚ :=
  match cf.kind with
  | Kind.coupon n => some n
  | _ => none

/-- The cash flow is a `Coupon`. -/
def CashFlow.isCoupon (cf : CashFlow) : Bool :=
  match cf.kind with
  | Kind.coupon _ => true
  | _ => false

/-- Machine epsilon of `double`, `QL_EPSILON`. -/
def QL_EPSILON : ℚ := 1 / 2 ^ 52

/-- Modelled from the spec: `close(x, y, n)` of `ql/math/comparison.hpp` is not under
`src/`; the spec describes it as equality "within a fixed relative tolerance".  Equal
values are close; otherwise the distance is compared with `n * QL_EPSILON` relative to
both arguments (absolutely, squared, when one of them is zero). -/
def closeN (x y : ℚ) (n : Nat) : Bool :=
  if x = y then true
  else
    let diff := |x - y|
    let tolerance := (n : ℚ) * QL_EPSILON
    if x * y = 0 then decide (diff < tolerance * tolerance)
    else decide (diff ≤ tolerance * |x|) && decide (diff ≤ tolerance * |y|)

/-- The two-argument overload `close(x, y) = close(x, y, 42)`. -/
def close (x y : ℚ) : Bool := closeN x y 42

/-- Business-day calendar, reduced to the one operation the loan uses. -/
structure Calendar where
  advance : Nat → Nat → Nat

/-- The global `Settings::instance()`. -/
structure Settings where
  evaluationDate : Nat

/-- Data members of `Loan`. -/
structure Loan where
  settlementDays_ : Nat
  calendar_ : Calendar
  notionalSchedule_ : List Nat
  notionals_ : List ℚ
  cashflows_ : List CashFlow
  redemptions_ : List CashFlow
  maturityDate_ : Nat
  issueDate_ : Nat
  settlementValue_ : Option ℚ

/-- Local state of the loop in `calculateNotionalsFromCashflows`. -/
structure NotionalState where
  notionalSchedule_ : List Nat
  notionals_ : List ℚ
  lastPaymentDate : Nat
  deriving DecidableEq, Repr

/-- One iteration of the loop of `calculateNotionalsFromCashflows`. -/
def notionalStep (st : NotionalState) (cf : CashFlow) : Except Error NotionalState :=
  match cf.nominal? with
  | none => Except.ok st
  | some notional =>
    match st.notionals_.getLast? with
    | none =>
      Except.ok { st with notionals_ := st.notionals_ ++ [notional],
                          lastPaymentDate := cf.date }
    | some back =>
      if !close notional back then
        if notional < back then
          Except.ok { notionalSchedule_ := st.notionalSchedule_ ++ [st.lastPaymentDate],
                      notionals_ := st.notionals_ ++ [notional],
                      lastPaymentDate := cf.date }
        else Except.error Error.increasingCouponNotionals
      else
        Except.ok { st with lastPaymentDate := cf.date }

/-- The loop of `calculateNotionalsFromCashflows` over the cash flows in order. -/
def notionalLoop : List CashFlow → NotionalState → Except Error NotionalState
  | [], st => Except.ok st
  | cf :: rest, st =>
    match notionalStep st cf with
    | Except.error e => Except.error e
    | Except.ok st1 => notionalLoop rest st1

/-- State before the first iteration: `notionalSchedule_ = [Date()]`, no notionals. -/
def notionalInit : NotionalState :=
  { notionalSchedule_ := [nullDate], notionals_ := [], lastPaymentDate := nullDate }

/-- The vectors `(notionalSchedule_, notionals_)` built by
`calculateNotionalsFromCashflows` from a leg. -/
def notionalsFromCashflows (cashflows : List CashFlow) :
    Except Error (List Nat × List ℚ) :=
  match notionalLoop cashflows notionalInit with
  | Except.error e => Except.error e
  | Except.ok st =>
    if st.notionals_.isEmpty then Except.error Error.noCouponsProvided
    else Except.ok (st.notionalSchedule_ ++ [st.lastPaymentDate], st.notionals_ ++ [0])

/-- `Loan::calculateNotionalsFromCashflows`. -/
def Loan.calculateNotionalsFromCashflows (L : Loan) : Except Error Loan :=
  match notionalsFromCashflows L.cashflows_ with
  | Except.error e => Except.error e
  | Except.ok (sched, nots) =>
    Except.ok { L with notionalSchedule_ := sched, notionals_ := nots }

/-- Checked read `v[i]`; reading past the end is `Error.outOfRange`. -/
def vectorAt {α : Type} (v : List α) (i : Nat) : Except Error α :=
  match v[i]? with
  | some x => Except.ok x
  | none => Except.error Error.outOfRange

/-- The redemption factor `R` used for breakpoint `i` in `addRedemptionsToCashflows`:
`i < redemptions.size() ? redemptions[i] : !redemptions.empty() ? redemptions.back() : 100.0`. -/
def redemptionFactor (redemptions : List ℚ) (i : Nat) : ℚ :=
  if h : i < redemptions.length then redemptions[i]
  else
    match redemptions.getLast? with
    | some b => b
    | none => 100

/-- Body of the loop of `addRedemptionsToCashflows` for index `i`: the payment created. -/
def redemptionPayment (sched : List Nat) (nots : List ℚ) (redemptions : List ℚ)
    (i : Nat) : Except Error CashFlow :=
  let R := redemptionFactor redemptions i
  match vectorAt nots (i - 1), vectorAt nots i, vectorAt sched i with
  | Except.ok a, Except.ok b, Except.ok d =>
    let amount := (R / 100) * (a - b)
    if i < sched.length - 1 then Except.ok (AmortizingPayment amount d)
    else Except.ok (Redemption amount d)
  | _, _, _ => Except.error Error.outOfRange

/-- The loop `for (i = ...; i < notionalSchedule_.size(); ++i)` of
`addRedemptionsToCashflows`, with `k` iterations left starting at index `i`; returns the
payments pushed, in order. -/
def redemptionLoop (sched : List Nat) (nots : List ℚ) (redemptions : List ℚ) :
    Nat → Nat → Except Error (List CashFlow)
  | 0, _ => Except.ok []
  | k + 1, i =>
    match redemptionPayment sched nots redemptions i with
    | Except.error e => Except.error e
    | Except.ok p =>
      match redemptionLoop sched nots redemptions k (i + 1) with
      | Except.error e => Except.error e
      | Except.ok ps => Except.ok (p :: ps)

/-- The comparison `earlier_than<shared_ptr<CashFlow> >`: strictly earlier payment date. -/
def earlier_than (a b : CashFlow) : Prop := a.date < b.date

instance : DecidableRel earlier_than := fun a b => Nat.decLt a.date b.date

/-- The order a sort with `earlier_than` establishes: `b` is not earlier than `a`. -/
def notLater (a b : CashFlow) : Prop := ¬ earlier_than b a

instance : DecidableRel notLater := fun a b =>
  inferInstanceAs (Decidable (¬ earlier_than b a))

instance : IsTotal CashFlow notLater :=
  ⟨fun a b => by
    show ¬ b.date < a.date ∨ ¬ a.date < b.date
    omega⟩

instance : IsTrans CashFlow notLater :=
  ⟨fun a b c => by
    show ¬ b.date < a.date → ¬ c.date < b.date → ¬ c.date < a.date
    omega⟩

/-- `std::stable_sort` with `earlier_than`.  The result of a stable sort is determined
by its contract; it is computed here by insertion. -/
def stable_sort (l : List CashFlow) : List CashFlow := l.insertionSort notLater

/-- `std::sort` with `earlier_than`: some rearrangement into date order; the order of
cash flows with equal dates is left to the implementation. -/
structure StdSort where
  run : List CashFlow → List CashFlow
  perm : ∀ l, (run l).Perm l
  sorted : ∀ l, (run l).Sorted notLater

/-- `Loan::addRedemptionsToCashflows(redemptions)`. -/
def Loan.addRedemptionsToCashflows (L : Loan) (redemptions : List ℚ) :
    Except Error Loan :=
  match L.calculateNotionalsFromCashflows with
  | Except.error e => Except.error e
  | Except.ok L1 =>
    match redemptionLoop L1.notionalSchedule_ L1.notionals_ redemptions
        (L1.notionalSchedule_.length - 1) 1 with
    | Except.error e => Except.error e
    | Except.ok ps =>
      Except.ok { L1 with cashflows_ := stable_sort (L1.cashflows_ ++ ps),
                          redemptions_ := ps }

/-- The check of the constructor on a non-null issue date:
`QL_REQUIRE(issueDate_ < cashflows_[0]->date(), "issue date ... must be earlier than
first payment date ...")`. -/
def Loan.requireIssueDate (L : Loan) : Except Error Unit :=
  if L.issueDate_ ≠ nullDate then
    match vectorAt L.cashflows_ 0 with
    | Except.error e => Except.error e
    | Except.ok c0 =>
      if L.issueDate_ < c0.date then Except.ok ()
      else Except.error Error.issueDateNotEarlier
  else Except.ok ()

/-- The constructor `Loan::Loan(settlementDays, calendar, issueDate, coupons)`: on a
non-empty `coupons` it sorts the ledger, checks the issue date, records the date of
`coupons.back()` as maturity and calls `addRedemptionsToCashflows()`. -/
def Loan.construct (srt : StdSort) (settlementDays : Nat) (calendar : Calendar)
    (issueDate : Nat) (coupons : List CashFlow) : Except Error Loan :=
  let L0 : Loan :=
    { settlementDays_ := settlementDays, calendar_ := calendar,
      notionalSchedule_ := [], notionals_ := [],
      cashflows_ := coupons, redemptions_ := [],
      maturityDate_ := nullDate, issueDate_ := issueDate, settlementValue_ := none }
  match coupons.getLast? with
  | none => Except.ok L0
  | some back =>
    let L1 : Loan := { L0 with cashflows_ := srt.run L0.cashflows_ }
    match L1.requireIssueDate with
    | Except.error e => Except.error e
    | Except.ok () =>
      let L2 : Loan := { L1 with maturityDate_ := back.date }
      L2.addRedemptionsToCashflows []

/-- `Loan::setSingleRedemption(notional, redemption)` with a ready cash flow. -/
def Loan.setSingleRedemptionCashflow (L : Loan) (notional : ℚ) (redemption : CashFlow) :
    Loan :=
  { L with notionals_ := [notional, 0],
           notionalSchedule_ := [nullDate, redemption.date],
           cashflows_ := L.cashflows_ ++ [redemption],
           redemptions_ := [redemption] }

/-- `Loan::setSingleRedemption(notional, redemption, date)`. -/
def Loan.setSingleRedemption (L : Loan) (notional redemption : ℚ) (date : Nat) : Loan :=
  L.setSingleRedemptionCashflow notional (Redemption (notional * redemption / 100) date)

/-- `Loan::settlementDate(date)`. -/
def Loan.settlementDate (L : Loan) (S : Settings) (date : Nat) : Nat :=
  let d := if date = nullDate then S.evaluationDate else date
  let settlement := L.calendar_.advance d L.settlementDays_
  if L.issueDate_ = nullDate then settlement
  else max settlement L.issueDate_

/-- The loop of `std::lower_bound` over positions `[first, first + count)` of `v`;
`fuel` bounds the number of iterations (`count` shrinks at every one). -/
def lowerBoundLoop (v : List Nat) (value : Nat) : Nat → Nat → Nat → Nat
  | 0, first, _ => first
  | fuel + 1, first, count =>
    if count = 0 then first
    else
      let step := count / 2
      let it := first + step
      if v.getD it nullDate < value then
        lowerBoundLoop v value fuel (it + 1) (count - (step + 1))
      else
        lowerBoundLoop v value fuel first step

/-- `std::lower_bound(v.begin() + first, v.begin() + last, value)` as an index into `v`. -/
def lower_bound (v : List Nat) (first last : Nat) (value : Nat) : Nat :=
  lowerBoundLoop v value (last - first) first (last - first)

/-- `Loan::notional(d)`. -/
def Loan.notional (L : Loan) (S : Settings) (d : Nat) : Except Error ℚ :=
  let d := if d = nullDate then L.settlementDate S nullDate else d
  match L.notionalSchedule_.getLast? with
  | none => Except.error Error.outOfRange
  | some back =>
    if d > back then Except.ok 0
    else
      let index := lower_bound L.notionalSchedule_ 1 L.notionalSchedule_.length d
      match vectorAt L.notionalSchedule_ index with
      | Except.error e => Except.error e
      | Except.ok di =>
        if d < di then vectorAt L.notionals_ (index - 1)
        else vectorAt L.notionals_ index

/-- An `InterestRate`: the rate with its day counter, compounding and frequency (tags). -/
structure InterestRate where
  rate : ℚ
  dayCounter : Nat
  compounding : Nat
  frequency : Nat

/-- The functions of the external class `CashFlows` the loan analytics call, as opaque
parameters. -/
structure CashFlowsLib where
  accruedAmount : List CashFlow → Bool → Nat → ℚ
  npv : List CashFlow → InterestRate → Bool → Nat → ℚ
  accrualStartDate : List CashFlow → Bool → Nat → Nat
  accrualEndDate : List CashFlow → Bool → Nat → Nat
  referencePeriodStart : List CashFlow → Bool → Nat → Nat
  referencePeriodEnd : List CashFlow → Bool → Nat → Nat
  accrualPeriod : List CashFlow → Bool → Nat → ℚ
  accrualDays : List CashFlow → Bool → Nat → Int
  accruedPeriod : List CashFlow → Bool → Nat → ℚ
  accruedDays : List CashFlow → Bool → Nat → Int
  bps : List CashFlow → InterestRate → Bool → Nat → ℚ
  duration : List CashFlow → InterestRate → Nat → Bool → Nat → ℚ
  convexity : List CashFlow → InterestRate → Bool → Nat → ℚ
  basisPointValue : List CashFlow → InterestRate → Bool → Nat → ℚ
  yieldValueBasisPoint : List CashFlow → InterestRate → Bool → Nat → ℚ
  yield : List CashFlow → ℚ → Nat → Nat → Nat → Bool → Nat → Nat → ℚ → Nat → ℚ →
    Except Error ℚ
  zSpread : List CashFlow → Nat → ℚ → Nat → Nat → Nat → Bool → Nat → Nat → ℚ → Nat → ℚ →
    Except Error ℚ
  maturityDate : List CashFlow → Nat

namespace LoanFunctions

/-- `LoanFunctions::isTradable(loan, settlement)`. -/
def isTradable (S : Settings) (loan : Loan) (settlement : Nat) : Except Error Bool :=
  let settlement := if settlement = nullDate then loan.settlementDate S nullDate else settlement
  match loan.notional S settlement with
  | Except.error e => Except.error e
  | Except.ok n => Except.ok (n != 0)

/-- The check `QL_REQUIRE(LoanFunctions::isTradable(loan, settlement), "non tradable ...")`. -/
def requireTradable (S : Settings) (loan : Loan) (settlement : Nat) : Except Error Unit :=
  match isTradable S loan settlement with
  | Except.error e => Except.error e
  | Except.ok true => Except.ok ()
  | Except.ok false => Except.error Error.nonTradable

/-- `LoanFunctions::accruedAmount(loan, settlement)`. -/
def accruedAmount (S : Settings) (C : CashFlowsLib) (loan : Loan) (settlement : Nat) :
    Except Error ℚ :=
  let settlement := if settlement = nullDate then loan.settlementDate S nullDate else settlement
  match requireTradable S loan settlement with
  | Except.error e => Except.error e
  | Except.ok () =>
    match loan.notional S settlement with
    | Except.error e => Except.error e
    | Except.ok n => Except.ok (C.accruedAmount loan.cashflows_ false settlement * 100 / n)

end LoanFunctions

/-- `Loan::accruedAmount(settlement)`. -/
def Loan.accruedAmount (L : Loan) (S : Settings) (C : CashFlowsLib) (settlement : Nat) :
    Except Error ℚ :=
  match L.notional S settlement with
  | Except.error e => Except.error e
  | Except.ok currentNotional =>
    if currentNotional = 0 then Except.ok 0
    else LoanFunctions.accruedAmount S C L settlement

namespace LoanFunctions

/-- `LoanFunctions::dirtyPrice(loan, yield, settlement)` for an `InterestRate`. -/
def dirtyPriceRate (S : Settings) (C : CashFlowsLib) (loan : Loan) (yield : InterestRate)
    (settlement : Nat) : Except Error ℚ :=
  let settlement := if settlement = nullDate then loan.settlementDate S nullDate else settlement
  match requireTradable S loan settlement with
  | Except.error e => Except.error e
  | Except.ok () =>
    match loan.notional S settlement with
    | Except.error e => Except.error e
    | Except.ok n => Except.ok (C.npv loan.cashflows_ yield false settlement * 100 / n)

/-- `LoanFunctions::cleanPrice(loan, yield, settlement)` for an `InterestRate`. -/
def cleanPriceRate (S : Settings) (C : CashFlowsLib) (loan : Loan) (yield : InterestRate)
    (settlement : Nat) : Except Error ℚ :=
  match dirtyPriceRate S C loan yield settlement with
  | Except.error e => Except.error e
  | Except.ok dirty =>
    match loan.accruedAmount S C settlement with
    | Except.error e => Except.error e
    | Except.ok accrued => Except.ok (dirty - accrued)

/-- `LoanFunctions::cleanPrice(loan, yield, dayCounter, compounding, frequency, settlement)`. -/
def cleanPrice (S : Settings) (C : CashFlowsLib) (loan : Loan) (yield : ℚ)
    (dayCounter compounding frequency : Nat) (settlement : Nat) : Except Error ℚ :=
  cleanPriceRate S C loan
    { rate := yield, dayCounter := dayCounter, compounding := compounding,
      frequency := frequency } settlement

/-- `LoanFunctions::dirtyPrice(loan, yield, dayCounter, compounding, frequency, settlement)`. -/
def dirtyPrice (S : Settings) (C : CashFlowsLib) (loan : Loan) (yield : ℚ)
    (dayCounter compounding frequency : Nat) (settlement : Nat) : Except Error ℚ :=
  dirtyPriceRate S C loan
    { rate := yield, dayCounter := dayCounter, compounding := compounding,
      frequency := frequency } settlement

end LoanFunctions

/-- `Loan::isTradable(d)`. -/
def Loan.isTradable (L : Loan) (S : Settings) (d : Nat) : Except Error Bool :=
  LoanFunctions.isTradable S L d

/-- `Loan::cleanPrice(y, dc, comp, freq, settlement)`. -/
def Loan.cleanPrice (L : Loan) (S : Settings) (C : CashFlowsLib) (y : ℚ)
    (dc comp freq : Nat) (settlement : Nat) : Except Error ℚ :=
  LoanFunctions.cleanPrice S C L y dc comp freq settlement

/-- `Loan::dirtyPrice(y, dc, comp, freq, settlement)`. -/
def Loan.dirtyPrice (L : Loan) (S : Settings) (C : CashFlowsLib) (y : ℚ)
    (dc comp freq : Nat) (settlement : Nat) : Except Error ℚ :=
  match L.notional S settlement with
  | Except.error e => Except.error e
  | Except.ok currentNotional =>
    if currentNotional = 0 then Except.ok 0
    else
      match LoanFunctions.cleanPrice S C L y dc comp freq settlement with
      | Except.error e => Except.error e
      | Except.ok clean =>
        match L.accruedAmount S C settlement with
        | Except.error e => Except.error e
        | Except.ok accrued => Except.ok (clean + accrued)

/-- Insertion sort as one admissible behaviour of `std::sort`. -/
def insertionStdSort : StdSort where
  run := fun l => l.insertionSort notLater
  perm := fun l => List.perm_insertionSort notLater l
  sorted := fun l => List.sorted_insertionSort notLater l

/-- Decidable equality of `Except` outcomes, for evaluating the embedded code. -/
instance exceptDecEq {ε α : Type} [DecidableEq ε] [DecidableEq α] :
    DecidableEq (Except ε α)
  | Except.ok a, Except.ok b =>
    if h : a = b then isTrue (by rw [h]) else isFalse (fun h1 => h (Except.ok.inj h1))
  | Except.error a, Except.error b =>
    if h : a = b then isTrue (by rw [h]) else isFalse (fun h1 => h (Except.error.inj h1))
  | Except.ok _, Except.error _ => isFalse (fun h => by cases h)
  | Except.error _, Except.ok _ => isFalse (fun h => by cases h)

/-- The coupons of one run of a coupon list: a nominal `r.1` and the (date, amount)
pairs `r.2` of the coupons that carry it, in order. -/
def runCoupons (r : ℚ × List (Nat × ℚ)) : List CashFlow :=
  r.2.map (fun p => { date := p.1, amount := p.2, kind := Kind.coupon r.1 })

/-- Payment date of the last coupon of a run. -/
def runLastDate (r : ℚ × List (Nat × ℚ)) : Nat :=
  (r.2.map Prod.fst).getLastD nullDate

/-- The coupon list made of the given runs, one after the other. -/
def runsCoupons (runs : List (ℚ × List (Nat × ℚ))) : List CashFlow :=
  (runs.map runCoupons).flatten

/-- Quarterly coupons of the four-level example: nominal 1,000,000 / 750,000 / 500,000 /
250,000, four coupons at each level. -/
def fourLevelRuns : List (ℚ × List (Nat × ℚ)) :=
  [(1000000, [(91, 12500), (182, 12500), (273, 12500), (365, 12500)]),
   (750000, [(456, 9375), (547, 9375), (638, 9375), (730, 9375)]),
   (500000, [(821, 6250), (912, 6250), (1003, 6250), (1095, 6250)]),
   (250000, [(1186, 3125), (1277, 3125), (1368, 3125), (1460, 3125)])]

/-- A calendar on which every day is a business day. -/
def exampleCalendar : Calendar := { advance := fun d n => d + n }

/-- A loan object holding the given leg, before any schedule is built. -/
def Loan.ofCashflows (cashflows : List CashFlow) : Loan :=
  { settlementDays_ := 0, calendar_ := exampleCalendar,
    notionalSchedule_ := [], notionals_ := [],
    cashflows_ := cashflows, redemptions_ := [],
    maturityDate_ := nullDate, issueDate_ := nullDate, settlementValue_ := none }

/-- Three coupons on nominals 100, 100, 50, used to exercise the theorems. -/
def exampleLeg : List CashFlow := [Coupon 10 5 100, Coupon 20 5 100, Coupon 30 5 50]

/-- A loan object holding `exampleLeg`, before any schedule is built. -/
def exampleLoan : Loan := Loan.ofCashflows exampleLeg

/-- The loan object `exampleLoan` with the schedule of its coupons. -/
def exampleBuilt : Loan :=
  { exampleLoan with notionalSchedule_ := [0, 20, 30], notionals_ := [100, 50, 0] }

/-- The loan constructed from `exampleLeg`, with no issue date. -/
def exampleConstructed : Loan :=
  { settlementDays_ := 0, calendar_ := exampleCalendar,
    notionalSchedule_ := [0, 20, 30], notionals_ := [100, 50, 0],
    cashflows_ := [Coupon 10 5 100, Coupon 20 5 100, AmortizingPayment 50 20,
      Coupon 30 5 50, Redemption 50 30],
    redemptions_ := [AmortizingPayment 50 20, Redemption 50 30],
    maturityDate_ := 30, issueDate_ := nullDate, settlementValue_ := none }

/-- A stand-in for the external `CashFlows` functions: constant accrual and risk figures,
an NPV that falls linearly in the yield, and a root finder that inverts it exactly. -/
def exampleCashFlows : CashFlowsLib :=
  { accruedAmount := fun _ _ _ => 2,
    npv := fun _ y _ _ => 100 - 200 * y.rate,
    accrualStartDate := fun _ _ _ => 10,
    accrualEndDate := fun _ _ _ => 20,
    referencePeriodStart := fun _ _ _ => 10,
    referencePeriodEnd := fun _ _ _ => 20,
    accrualPeriod := fun _ _ _ => 1,
    accrualDays := fun _ _ _ => 10,
    accruedPeriod := fun _ _ _ => 1 / 2,
    accruedDays := fun _ _ _ => 5,
    bps := fun _ _ _ _ => 3,
    duration := fun _ _ _ _ _ => 4,
    convexity := fun _ _ _ _ => 5,
    basisPointValue := fun _ _ _ _ => 6,
    yieldValueBasisPoint := fun _ _ _ _ => 7,
    yield := fun _ target _ _ _ _ _ _ _ _ _ => Except.ok ((100 - target) / 200),
    zSpread := fun _ _ target _ _ _ _ _ _ _ _ _ => Except.ok ((100 - target) / 400),
    maturityDate := fun leg => (leg.map CashFlow.date).foldr max 0 }

/-- The nominals of the coupons of a leg, in order. -/
def couponNominals (cashflows : List CashFlow) : List ℚ :=
  cashflows.filterMap CashFlow.nominal?

/-- The redemption factor in the spec's words: `factors[i]` if present, else
`factors.back()` if `factors` is non-empty, else `100`. -/
def specFactor (factors : List ℚ) (i : Nat) : ℚ :=
  match factors[i]? with
  | some x => x
  | none =>
    match factors.getLast? with
    | some b => b
    | none => 100

/-- The principal record of breakpoint `i` in the spec's words: dated `date[i]`, of
amount `(factor / 100) * (notional[i-1] - notional[i])`, a final redemption at the last
breakpoint and an amortizing payment before. -/
def principalRecord (sched : List Nat) (nots : List ℚ) (factors : List ℚ) (i : Nat) :
    CashFlow :=
  { date := sched.getD i nullDate,
    amount := specFactor factors i / 100 * (nots.getD (i - 1) 0 - nots.getD i 0),
    kind := if i + 1 = sched.length then Kind.redemption else Kind.amortizingPayment }

/-- Shape of the loop state: one schedule entry per notional once a coupon was seen. -/
def NotionalState.wellShaped (st : NotionalState) : Prop :=
  (st.notionals_ = [] ∧ st.notionalSchedule_.length = 1) ∨
  (st.notionals_ ≠ [] ∧ st.notionalSchedule_.length = st.notionals_.length)

/-- The records pushed by `addRedemptionsToCashflows` for a built schedule. -/
def synthesizedRedemptions (sched : List Nat) (nots : List ℚ) (factors : List ℚ) :
    List CashFlow :=
  (List.range' 1 (sched.length - 1)).map (principalRecord sched nots factors)

/-- The ledger order the `Loan` class asks for: of two cash flows with the same date,
a principal never precedes a coupon. -/
def principalAfterCoupon (a b : CashFlow) : Prop :=
  a.date = b.date → b.isCoupon = true → a.isCoupon = true

instance : IsAntisymm CashFlow earlier_than :=
  ⟨fun a b hab hba => by
    have h1 : a.date < b.date := hab
    have h2 : b.date < a.date := hba
    omega⟩

/-- The settlement date the analytics work with: the loan's own when none is given. -/
def effectiveSettlement (L : Loan) (S : Settings) (settlement : Nat) : Nat :=
  if settlement = nullDate then L.settlementDate S nullDate else settlement

namespace LoanFunctions

/-- The opening lines of a guarded `LoanFunctions` function,
`if (settlement == Date()) settlement = loan.settlementDate();` followed by
`QL_REQUIRE(LoanFunctions::isTradable(loan, settlement), "non tradable ...")`: the
settlement date the body goes on with. -/
def tradableSettlement (S : Settings) (loan : Loan) (settlement : Nat) : Except Error Nat :=
  let settlement := if settlement = nullDate then loan.settlementDate S nullDate else settlement
  match requireTradable S loan settlement with
  | Except.error e => Except.error e
  | Except.ok () => Except.ok settlement

/-- `LoanFunctions::accrualStartDate(loan, settlement)`. -/
def accrualStartDate (S : Settings) (C : CashFlowsLib) (loan : Loan) (settlement : Nat) :
    Except Error Nat :=
  match tradableSettlement S loan settlement with
  | Except.error e => Except.error e
  | Except.ok s => Except.ok (C.accrualStartDate loan.cashflows_ false s)

/-- `LoanFunctions::accrualEndDate(loan, settlement)`. -/
def accrualEndDate (S : Settings) (C : CashFlowsLib) (loan : Loan) (settlement : Nat) :
    Except Error Nat :=
  match tradableSettlement S loan settlement with
  | Except.error e => Except.error e
  | Except.ok s => Except.ok (C.accrualEndDate loan.cashflows_ false s)

/-- `LoanFunctions::referencePeriodStart(loan, settlement)`. -/
def referencePeriodStart (S : Settings) (C : CashFlowsLib) (loan : Loan) (settlement : Nat) :
    Except Error Nat :=
  match tradableSettlement S loan settlement with
  | Except.error e => Except.error e
  | Except.ok s => Except.ok (C.referencePeriodStart loan.cashflows_ false s)

/-- `LoanFunctions::referencePeriodEnd(loan, settlement)`. -/
def referencePeriodEnd (S : Settings) (C : CashFlowsLib) (loan : Loan) (settlement : Nat) :
    Except Error Nat :=
  match tradableSettlement S loan settlement with
  | Except.error e => Except.error e
  | Except.ok s => Except.ok (C.referencePeriodEnd loan.cashflows_ false s)

/-- `LoanFunctions::accrualPeriod(loan, settlement)`. -/
def accrualPeriod (S : Settings) (C : CashFlowsLib) (loan : Loan) (settlement : Nat) :
    Except Error ℚ :=
  match tradableSettlement S loan settlement with
  | Except.error e => Except.error e
  | Except.ok s => Except.ok (C.accrualPeriod loan.cashflows_ false s)

/-- `LoanFunctions::accrualDays(loan, settlement)`. -/
def accrualDays (S : Settings) (C : CashFlowsLib) (loan : Loan) (settlement : Nat) :
    Except Error Int :=
  match tradableSettlement S loan settlement with
  | Except.error e => Except.error e
  | Except.ok s => Except.ok (C.accrualDays loan.cashflows_ false s)

/-- `LoanFunctions::accruedPeriod(loan, settlement)`. -/
def accruedPeriod (S : Settings) (C : CashFlowsLib) (loan : Loan) (settlement : Nat) :
    Except Error ℚ :=
  match tradableSettlement S loan settlement with
  | Except.error e => Except.error e
  | Except.ok s => Except.ok (C.accruedPeriod loan.cashflows_ false s)

/-- `LoanFunctions::accruedDays(loan, settlement)`. -/
def accruedDays (S : Settings) (C : CashFlowsLib) (loan : Loan) (settlement : Nat) :
    Except Error Int :=
  match tradableSettlement S loan settlement with
  | Except.error e => Except.error e
  | Except.ok s => Except.ok (C.accruedDays loan.cashflows_ false s)

/-- `LoanFunctions::bps(loan, yield, settlement)` for an `InterestRate`. -/
def bpsRate (S : Settings) (C : CashFlowsLib) (loan : Loan) (yield : InterestRate)
    (settlement : Nat) : Except Error ℚ :=
  match tradableSettlement S loan settlement with
  | Except.error e => Except.error e
  | Except.ok s =>
    match loan.notional S s with
    | Except.error e => Except.error e
    | Except.ok n => Except.ok (C.bps loan.cashflows_ yield false s * 100 / n)

/-- `LoanFunctions::bps(loan, yield, dayCounter, compounding, frequency, settlement)`. -/
def bps (S : Settings) (C : CashFlowsLib) (loan : Loan) (yield : ℚ)
    (dayCounter compounding frequency : Nat) (settlement : Nat) : Except Error ℚ :=
  bpsRate S C loan
    { rate := yield, dayCounter := dayCounter, compounding := compounding,
      frequency := frequency } settlement

/-- `LoanFunctions::duration(loan, yield, type, settlement)` for an `InterestRate`. -/
def durationRate (S : Settings) (C : CashFlowsLib) (loan : Loan) (yield : InterestRate)
    (type : Nat) (settlement : Nat) : Except Error ℚ :=
  match tradableSettlement S loan settlement with
  | Except.error e => Except.error e
  | Except.ok s => Except.ok (C.duration loan.cashflows_ yield type false s)

/-- `LoanFunctions::duration(loan, yield, dayCounter, compounding, frequency, type,
settlement)`. -/
def duration (S : Settings) (C : CashFlowsLib) (loan : Loan) (yield : ℚ)
    (dayCounter compounding frequency : Nat) (type : Nat) (settlement : Nat) :
    Except Error ℚ :=
  durationRate S C loan
    { rate := yield, dayCounter := dayCounter, compounding := compounding,
      frequency := frequency } type settlement

/-- `LoanFunctions::convexity(loan, yield, settlement)` for an `InterestRate`. -/
def convexityRate (S : Settings) (C : CashFlowsLib) (loan : Loan) (yield : InterestRate)
    (settlement : Nat) : Except Error ℚ :=
  match tradableSettlement S loan settlement with
  | Except.error e => Except.error e
  | Except.ok s => Except.ok (C.convexity loan.cashflows_ yield false s)

/-- `LoanFunctions::convexity(loan, yield, dayCounter, compounding, frequency,
settlement)`. -/
def convexity (S : Settings) (C : CashFlowsLib) (loan : Loan) (yield : ℚ)
    (dayCounter compounding frequency : Nat) (settlement : Nat) : Except Error ℚ :=
  convexityRate S C loan
    { rate := yield, dayCounter := dayCounter, compounding := compounding,
      frequency := frequency } settlement

/-- `LoanFunctions::basisPointValue(loan, yield, settlement)` for an `InterestRate`. -/
def basisPointValueRate (S : Settings) (C : CashFlowsLib) (loan : Loan)
    (yield : InterestRate) (settlement : Nat) : Except Error ℚ :=
  match tradableSettlement S loan settlement with
  | Except.error e => Except.error e
  | Except.ok s => Except.ok (C.basisPointValue loan.cashflows_ yield false s)

/-- `LoanFunctions::basisPointValue(loan, yield, dayCounter, compounding, frequency,
settlement)`: it builds the `InterestRate` and calls `CashFlows::basisPointValue` with
the settlement date as passed. -/
def basisPointValue (C : CashFlowsLib) (loan : Loan) (yield : ℚ)
    (dayCounter compounding frequency : Nat) (settlement : Nat) : Except Error ℚ :=
  Except.ok (C.basisPointValue loan.cashflows_
    { rate := yield, dayCounter := dayCounter, compounding := compounding,
      frequency := frequency } false settlement)

/-- `LoanFunctions::yieldValueBasisPoint(loan, yield, settlement)` for an
`InterestRate`. -/
def yieldValueBasisPointRate (S : Settings) (C : CashFlowsLib) (loan : Loan)
    (yield : InterestRate) (settlement : Nat) : Except Error ℚ :=
  match tradableSettlement S loan settlement with
  | Except.error e => Except.error e
  | Except.ok s => Except.ok (C.yieldValueBasisPoint loan.cashflows_ yield false s)

/-- `LoanFunctions::yieldValueBasisPoint(loan, yield, dayCounter, compounding, frequency,
settlement)`: it builds the `InterestRate` and calls `CashFlows::yieldValueBasisPoint`
with the settlement date as passed. -/
def yieldValueBasisPoint (C : CashFlowsLib) (loan : Loan) (yield : ℚ)
    (dayCounter compounding frequency : Nat) (settlement : Nat) : Except Error ℚ :=
  Except.ok (C.yieldValueBasisPoint loan.cashflows_
    { rate := yield, dayCounter := dayCounter, compounding := compounding,
      frequency := frequency } false settlement)

/-- `LoanFunctions::yield(loan, cleanPrice, dayCounter, compounding, frequency,
settlement, accuracy, maxIterations, guess)`. -/
def yield (S : Settings) (C : CashFlowsLib) (loan : Loan) (cleanPrice : ℚ)
    (dayCounter compounding frequency : Nat) (settlement : Nat) (accuracy : ℚ)
    (maxIterations : Nat) (guess : ℚ) : Except Error ℚ :=
  match tradableSettlement S loan settlement with
  | Except.error e => Except.error e
  | Except.ok s =>
    match loan.accruedAmount S C s with
    | Except.error e => Except.error e
    | Except.ok accrued =>
      match loan.notional S s with
      | Except.error e => Except.error e
      | Except.ok n =>
        let dirtyPrice := cleanPrice + accrued
        let dirtyPrice := dirtyPrice / (100 / n)
        C.yield loan.cashflows_ dirtyPrice dayCounter compounding frequency false s s
          accuracy maxIterations guess

end LoanFunctions

/-- `Loan::yield(cleanPrice, dc, comp, freq, settlement, accuracy, maxEvaluations)`; the
guess is the default `0.05` of `LoanFunctions::yield`. -/
def Loan.yield (L : Loan) (S : Settings) (C : CashFlowsLib) (cleanPrice : ℚ)
    (dc comp freq : Nat) (settlement : Nat) (accuracy : ℚ) (maxEvaluations : Nat) :
    Except Error ℚ :=
  match L.notional S settlement with
  | Except.error e => Except.error e
  | Except.ok currentNotional =>
    if currentNotional = 0 then Except.ok 0
    else LoanFunctions.yield S C L cleanPrice dc comp freq settlement accuracy
      maxEvaluations (1 / 20)

/-- `Loan::redemption()`. -/
def Loan.redemption (L : Loan) : Except Error CashFlow :=
  if L.redemptions_.length = 1 then
    match L.redemptions_.getLast? with
    | some r => Except.ok r
    | none => Except.error Error.outOfRange
  else Except.error Error.multipleRedemptions

/-- Division of two `Real`s; by zero it yields no number. -/
def realDiv (x y : ℚ) : Except Error ℚ :=
  if y = 0 then Except.error Error.divisionByZero else Except.ok (x / y)

/-- `Loan::settlementValue()` once `calculate()` has run: `settlementValue_` holds what
the pricing engine (or `setupExpired`) left there, `none` standing for `Null<Real>()`. -/
def Loan.settlementValue (L : Loan) : Except Error ℚ :=
  match L.settlementValue_ with
  | some v => Except.ok v
  | none => Except.error Error.settlementValueNotProvided

/-- The no-argument `Loan::dirtyPrice()`:
`settlementValue() / notional(settlementDate()) * 100.0`. -/
def Loan.dirtyPriceTheoretical (L : Loan) (S : Settings) : Except Error ℚ :=
  match L.settlementValue with
  | Except.error e => Except.error e
  | Except.ok v =>
    match L.notional S (L.settlementDate S nullDate) with
    | Except.error e => Except.error e
    | Except.ok n =>
      match realDiv v n with
      | Except.error e => Except.error e
      | Except.ok q => Except.ok (q * 100)

/-- The no-argument `Loan::cleanPrice()`:
`dirtyPrice() - accruedAmount(settlementDate())`. -/
def Loan.cleanPriceTheoretical (L : Loan) (S : Settings) (C : CashFlowsLib) :
    Except Error ℚ :=
  match L.dirtyPriceTheoretical S with
  | Except.error e => Except.error e
  | Except.ok dirty =>
    match L.accruedAmount S C (L.settlementDate S nullDate) with
    | Except.error e => Except.error e
    | Except.ok accrued => Except.ok (dirty - accrued)

/-- The loan constructed from `exampleLeg` once it is past its last cash flow:
`setupExpired` has left a settlement value of `0`. -/
def exampleExpired : Loan := { exampleConstructed with settlementValue_ := some 0 }

/-- The loan constructed from `exampleLeg`, given an issue date of 14 and two
settlement days. -/
def exampleIssued : Loan := { exampleConstructed with issueDate_ := 14, settlementDays_ := 2 }

namespace LoanFunctions

/-- `LoanFunctions::maturityDate(loan)`. -/
def maturityDate (C : CashFlowsLib) (loan : Loan) : Nat :=
  C.maturityDate loan.cashflows_

/-- `LoanFunctions::zSpread(loan, cleanPrice, d, dayCounter, compounding, frequency,
settlement, accuracy, maxIterations, guess)`; the discount curve `d` is a tag. -/
def zSpread (S : Settings) (C : CashFlowsLib) (loan : Loan) (cleanPrice : ℚ) (d : Nat)
    (dayCounter compounding frequency : Nat) (settlement : Nat) (accuracy : ℚ)
    (maxIterations : Nat) (guess : ℚ) : Except Error ℚ :=
  match tradableSettlement S loan settlement with
  | Except.error e => Except.error e
  | Except.ok s =>
    match loan.accruedAmount S C s with
    | Except.error e => Except.error e
    | Except.ok accrued =>
      match loan.notional S s with
      | Except.error e => Except.error e
      | Except.ok n =>
        let dirtyPrice := cleanPrice + accrued
        let dirtyPrice := dirtyPrice / (100 / n)
        C.zSpread loan.cashflows_ d dirtyPrice dayCounter compounding frequency false s s
          accuracy maxIterations guess

end LoanFunctions

/-- `Loan::maturityDate()`. -/
def Loan.maturityDate (L : Loan) (C : CashFlowsLib) : Nat :=
  if L.maturityDate_ ≠ nullDate then L.maturityDate_
  else LoanFunctions.maturityDate C L

/-- The overload `Loan::settlementValue(cleanPrice)`:
`dirtyPrice = cleanPrice + accruedAmount(settlementDate())`, then
`dirtyPrice / 100.0 * notional(settlementDate())`. -/
def Loan.settlementValueOfPrice (L : Loan) (S : Settings) (C : CashFlowsLib)
    (cleanPrice : ℚ) : Except Error ℚ :=
  match L.accruedAmount S C (L.settlementDate S nullDate) with
  | Except.error e => Except.error e
  | Except.ok accrued =>
    match L.notional S (L.settlementDate S nullDate) with
    | Except.error e => Except.error e
    | Except.ok n =>
      let dirtyPrice := cleanPrice + accrued
      Except.ok (dirtyPrice / 100 * n)

/-- Well-formedness of a notional schedule in the spec's words: the two vectors have the
same length `n ≥ 2`, the first date is the null date, the dates from index 1 on are
non-decreasing, consecutive notionals before the final entry are strictly decreasing and
the final notional is zero. -/
def wellFormedSchedule (sched : List Nat) (nots : List ℚ) : Prop :=
  sched.length = nots.length ∧ 2 ≤ sched.length ∧ sched.head? = some nullDate ∧
  sched.tail.Pairwise (fun a b => a ≤ b) ∧
  nots.dropLast.Chain' (fun a b => b < a) ∧
  nots.getD (sched.length - 1) 0 = 0

/-- The step function a schedule stands for, by recursion on the breakpoints: given the
breakpoint dates `D₁, D₂, ...` (the schedule without its leading null date) and the
notionals `v₁, v₂, ..., 0`, the notional in force at `d` is the one paired with the first
breakpoint later than `d`, and the last notional once `d` is past all of them. -/
def stepLookup : List Nat → List ℚ → Nat → ℚ
  | [], v :: _, _ => v
  | D :: Ds, v :: vs, d => if d < D then v else stepLookup Ds vs d
  | _, [], _ => 0

/-- The principal paid at each breakpoint, by recursion on the breakpoints: at `Dᵢ` the
notional falls from `vᵢ` to `vᵢ₊₁`. -/
def paydowns : List Nat → List ℚ → List (Nat × ℚ)
  | D :: Ds, v :: w :: vs => (D, v - w) :: paydowns Ds (w :: vs)
  | _, _ => []

/-- The sum of the amounts of the cash flows of `l` dated strictly after `d`. -/
def amountAfter (l : List CashFlow) (d : Nat) : ℚ :=
  ((l.filter (fun p => decide (d < p.date))).map CashFlow.amount).sum

/-- The coupons of `exampleLeg` as runs: two coupons on the nominal 100, one on 50. -/
def exampleRuns : List (ℚ × List (Nat × ℚ)) := [(100, [(10, 5), (20, 5)]), (50, [(30, 5)])]

/-- Two coupons on the nominal 100 passed latest first: dated 20, then 10. -/
def exampleUnsortedLeg : List CashFlow := [Coupon 20 5 100, Coupon 10 5 100]

/-- Modelled from the spec: `CashFlows::npv(leg, yield, includeSettlementDateFlows,
settlementDate)` is not under `src/`; the spec has the dirty price be the "PV of all
future cash flows at settlement", got by "discounting at a single flat compounded rate".
Every cash flow that has not occurred at the settlement date (dated later, or on the
settlement date itself when `includeSettlementDateFlows` is set) contributes its amount
times the discount factor `discount yield settlement date` of its date. -/
def npvModel (discount : InterestRate → Nat → Nat → ℚ) (leg : List CashFlow)
    (y : InterestRate) (includeSettlementDateFlows : Bool) (settlement : Nat) : ℚ :=
  ((leg.filter (fun cf => decide (settlement < cf.date) ||
      (includeSettlementDateFlows && decide (settlement = cf.date)))).map
    (fun cf => cf.amount * discount y settlement cf.date)).sum

/-- A discount factor with simple compounding over `(date - settlement) / 365` years; at
the rate 0 it is 1. -/
def simpleDiscount (y : InterestRate) (settlement date : Nat) : ℚ :=
  1 / (1 + y.rate * ((date - settlement : Nat) : ℚ) / 365)

/-- The stand-in `exampleCashFlows` with the NPV of `npvModel` under `simpleDiscount`. -/
def modelCashFlows : CashFlowsLib :=
  { exampleCashFlows with npv := npvModel simpleDiscount }

/-- The bullet of the spec's scenario: notional 1,000,000 redeemed at 100 on day 40, the
redemption being the only cash flow. -/
def exampleBullet : Loan := (Loan.ofCashflows []).setSingleRedemption 1000000 100 40

/-- A bullet of notional 100 redeemed at 100 on day 40 whose ledger also holds a coupon
of 5 paid on day 20. -/
def exampleCouponBullet : Loan :=
  (Loan.ofCashflows [Coupon 20 5 100]).setSingleRedemption 100 100 40

/-- The running notional in the spec's words, continued from `b` over the nominals of
the coupons that follow: the nominal of the first coupon, replaced by every later
nominal that is lower than it and not within the tolerance of `close`; a nominal within
the tolerance of the running notional, or above it, leaves it as it is. -/
def runningNotionalFrom : Option ℚ → List ℚ → Option ℚ
  | b, [] => b
  | none, x :: xs => runningNotionalFrom (some x) xs
  | some b, x :: xs =>
    runningNotionalFrom (if !close x b && decide (x < b) then some x else some b) xs

/-- The running notional after the coupons with the given nominals; `none` before the
first coupon. -/
def runningNotional (nominals : List ℚ) : Option ℚ := runningNotionalFrom none nominals

/-- The power `2 ^ k` for an integer exponent `k`. -/
def pow2 (k : Int) : ℚ := if 0 ≤ k then 2 ^ k.toNat else 1 / 2 ^ (-k).toNat

/-- Search for the binary exponent of `x ≥ 1` upwards from `e`: the first `e` with
`x < 2 ^ (e + 1)`; `fuel` bounds the search. -/
def exponentUp (x : ℚ) : Nat → Int → Int
  | 0, e => e
  | fuel + 1, e => if x < pow2 (e + 1) then e else exponentUp x fuel (e + 1)

/-- Search for the binary exponent of `0 < x < 1` downwards from `e`: the first `e` with
`2 ^ e ≤ x`; `fuel` bounds the search. -/
def exponentDown (x : ℚ) : Nat → Int → Int
  | 0, e => e
  | fuel + 1, e => if pow2 e ≤ x then e else exponentDown x fuel (e - 1)

/-- The binary exponent `e` of a non-zero `x`, `2 ^ e ≤ |x| < 2 ^ (e + 1)`, within the
exponent range of a `double`. -/
def binaryExponent (x : ℚ) : Int :=
  if 1 ≤ |x| then exponentUp |x| 1024 0 else exponentDown |x| 1024 (-1)

/-- Rounding to the nearest integer, a tie going to the even one. -/
def roundHalfEven (m : ℚ) : Int :=
  let f := ⌊m⌋
  let r := m - f
  if r < 1 / 2 then f
  else if 1 / 2 < r then f + 1
  else if f % 2 = 0 then f else f + 1

/-- The value of type `Real` (a `double`: IEEE 754 binary64, 53 significant bits) nearest
to the number `x`, a tie going to the even significand.  Overflow and subnormal numbers
are not modelled. -/
def roundDouble (x : ℚ) : ℚ :=
  if x = 0 then 0
  else
    let ulp := pow2 (binaryExponent x - 52)
    (roundHalfEven (x / ulp) : ℚ) * ulp

/-- The `double` operation `x + y`: the exact sum, rounded. -/
def addDouble (x y : ℚ) : ℚ := roundDouble (x + y)

/-- The `double` operation `x - y`: the exact difference, rounded. -/
def subDouble (x y : ℚ) : ℚ := roundDouble (x - y)

/-- The `double` operation `x * y`: the exact product, rounded. -/
def mulDouble (x y : ℚ) : ℚ := roundDouble (x * y)

/-- The `double` operation `x / y`: the exact quotient, rounded. -/
def divDouble (x y : ℚ) : ℚ := roundDouble (x / y)

/-- Body of the loop of `addRedemptionsToCashflows` for index `i` in the `double`
arithmetic of the source: in `(R / 100.0) * (notionals_[i-1] - notionals_[i])` the
quotient, the difference and the product are each rounded. -/
def redemptionPaymentDouble (sched : List Nat) (nots : List ℚ) (redemptions : List ℚ)
    (i : Nat) : Except Error CashFlow :=
  let R := redemptionFactor redemptions i
  match vectorAt nots (i - 1), vectorAt nots i, vectorAt sched i with
  | Except.ok a, Except.ok b, Except.ok d =>
    let amount := mulDouble (divDouble R 100) (subDouble a b)
    if i < sched.length - 1 then Except.ok (AmortizingPayment amount d)
    else Except.ok (Redemption amount d)
  | _, _, _ => Except.error Error.outOfRange

/-- The loop of `addRedemptionsToCashflows` in `double` arithmetic, with `k` iterations
left starting at index `i`. -/
def redemptionLoopDouble (sched : List Nat) (nots : List ℚ) (redemptions : List ℚ) :
    Nat → Nat → Except Error (List CashFlow)
  | 0, _ => Except.ok []
  | k + 1, i =>
    match redemptionPaymentDouble sched nots redemptions i with
    | Except.error e => Except.error e
    | Except.ok p =>
      match redemptionLoopDouble sched nots redemptions k (i + 1) with
      | Except.error e => Except.error e
      | Except.ok ps => Except.ok (p :: ps)

/-- `Loan::addRedemptionsToCashflows(redemptions)` in `double` arithmetic. -/
def Loan.addRedemptionsToCashflowsDouble (L : Loan) (redemptions : List ℚ) :
    Except Error Loan :=
  match L.calculateNotionalsFromCashflows with
  | Except.error e => Except.error e
  | Except.ok L1 =>
    match redemptionLoopDouble L1.notionalSchedule_ L1.notionals_ redemptions
        (L1.notionalSchedule_.length - 1) 1 with
    | Except.error e => Except.error e
    | Except.ok ps =>
      Except.ok { L1 with cashflows_ := stable_sort (L1.cashflows_ ++ ps),
                          redemptions_ := ps }

/-- `Loan::setSingleRedemption(notional, redemption, date)` in `double` arithmetic: in
the amount `notional * redemption / 100.0` the product and the quotient are each
rounded. -/
def Loan.setSingleRedemptionDouble (L : Loan) (notional redemption : ℚ) (date : Nat) :
    Loan :=
  L.setSingleRedemptionCashflow notional
    (Redemption (divDouble (mulDouble notional redemption) 100) date)

/-- `LoanFunctions::dirtyPrice(loan, yield, settlement)` for an `InterestRate` in
`double` arithmetic: in `npv * 100.0 / loan.notional(settlement)` the product and the
quotient are each rounded. -/
def LoanFunctions.dirtyPriceRateDouble (S : Settings) (C : CashFlowsLib) (loan : Loan)
    (yield : InterestRate) (settlement : Nat) : Except Error ℚ :=
  let settlement := if settlement = nullDate then loan.settlementDate S nullDate else settlement
  match LoanFunctions.requireTradable S loan settlement with
  | Except.error e => Except.error e
  | Except.ok () =>
    match loan.notional S settlement with
    | Except.error e => Except.error e
    | Except.ok n =>
      Except.ok (divDouble (mulDouble (C.npv loan.cashflows_ yield false settlement) 100) n)

/-- The sum `a₁ + a₂ + ...` of a list of `Real`s in `double` arithmetic, from the left. -/
def sumDouble (l : List ℚ) : ℚ := l.foldl addDouble 0

/-- The `double` nearest to 1000000.10. -/
def doubleNominalA : ℚ := 8589935450993459 / 8589934592

/-- The `double` nearest to 250000.07. -/
def doubleNominalB : ℚ := 4294968498590843 / 17179869184

/-- The `double` nearest to 1314.13. -/
def doubleNotional : ℚ := 1444901215409275 / 1099511627776

/-- Two coupons on the nominals 1000000.10 and 250000.07, as `double`s. -/
def exampleDoubleLeg : List CashFlow :=
  [Coupon 10 5 doubleNominalA, Coupon 20 5 doubleNominalB]

theorem notLater_iff (a b : CashFlow) : notLater a b ↔ a.date ≤ b.date := by
  show ¬ b.date < a.date ↔ a.date ≤ b.date
  omega

/-! The notional schedule builder -/

/-- Date order of a leg, read off the list of its payment dates. -/
theorem sorted_notLater_iff (l : List CashFlow) :
    List.Sorted notLater l ↔ List.Chain' (fun a b => a ≤ b) (l.map CashFlow.date) := by
  rw [List.chain'_iff_pairwise, List.pairwise_map]
  unfold List.Sorted
  constructor
  · intro h
    exact h.imp (fun {a b} hab => (notLater_iff a b).mp hab)
  · intro h
    exact h.imp (fun {a b} hab => (notLater_iff a b).mpr hab)

theorem close_self (x : ℚ) : close x x = true := by
  simp [close, closeN]

theorem notionalStep_not_coupon (st : NotionalState) (cf : CashFlow)
    (h : cf.nominal? = none) : notionalStep st cf = Except.ok st := by
  simp [notionalStep, h]

theorem notionalStep_seed (st : NotionalState) (cf : CashFlow) (v : ℚ)
    (hv : cf.nominal? = some v) (h : st.notionals_ = []) :
    notionalStep st cf =
      Except.ok { st with notionals_ := [v], lastPaymentDate := cf.date } := by
  simp [notionalStep, hv, h]

theorem notionalStep_same (st : NotionalState) (cf : CashFlow) (v w : ℚ)
    (hv : cf.nominal? = some v) (h : st.notionals_.getLast? = some w)
    (hc : close v w = true) :
    notionalStep st cf = Except.ok { st with lastPaymentDate := cf.date } := by
  simp [notionalStep, hv, h, hc]

theorem notionalStep_lower (st : NotionalState) (cf : CashFlow) (v w : ℚ)
    (hv : cf.nominal? = some v) (h : st.notionals_.getLast? = some w)
    (hc : close v w = false) (hlt : v < w) :
    notionalStep st cf =
      Except.ok { notionalSchedule_ := st.notionalSchedule_ ++ [st.lastPaymentDate],
                  notionals_ := st.notionals_ ++ [v],
                  lastPaymentDate := cf.date } := by
  simp [notionalStep, hv, h, hc, hlt]

theorem notionalStep_higher (st : NotionalState) (cf : CashFlow) (v w : ℚ)
    (hv : cf.nominal? = some v) (h : st.notionals_.getLast? = some w)
    (hc : close v w = false) (hlt : ¬ v < w) :
    notionalStep st cf = Except.error Error.increasingCouponNotionals := by
  simp [notionalStep, hv, h, hc, hlt]

theorem notionalLoop_cons_ok (cf : CashFlow) (rest : List CashFlow)
    (st st1 : NotionalState) (h : notionalStep st cf = Except.ok st1) :
    notionalLoop (cf :: rest) st = notionalLoop rest st1 := by
  simp [notionalLoop, h]

theorem notionalLoop_cons_error (cf : CashFlow) (rest : List CashFlow)
    (st : NotionalState) (e : Error) (h : notionalStep st cf = Except.error e) :
    notionalLoop (cf :: rest) st = Except.error e := by
  simp [notionalLoop, h]

/-- Coupons carrying the running notional only move `lastPaymentDate`. -/
theorem notionalLoop_run_same (v : ℚ) (ps : List (Nat × ℚ)) (rest : List CashFlow)
    (st : NotionalState) (h : st.notionals_.getLast? = some v) :
    notionalLoop (runCoupons (v, ps) ++ rest) st =
      notionalLoop rest
        { st with lastPaymentDate := (ps.map Prod.fst).getLastD st.lastPaymentDate } := by
  induction ps generalizing st with
  | nil => simp [runCoupons]
  | cons p ps ih =>
    have hstep := notionalStep_same st
      { date := p.1, amount := p.2, kind := Kind.coupon v } v v rfl h (close_self v)
    have hrun : runCoupons (v, p :: ps) ++ rest =
        { date := p.1, amount := p.2, kind := Kind.coupon v } ::
          (runCoupons (v, ps) ++ rest) := by
      simp [runCoupons]
    rw [hrun, notionalLoop_cons_ok _ _ _ _ hstep, ih { st with lastPaymentDate := p.1 } h]
    rw [List.map_cons, List.getLastD_cons]

theorem runLastDate_cons (v : ℚ) (p : Nat × ℚ) (ps : List (Nat × ℚ)) :
    runLastDate (v, p :: ps) = (ps.map Prod.fst).getLastD p.1 := by
  unfold runLastDate
  rw [List.map_cons, List.getLastD_cons]

/-- Runs that step down from the running notional `w`: every run opens a breakpoint. -/
theorem notionalLoop_runs (runs : List (ℚ × List (Nat × ℚ))) (st : NotionalState) (w : ℚ)
    (h : st.notionals_.getLast? = some w)
    (hrun : ∀ r ∈ runs, r.2 ≠ [])
    (hdesc : List.Chain (fun a b => b < a ∧ close b a = false) w (runs.map Prod.fst)) :
    ∃ st1, notionalLoop (runsCoupons runs) st = Except.ok st1 ∧
      st1.notionalSchedule_ ++ [st1.lastPaymentDate] =
        st.notionalSchedule_ ++ (st.lastPaymentDate :: runs.map runLastDate) ∧
      st1.notionals_ = st.notionals_ ++ runs.map Prod.fst := by
  induction runs generalizing st w with
  | nil => exact ⟨st, by simp [runsCoupons, notionalLoop], by simp, by simp⟩
  | cons r rs ih =>
    obtain ⟨v, ps⟩ := r
    cases ps with
    | nil => exact absurd rfl (hrun (v, []) (List.mem_cons_self _ _))
    | cons p ps =>
      simp only [List.map_cons, List.chain_cons] at hdesc
      obtain ⟨⟨hlt, hcl⟩, htail⟩ := hdesc
      have hstep := notionalStep_lower st
        { date := p.1, amount := p.2, kind := Kind.coupon v } v w rfl h hcl hlt
      have hsplit : runsCoupons ((v, p :: ps) :: rs) =
          { date := p.1, amount := p.2, kind := Kind.coupon v } ::
            (runCoupons (v, ps) ++ runsCoupons rs) := by
        simp [runsCoupons, runCoupons]
      have hlast : (st.notionals_ ++ [v]).getLast? = some v := by simp
      obtain ⟨st1, hloop, hsched, hnots⟩ :=
        ih { notionalSchedule_ := st.notionalSchedule_ ++ [st.lastPaymentDate],
             notionals_ := st.notionals_ ++ [v],
             lastPaymentDate := (ps.map Prod.fst).getLastD p.1 } v hlast
          (fun r hr => hrun r (List.mem_cons_of_mem _ hr)) htail
      refine ⟨st1, ?_, ?_, ?_⟩
      · rw [hsplit, notionalLoop_cons_ok _ _ _ _ hstep,
          notionalLoop_run_same v ps (runsCoupons rs) _ hlast]
        exact hloop
      · rw [hsched]
        simp only [List.map_cons, runLastDate_cons, List.append_assoc, List.singleton_append]
      · rw [hnots]
        simp

/-- Closed form of the schedule built from a coupon list given by its runs. -/
theorem notionalsFromCashflows_runs (runs : List (ℚ × List (Nat × ℚ)))
    (hne : runs ≠ []) (hrun : ∀ r ∈ runs, r.2 ≠ [])
    (hdesc : List.Chain' (fun a b => b < a ∧ close b a = false) (runs.map Prod.fst)) :
    notionalsFromCashflows (runsCoupons runs) =
      Except.ok (nullDate :: runs.map runLastDate, runs.map Prod.fst ++ [0]) := by
  cases runs with
  | nil => exact absurd rfl hne
  | cons r rs =>
    obtain ⟨v, ps⟩ := r
    cases ps with
    | nil => exact absurd rfl (hrun (v, []) (List.mem_cons_self _ _))
    | cons p ps =>
      have hstep := notionalStep_seed notionalInit
        { date := p.1, amount := p.2, kind := Kind.coupon v } v rfl rfl
      have hsplit : runsCoupons ((v, p :: ps) :: rs) =
          { date := p.1, amount := p.2, kind := Kind.coupon v } ::
            (runCoupons (v, ps) ++ runsCoupons rs) := by
        simp [runsCoupons, runCoupons]
      have hlast : ([v] : List ℚ).getLast? = some v := rfl
      obtain ⟨st1, hloop, hsched, hnots⟩ :=
        notionalLoop_runs rs
          { notionalSchedule_ := [nullDate], notionals_ := [v],
            lastPaymentDate := (ps.map Prod.fst).getLastD p.1 } v hlast
          (fun r hr => hrun r (List.mem_cons_of_mem _ hr)) hdesc
      have hfull : notionalLoop (runsCoupons ((v, p :: ps) :: rs)) notionalInit =
          Except.ok st1 := by
        rw [hsplit, notionalLoop_cons_ok _ _ _ _ hstep,
          notionalLoop_run_same v ps (runsCoupons rs) _ hlast]
        exact hloop
      have hnonempty : st1.notionals_.isEmpty = false := by
        rw [hnots]; rfl
      simp only [notionalsFromCashflows, hfull, hnonempty]
      rw [hsched, hnots]
      simp only [List.map_cons, runLastDate_cons, List.singleton_append, Bool.false_eq_true,
        if_false]

theorem calculateNotionalsFromCashflows_ok (L : Loan) (sched : List Nat) (nots : List ℚ)
    (h : notionalsFromCashflows L.cashflows_ = Except.ok (sched, nots)) :
    L.calculateNotionalsFromCashflows =
      Except.ok { L with notionalSchedule_ := sched, notionals_ := nots } := by
  simp [Loan.calculateNotionalsFromCashflows, h]

theorem calculateNotionalsFromCashflows_error (L : Loan) (e : Error)
    (h : notionalsFromCashflows L.cashflows_ = Except.error e) :
    L.calculateNotionalsFromCashflows = Except.error e := by
  simp [Loan.calculateNotionalsFromCashflows, h]

/-- C1: for a coupon list made of `k ≥ 1` runs of equal nominal, each run's nominal
strictly lower than, and not close to, the previous run's,
`calculateNotionalsFromCashflows` succeeds with `notionals_` = the run values followed
by `0` and `notionalSchedule_` = the null date followed by the payment date of the last
coupon of every run (whatever the dates are); and the four-level example
1,000,000 / 750,000 / 500,000 / 250,000 has 5 breakpoints and, after
`addRedemptionsToCashflows`, 4 principal payments of 250,000 each. -/
theorem C1_schedule_from_runs :
    (∀ (L : Loan) (runs : List (ℚ × List (Nat × ℚ))),
      runs ≠ [] → (∀ r ∈ runs, r.2 ≠ []) →
      List.Chain' (fun a b => b < a ∧ close b a = false) (runs.map Prod.fst) →
      L.cashflows_ = runsCoupons runs →
      L.calculateNotionalsFromCashflows =
        Except.ok { L with notionalSchedule_ := nullDate :: runs.map runLastDate,
                           notionals_ := runs.map Prod.fst ++ [0] }) ∧
    ((Loan.ofCashflows (runsCoupons fourLevelRuns)).addRedemptionsToCashflows []).map
        (fun L => (L.notionalSchedule_.length, L.notionalSchedule_, L.notionals_,
          L.redemptions_.map CashFlow.amount)) =
      Except.ok (5, [0, 365, 730, 1095, 1460], [1000000, 750000, 500000, 250000, 0],
        [250000, 250000, 250000, 250000]) := by
  refine ⟨?_, by decide!⟩
  intro L runs hne hrun hdesc hcf
  apply calculateNotionalsFromCashflows_ok
  rw [hcf]
  exact notionalsFromCashflows_runs runs hne hrun hdesc

/-- C1 at the four-level example: the schedule of the sixteen quarterly coupons. -/
theorem C1_schedule_from_runs_witness :
    (Loan.ofCashflows (runsCoupons fourLevelRuns)).calculateNotionalsFromCashflows =
      Except.ok { Loan.ofCashflows (runsCoupons fourLevelRuns) with
        notionalSchedule_ := nullDate :: fourLevelRuns.map runLastDate,
        notionals_ := fourLevelRuns.map Prod.fst ++ [0] } :=
  C1_schedule_from_runs.1 (Loan.ofCashflows (runsCoupons fourLevelRuns)) fourLevelRuns
    (by decide!) (by decide!)
    (by
      simp only [fourLevelRuns, List.map, List.chain'_cons, List.chain'_singleton]
      decide!)
    rfl

theorem couponNominals_cons_coupon (cf : CashFlow) (rest : List CashFlow) (v : ℚ)
    (h : cf.nominal? = some v) :
    couponNominals (cf :: rest) = v :: couponNominals rest := by
  simp [couponNominals, List.filterMap_cons, h]

theorem couponNominals_cons_other (cf : CashFlow) (rest : List CashFlow)
    (h : cf.nominal? = none) :
    couponNominals (cf :: rest) = couponNominals rest := by
  simp [couponNominals, List.filterMap_cons, h]

/-- From a state with running notional `r` and coupon nominals never above `r` and never
increasing, the loop succeeds and appends a non-increasing list of coupon nominals. -/
theorem notionalLoop_nonincreasing (rest : List CashFlow) (st : NotionalState) (r : ℚ)
    (h : st.notionals_.getLast? = some r)
    (hsorted : List.Pairwise (fun a b => b ≤ a) (r :: couponNominals rest)) :
    ∃ st1 ext, notionalLoop rest st = Except.ok st1 ∧
      st1.notionals_ = st.notionals_ ++ ext ∧
      List.Pairwise (fun a b => b ≤ a) (r :: ext) ∧
      (∀ x ∈ ext, x ∈ couponNominals rest) := by
  induction rest generalizing st r with
  | nil =>
    exact ⟨st, [], rfl, by simp, by simp, by simp⟩
  | cons cf rest ih =>
    cases hv : cf.nominal? with
    | none =>
      rw [couponNominals_cons_other cf rest hv] at hsorted
      obtain ⟨st1, ext, hloop, hnots, hpw, hmem⟩ := ih st r h hsorted
      refine ⟨st1, ext, ?_, hnots, hpw, ?_⟩
      · rw [notionalLoop_cons_ok cf rest st st (notionalStep_not_coupon st cf hv)]
        exact hloop
      · intro x hx
        rw [couponNominals_cons_other cf rest hv]
        exact hmem x hx
    | some v =>
      rw [couponNominals_cons_coupon cf rest v hv] at hsorted
      have hvr : v ≤ r := (List.pairwise_cons.mp hsorted).1 v (List.mem_cons_self _ _)
      have htail : List.Pairwise (fun a b => b ≤ a) (v :: couponNominals rest) :=
        (List.pairwise_cons.mp hsorted).2
      cases hc : close v r with
      | true =>
        have hsorted1 : List.Pairwise (fun a b => b ≤ a) (r :: couponNominals rest) :=
          List.pairwise_cons.mpr
            ⟨fun x hx => (List.pairwise_cons.mp hsorted).1 x (List.mem_cons_of_mem _ hx),
             (List.pairwise_cons.mp htail).2⟩
        obtain ⟨st1, ext, hloop, hnots, hpw, hmem⟩ :=
          ih { st with lastPaymentDate := cf.date } r h hsorted1
        refine ⟨st1, ext, ?_, hnots, hpw, ?_⟩
        · rw [notionalLoop_cons_ok cf rest st _ (notionalStep_same st cf v r hv h hc)]
          exact hloop
        · intro x hx
          rw [couponNominals_cons_coupon cf rest v hv]
          exact List.mem_cons_of_mem _ (hmem x hx)
      | false =>
        have hne : v ≠ r := by
          intro heq
          rw [heq, close_self] at hc
          exact Bool.noConfusion hc
        have hlt : v < r := lt_of_le_of_ne hvr hne
        have hlast : (st.notionals_ ++ [v]).getLast? = some v := by simp
        obtain ⟨st1, ext, hloop, hnots, hpw, hmem⟩ :=
          ih { notionalSchedule_ := st.notionalSchedule_ ++ [st.lastPaymentDate],
               notionals_ := st.notionals_ ++ [v],
               lastPaymentDate := cf.date } v hlast htail
        refine ⟨st1, v :: ext, ?_, ?_, ?_, ?_⟩
        · rw [notionalLoop_cons_ok cf rest st _ (notionalStep_lower st cf v r hv h hc hlt)]
          exact hloop
        · rw [hnots]; simp
        · refine List.pairwise_cons.mpr ⟨?_, hpw⟩
          intro x hx
          rcases List.mem_cons.mp hx with hx | hx
          · rw [hx]; exact hvr
          · exact le_trans ((List.pairwise_cons.mp hpw).1 x hx) hvr
        · intro x hx
          rw [couponNominals_cons_coupon cf rest v hv]
          rcases List.mem_cons.mp hx with hx | hx
          · rw [hx]; exact List.mem_cons_self _ _
          · exact List.mem_cons_of_mem _ (hmem x hx)

/-- Leading non-coupon cash flows are skipped while no notional has been seen. -/
theorem notionalLoop_nonincreasing_init (cfs : List CashFlow) (st : NotionalState)
    (h : st.notionals_ = [])
    (hne : couponNominals cfs ≠ [])
    (hsorted : List.Pairwise (fun a b => b ≤ a) (couponNominals cfs)) :
    ∃ st1 ext, notionalLoop cfs st = Except.ok st1 ∧
      st1.notionals_ = ext ∧ ext ≠ [] ∧
      List.Pairwise (fun a b => b ≤ a) ext ∧
      (∀ x ∈ ext, x ∈ couponNominals cfs) := by
  induction cfs generalizing st with
  | nil => exact absurd rfl hne
  | cons cf rest ih =>
    cases hv : cf.nominal? with
    | none =>
      rw [couponNominals_cons_other cf rest hv] at hsorted hne
      obtain ⟨st1, ext, hloop, hnots, hext, hpw, hmem⟩ := ih st h hne hsorted
      refine ⟨st1, ext, ?_, hnots, hext, hpw, ?_⟩
      · rw [notionalLoop_cons_ok cf rest st st (notionalStep_not_coupon st cf hv)]
        exact hloop
      · intro x hx
        rw [couponNominals_cons_other cf rest hv]
        exact hmem x hx
    | some v =>
      rw [couponNominals_cons_coupon cf rest v hv] at hsorted
      have hlast : ([v] : List ℚ).getLast? = some v := rfl
      obtain ⟨st1, ext, hloop, hnots, hpw, hmem⟩ :=
        notionalLoop_nonincreasing rest
          { st with notionals_ := [v], lastPaymentDate := cf.date } v hlast hsorted
      refine ⟨st1, v :: ext, ?_, ?_, by simp, hpw, ?_⟩
      · rw [notionalLoop_cons_ok cf rest st _ (notionalStep_seed st cf v hv h)]
        exact hloop
      · rw [hnots]; rfl
      · intro x hx
        rw [couponNominals_cons_coupon cf rest v hv]
        rcases List.mem_cons.mp hx with hx | hx
        · rw [hx]; exact List.mem_cons_self _ _
        · exact List.mem_cons_of_mem _ (hmem x hx)

/-- C2 (as amended): for every ledger with at least one coupon whose coupon nominals are
non-increasing and non-negative, `calculateNotionalsFromCashflows` succeeds, the
`notionals_` it builds are non-increasing across all breakpoints, the step to the
appended final entry included, and the final value is exactly `0`. -/
theorem C2_nonincreasing_schedule (L : Loan)
    (hne : couponNominals L.cashflows_ ≠ [])
    (hsorted : List.Chain' (fun a b => b ≤ a) (couponNominals L.cashflows_))
    (hpos : ∀ x ∈ couponNominals L.cashflows_, 0 ≤ x) :
    ∃ sched nots,
      L.calculateNotionalsFromCashflows =
        Except.ok { L with notionalSchedule_ := sched, notionals_ := nots } ∧
      List.Chain' (fun a b => b ≤ a) nots ∧
      nots.getLast? = some 0 := by
  have hpw : List.Pairwise (fun a b => b ≤ a) (couponNominals L.cashflows_) :=
    List.chain'_iff_pairwise.mp hsorted
  obtain ⟨st1, ext, hloop, hnots, hext, hpwext, hmem⟩ :=
    notionalLoop_nonincreasing_init L.cashflows_ notionalInit rfl hne hpw
  have hnonempty : st1.notionals_.isEmpty = false := by
    rw [hnots]
    cases ext with
    | nil => exact absurd rfl hext
    | cons a l => rfl
  refine ⟨st1.notionalSchedule_ ++ [st1.lastPaymentDate], ext ++ [0], ?_, ?_, ?_⟩
  · apply calculateNotionalsFromCashflows_ok
    simp only [notionalsFromCashflows, hloop, hnonempty]
    rw [hnots]
    rfl
  · apply List.Pairwise.chain'
    rw [List.pairwise_append]
    refine ⟨hpwext, List.pairwise_singleton _ _, ?_⟩
    intro a ha b hb
    rw [List.mem_singleton] at hb
    rw [hb]
    exact hpos a (hmem a ha)
  · exact List.getLast?_concat ext

/-- C2 (as amended) on three coupons with nominals 100, 100, 50. -/
theorem C2_nonincreasing_schedule_witness :
    ∃ sched nots,
      (Loan.ofCashflows
        [Coupon 10 5 100, Coupon 20 5 100, Coupon 30 5 50]).calculateNotionalsFromCashflows =
        Except.ok { Loan.ofCashflows [Coupon 10 5 100, Coupon 20 5 100, Coupon 30 5 50] with
          notionalSchedule_ := sched, notionals_ := nots } ∧
      List.Chain' (fun a b => b ≤ a) nots ∧
      nots.getLast? = some 0 :=
  C2_nonincreasing_schedule
    (Loan.ofCashflows [Coupon 10 5 100, Coupon 20 5 100, Coupon 30 5 50])
    (by decide!)
    (by
      have h : couponNominals
          (Loan.ofCashflows [Coupon 10 5 100, Coupon 20 5 100, Coupon 30 5 50]).cashflows_ =
          [100, 100, 50] := by decide!
      rw [h]
      simp only [List.chain'_cons, List.chain'_singleton]
      decide!)
    (by decide!)

/-- C2 as stated fails: a single coupon with nominal `-100` is a date-sorted coupon list
with non-increasing nominals, yet the `notionals_` built are `[-100, 0]`, which increase
at the step to the appended final entry; and on the empty coupon list the schedule
builder does not succeed at all. -/
theorem C2_counterexample :
    List.Sorted notLater [Coupon 10 1 (-100)] ∧
    List.Chain' (fun a b => b ≤ a)
      (couponNominals [Coupon 10 1 (-100)]) ∧
    notionalsFromCashflows [Coupon 10 1 (-100)] =
      Except.ok ([0, 10], [-100, 0]) ∧
    ¬ List.Chain' (fun a b => b ≤ a) ([-100, 0] : List ℚ) ∧
    notionalsFromCashflows [] = Except.error Error.noCouponsProvided := by
  refine ⟨List.sorted_singleton _, ?_, by decide!, ?_, by decide!⟩
  · have h : couponNominals [Coupon 10 1 (-100)] = [-100] := by decide!
    rw [h]
    exact List.chain'_singleton _
  · simp

theorem notionalStep_error (st : NotionalState) (cf : CashFlow) (e : Error)
    (h : notionalStep st cf = Except.error e) : e = Error.increasingCouponNotionals := by
  unfold notionalStep at h
  split at h
  · cases h
  · split at h
    · cases h
    · split at h
      · split at h
        · cases h
        · cases h; rfl
      · cases h

/-- The loop of the schedule builder can only fail with "increasing coupon notionals". -/
theorem notionalLoop_error (l : List CashFlow) (st : NotionalState) (e : Error)
    (h : notionalLoop l st = Except.error e) : e = Error.increasingCouponNotionals := by
  induction l generalizing st with
  | nil => cases h
  | cons cf rest ih =>
    cases hstep : notionalStep st cf with
    | error e1 =>
      rw [notionalLoop_cons_error cf rest st e1 hstep] at h
      cases h
      exact notionalStep_error st cf e hstep
    | ok st1 =>
      rw [notionalLoop_cons_ok cf rest st st1 hstep] at h
      exact ih st1 h

theorem notionalLoop_append (a b : List CashFlow) (st : NotionalState) :
    notionalLoop (a ++ b) st =
      match notionalLoop a st with
      | Except.error e => Except.error e
      | Except.ok st1 => notionalLoop b st1 := by
  induction a generalizing st with
  | nil => simp [notionalLoop]
  | cons cf rest ih =>
    cases hstep : notionalStep st cf with
    | error e1 =>
      rw [List.cons_append, notionalLoop_cons_error cf _ st e1 hstep,
        notionalLoop_cons_error cf _ st e1 hstep]
    | ok st1 =>
      rw [List.cons_append, notionalLoop_cons_ok cf _ st st1 hstep,
        notionalLoop_cons_ok cf _ st st1 hstep]
      exact ih st1

theorem notionalStep_mem (st st1 : NotionalState) (cf : CashFlow)
    (h : notionalStep st cf = Except.ok st1) :
    (∀ x ∈ st1.notionals_, x ∈ st.notionals_ ∨ cf.nominal? = some x) ∧
    (cf.nominal? ≠ none → st1.notionals_ ≠ []) ∧
    (st.notionals_ ≠ [] → st1.notionals_ ≠ []) := by
  unfold notionalStep at h
  split at h
  · next hv =>
    cases h
    exact ⟨fun x hx => Or.inl hx, fun hc => absurd hv hc, fun hn => hn⟩
  · next v hv =>
    split at h
    · cases h
      refine ⟨?_, by simp, by simp⟩
      intro x hx
      simp only [List.mem_append, List.mem_singleton] at hx
      rcases hx with hx | hx
      · exact Or.inl hx
      · exact Or.inr (by rw [hx]; exact hv)
    · next back hback =>
      have hnonempty : st.notionals_ ≠ [] := by
        intro hnil
        rw [hnil] at hback
        cases hback
      split at h
      · split at h
        · cases h
          refine ⟨?_, by simp, by simp⟩
          intro x hx
          simp only [List.mem_append, List.mem_singleton] at hx
          rcases hx with hx | hx
          · exact Or.inl hx
          · exact Or.inr (by rw [hx]; exact hv)
        · cases h
      · cases h
        exact ⟨fun x hx => Or.inl hx, fun _ => hnonempty, fun hn => hn⟩

/-- Every notional recorded by the loop is the nominal of a coupon it has scanned. -/
theorem notionalLoop_mem (l : List CashFlow) (st st1 : NotionalState)
    (h : notionalLoop l st = Except.ok st1) :
    (∀ x ∈ st1.notionals_, x ∈ st.notionals_ ∨ x ∈ couponNominals l) ∧
    (couponNominals l ≠ [] → st1.notionals_ ≠ []) ∧
    (st.notionals_ ≠ [] → st1.notionals_ ≠ []) := by
  induction l generalizing st with
  | nil =>
    cases h
    exact ⟨fun x hx => Or.inl hx, fun hc => absurd rfl hc, fun hn => hn⟩
  | cons cf rest ih =>
    cases hstep : notionalStep st cf with
    | error e1 =>
      rw [notionalLoop_cons_error cf rest st e1 hstep] at h
      cases h
    | ok st2 =>
      rw [notionalLoop_cons_ok cf rest st st2 hstep] at h
      obtain ⟨hmem2, hne2, hkeep2⟩ := notionalStep_mem st st2 cf hstep
      obtain ⟨hmem, hne, hkeep⟩ := ih st2 h
      refine ⟨?_, ?_, fun hn => hkeep (hkeep2 hn)⟩
      · intro x hx
        rcases hmem x hx with hx2 | hx2
        · rcases hmem2 x hx2 with hx3 | hx3
          · exact Or.inl hx3
          · exact Or.inr (by rw [couponNominals_cons_coupon cf rest x hx3]
                             exact List.mem_cons_self _ _)
        · refine Or.inr ?_
          cases hv : cf.nominal? with
          | none => rw [couponNominals_cons_other cf rest hv]; exact hx2
          | some v =>
            rw [couponNominals_cons_coupon cf rest v hv]
            exact List.mem_cons_of_mem _ hx2
      · intro _
        cases hv : cf.nominal? with
        | none =>
          apply hne
          intro hnil
          have := couponNominals_cons_other cf rest hv
          simp_all
        | some v =>
          exact hkeep (hne2 (by rw [hv]; simp))

theorem runningNotionalFrom_nil (b : Option ℚ) : runningNotionalFrom b [] = b := by
  cases b <;> rfl

theorem notionalLoop_running (l : List CashFlow) (st : NotionalState) :
    (∃ e, notionalLoop l st = Except.error e) ∨
    ∃ st1, notionalLoop l st = Except.ok st1 ∧
      st1.notionals_.getLast? =
        runningNotionalFrom st.notionals_.getLast? (couponNominals l) := by
  induction l generalizing st with
  | nil => exact Or.inr ⟨st, rfl, (runningNotionalFrom_nil _).symm⟩
  | cons cf rest ih =>
    cases hv : cf.nominal? with
    | none =>
      rw [notionalLoop_cons_ok cf rest st st (notionalStep_not_coupon st cf hv),
        couponNominals_cons_other cf rest hv]
      exact ih st
    | some v =>
      rw [couponNominals_cons_coupon cf rest v hv]
      cases hb : st.notionals_.getLast? with
      | none =>
        have hnil : st.notionals_ = [] := List.getLast?_eq_none_iff.mp hb
        rw [notionalLoop_cons_ok cf rest st _ (notionalStep_seed st cf v hv hnil)]
        rcases ih { st with notionals_ := [v], lastPaymentDate := cf.date } with h | h
        · exact Or.inl h
        · exact Or.inr h
      | some b =>
        by_cases hc : close v b = true
        · rw [notionalLoop_cons_ok cf rest st _ (notionalStep_same st cf v b hv hb hc)]
          rcases ih { st with lastPaymentDate := cf.date } with h | h
          · exact Or.inl h
          · refine Or.inr ?_
            obtain ⟨st1, h1, h2⟩ := h
            refine ⟨st1, h1, ?_⟩
            rw [h2]
            show runningNotionalFrom st.notionals_.getLast? _ = _
            rw [hb]
            simp [runningNotionalFrom, hc]
        · have hc1 : close v b = false := by simpa using hc
          by_cases hlt : v < b
          · rw [notionalLoop_cons_ok cf rest st _
              (notionalStep_lower st cf v b hv hb hc1 hlt)]
            rcases ih { notionalSchedule_ := st.notionalSchedule_ ++ [st.lastPaymentDate],
                        notionals_ := st.notionals_ ++ [v],
                        lastPaymentDate := cf.date } with h | h
            · exact Or.inl h
            · refine Or.inr ?_
              obtain ⟨st1, h1, h2⟩ := h
              refine ⟨st1, h1, ?_⟩
              rw [h2]
              simp [runningNotionalFrom, hc1, hlt]
          · exact Or.inl ⟨_, notionalLoop_cons_error cf rest st _
              (notionalStep_higher st cf v b hv hb hc1 hlt)⟩

/-- C3 (as amended): if some coupon of the ledger has a nominal greater than, and not
within the tolerance of `close` of, the running notional at that coupon (the nominal of
the first coupon, replaced by every later nominal that is lower than it beyond the
tolerance), `calculateNotionalsFromCashflows` fails with "increasing coupon notionals"
and returns no schedule. -/
theorem C3_increase_beyond_tolerance_fails (L : Loan) (pre post : List CashFlow)
    (c : CashFlow) (v b : ℚ)
    (hcf : L.cashflows_ = pre ++ c :: post)
    (hv : c.nominal? = some v)
    (hrun : runningNotional (couponNominals pre) = some b)
    (hinc : b < v ∧ close v b = false) :
    L.calculateNotionalsFromCashflows = Except.error Error.increasingCouponNotionals := by
  apply calculateNotionalsFromCashflows_error
  have hloop : notionalLoop (pre ++ c :: post) notionalInit =
      Except.error Error.increasingCouponNotionals := by
    rw [notionalLoop_append]
    rcases notionalLoop_running pre notionalInit with ⟨e, he⟩ | ⟨st1, h1, h2⟩
    · rw [he, notionalLoop_error pre notionalInit e he]
    · rw [h1]
      have hlast : st1.notionals_.getLast? = some b := by
        rw [h2]
        exact hrun
      exact notionalLoop_cons_error c post st1 _
        (notionalStep_higher st1 c v b hv hlast hinc.2 (not_lt.mpr (le_of_lt hinc.1)))
  rw [hcf]
  simp only [notionalsFromCashflows, hloop]

/-- C3 (as amended) on coupons with nominals 100, 50, 75: the running notional at the
third coupon is 50. -/
theorem C3_increase_beyond_tolerance_fails_witness :
    runningNotional (couponNominals [Coupon 10 5 100, Coupon 20 5 50]) = some 50 ∧
    (Loan.ofCashflows
      ([Coupon 10 5 100, Coupon 20 5 50] ++
        Coupon 30 5 75 :: [])).calculateNotionalsFromCashflows =
      Except.error Error.increasingCouponNotionals :=
  ⟨by decide!,
   C3_increase_beyond_tolerance_fails
    (Loan.ofCashflows ([Coupon 10 5 100, Coupon 20 5 50] ++ Coupon 30 5 75 :: []))
    [Coupon 10 5 100, Coupon 20 5 50] [] (Coupon 30 5 75) 75 50 rfl rfl
    (by decide!) (by decide!)⟩

/-- C3 as stated fails.  The second coupon's nominal 1,000,000.000000001 is greater than
the first coupon's 1,000,000, but within the tolerance of `close`, and the schedule
builder succeeds with `notionals_ = [1000000, 0]`.  And with the nominals `2^52`,
`2^52 - 30`, `2^52 + 30` the third is greater than the second and not within the
tolerance of it, but within the tolerance of the running notional `2^52`: the builder
succeeds with `notionals_ = [2^52, 0]`. -/
theorem C3_counterexample :
    List.Sorted notLater
      [Coupon 10 1 1000000, Coupon 20 1 (1000000 + 1 / 1000000000)] ∧
    (1000000 : ℚ) < 1000000 + 1 / 1000000000 ∧
    (Loan.ofCashflows
      [Coupon 10 1 1000000,
       Coupon 20 1 (1000000 + 1 / 1000000000)]).calculateNotionalsFromCashflows.map
      (fun L => (L.notionalSchedule_, L.notionals_)) =
      Except.ok ([0, 20], [1000000, 0]) ∧
    List.Sorted notLater
      [Coupon 10 1 4503599627370496, Coupon 20 1 4503599627370466,
       Coupon 30 1 4503599627370526] ∧
    (4503599627370466 : ℚ) < 4503599627370526 ∧
    close 4503599627370526 4503599627370466 = false ∧
    (Loan.ofCashflows
      [Coupon 10 1 4503599627370496, Coupon 20 1 4503599627370466,
       Coupon 30 1 4503599627370526]).calculateNotionalsFromCashflows.map
      (fun L => (L.notionalSchedule_, L.notionals_)) =
      Except.ok ([0, 30], [4503599627370496, 0]) := by
  refine ⟨?_, by decide!, by decide!, ?_, by decide!, by decide!, by decide!⟩
  · rw [sorted_notLater_iff]
    simp [Coupon]
  · rw [sorted_notLater_iff]
    simp [Coupon]

/-! The redemption synthesizer -/

theorem vectorAt_of_lt {α : Type} (v : List α) (i : Nat) (d : α) (h : i < v.length) :
    vectorAt v i = Except.ok (v.getD i d) := by
  simp [vectorAt, List.getD, List.getElem?_eq_getElem h]

theorem vectorAt_of_le {α : Type} (v : List α) (i : Nat) (h : v.length ≤ i) :
    vectorAt v i = Except.error Error.outOfRange := by
  simp [vectorAt, List.getElem?_eq_none h]

theorem redemptionFactor_eq_specFactor (factors : List ℚ) (i : Nat) :
    redemptionFactor factors i = specFactor factors i := by
  unfold redemptionFactor specFactor
  by_cases h : i < factors.length
  · simp [h, List.getElem?_eq_getElem h]
  · simp [h, List.getElem?_eq_none (Nat.le_of_not_lt h)]

/-- Inside the schedule the loop body creates the record the spec describes. -/
theorem redemptionPayment_eq (sched : List Nat) (nots : List ℚ) (factors : List ℚ)
    (i : Nat) (h1 : 1 ≤ i) (hi : i < sched.length) (hlen : sched.length = nots.length) :
    redemptionPayment sched nots factors i =
      Except.ok (principalRecord sched nots factors i) := by
  have ha : vectorAt nots (i - 1) = Except.ok (nots.getD (i - 1) 0) :=
    vectorAt_of_lt nots (i - 1) 0 (by omega)
  have hb : vectorAt nots i = Except.ok (nots.getD i 0) :=
    vectorAt_of_lt nots i 0 (by omega)
  have hd : vectorAt sched i = Except.ok (sched.getD i nullDate) :=
    vectorAt_of_lt sched i nullDate hi
  unfold redemptionPayment
  rw [ha, hb, hd, redemptionFactor_eq_specFactor]
  by_cases hlast : i < sched.length - 1
  · have hne : ¬ (i + 1 = sched.length) := by omega
    simp [hlast, hne, principalRecord, AmortizingPayment]
  · have heq : i + 1 = sched.length := by omega
    simp [hlast, heq, principalRecord, Redemption]

/-- The loop emits one record per index, in index order. -/
theorem redemptionLoop_eq (sched : List Nat) (nots : List ℚ) (factors : List ℚ)
    (hlen : sched.length = nots.length) (k i : Nat) (h1 : 1 ≤ i)
    (hk : i + k ≤ sched.length) :
    redemptionLoop sched nots factors k i =
      Except.ok ((List.range' i k).map (principalRecord sched nots factors)) := by
  induction k generalizing i with
  | zero => rfl
  | succ k ih =>
    have hp := redemptionPayment_eq sched nots factors i h1 (by omega) hlen
    have hrest := ih (i + 1) (by omega) (by omega)
    simp only [redemptionLoop, hp, hrest, List.range'_succ, List.map_cons]

theorem notionalStep_wellShaped (st st1 : NotionalState) (cf : CashFlow)
    (h : notionalStep st cf = Except.ok st1) (hw : st.wellShaped) : st1.wellShaped := by
  unfold notionalStep at h
  split at h
  · cases h; exact hw
  · split at h
    · next hnone =>
      cases h
      have hnil : st.notionals_ = [] := List.getLast?_eq_none_iff.mp hnone
      rcases hw with ⟨_, hl⟩ | ⟨hne, _⟩
      · exact Or.inr ⟨by simp, by simp [hl, hnil]⟩
      · exact absurd hnil hne
    · next back hback =>
      have hnonempty : st.notionals_ ≠ [] := by
        intro hnil
        rw [hnil] at hback
        cases hback
      rcases hw with ⟨hnil, _⟩ | ⟨_, hl⟩
      · exact absurd hnil hnonempty
      · split at h
        · split at h
          · cases h
            exact Or.inr ⟨by simp, by simp [hl]⟩
          · cases h
        · cases h
          exact Or.inr ⟨hnonempty, hl⟩

theorem notionalLoop_wellShaped (l : List CashFlow) (st st1 : NotionalState)
    (h : notionalLoop l st = Except.ok st1) (hw : st.wellShaped) : st1.wellShaped := by
  induction l generalizing st with
  | nil => cases h; exact hw
  | cons cf rest ih =>
    cases hstep : notionalStep st cf with
    | error e1 =>
      rw [notionalLoop_cons_error cf rest st e1 hstep] at h
      cases h
    | ok st2 =>
      rw [notionalLoop_cons_ok cf rest st st2 hstep] at h
      exact ih st2 h (notionalStep_wellShaped st st2 cf hstep hw)

/-- What a successful run of the schedule builder returns, in terms of the loop. -/
theorem notionalsFromCashflows_ok_iff (cfs : List CashFlow) (sched : List Nat)
    (nots : List ℚ) :
    notionalsFromCashflows cfs = Except.ok (sched, nots) ↔
      ∃ st, notionalLoop cfs notionalInit = Except.ok st ∧ st.notionals_ ≠ [] ∧
        sched = st.notionalSchedule_ ++ [st.lastPaymentDate] ∧
        nots = st.notionals_ ++ [0] := by
  unfold notionalsFromCashflows
  cases hloop : notionalLoop cfs notionalInit with
  | error e => simp
  | ok st =>
    by_cases hnil : st.notionals_ = []
    · simp [hnil]
    · simp only [List.isEmpty_iff, hnil, if_false, Except.ok.injEq, Prod.mk.injEq]
      constructor
      · rintro ⟨h1, h2⟩
        exact ⟨st, rfl, hnil, h1.symm, h2.symm⟩
      · rintro ⟨st2, hst, _, h1, h2⟩
        cases hst
        exact ⟨h1.symm, h2.symm⟩

/-- The two vectors built have the same length, at least two. -/
theorem notionalsFromCashflows_length (cfs : List CashFlow) (sched : List Nat)
    (nots : List ℚ) (h : notionalsFromCashflows cfs = Except.ok (sched, nots)) :
    sched.length = nots.length ∧ 2 ≤ sched.length := by
  obtain ⟨st, hloop, hne, hs, hn⟩ := (notionalsFromCashflows_ok_iff cfs sched nots).mp h
  have hw := notionalLoop_wellShaped cfs notionalInit st hloop (Or.inl ⟨rfl, rfl⟩)
  rcases hw with ⟨hnil, _⟩ | ⟨_, hl⟩
  · exact absurd hnil hne
  · have hpos : 0 < st.notionals_.length := List.length_pos.mpr hne
    rw [hs, hn]
    simp only [List.length_append, List.length_singleton]
    omega

theorem calculateNotionalsFromCashflows_ok_iff (L L1 : Loan) :
    L.calculateNotionalsFromCashflows = Except.ok L1 ↔
      ∃ sched nots, notionalsFromCashflows L.cashflows_ = Except.ok (sched, nots) ∧
        L1 = { L with notionalSchedule_ := sched, notionals_ := nots } := by
  unfold Loan.calculateNotionalsFromCashflows
  cases hn : notionalsFromCashflows L.cashflows_ with
  | error e => simp
  | ok p =>
    obtain ⟨sched, nots⟩ := p
    simp only [Except.ok.injEq, Prod.mk.injEq]
    constructor
    · intro h
      exact ⟨sched, nots, ⟨rfl, rfl⟩, h.symm⟩
    · rintro ⟨s2, n2, ⟨h1, h2⟩, h3⟩
      rw [h3, h1, h2]

/-- Closed form of `addRedemptionsToCashflows` once the schedule builder has succeeded. -/
theorem addRedemptionsToCashflows_eq (L L1 : Loan) (factors : List ℚ)
    (h : L.calculateNotionalsFromCashflows = Except.ok L1) :
    L1.notionalSchedule_.length = L1.notionals_.length ∧
    2 ≤ L1.notionalSchedule_.length ∧
    L1.cashflows_ = L.cashflows_ ∧
    L.addRedemptionsToCashflows factors =
      Except.ok { L1 with
        cashflows_ := stable_sort (L.cashflows_ ++
          synthesizedRedemptions L1.notionalSchedule_ L1.notionals_ factors),
        redemptions_ := synthesizedRedemptions L1.notionalSchedule_ L1.notionals_ factors } := by
  obtain ⟨sched, nots, hn, hL1⟩ := (calculateNotionalsFromCashflows_ok_iff L L1).mp h
  obtain ⟨hlen, h2⟩ := notionalsFromCashflows_length L.cashflows_ sched nots hn
  have hs : L1.notionalSchedule_ = sched := by rw [hL1]
  have hno : L1.notionals_ = nots := by rw [hL1]
  have hcf : L1.cashflows_ = L.cashflows_ := by rw [hL1]
  refine ⟨by rw [hs, hno]; exact hlen, by rw [hs]; exact h2, hcf, ?_⟩
  have hloop := redemptionLoop_eq L1.notionalSchedule_ L1.notionals_ factors
    (by rw [hs, hno]; exact hlen) (L1.notionalSchedule_.length - 1) 1 (le_refl 1)
    (by rw [hs]; omega)
  simp only [Loan.addRedemptionsToCashflows, h, hloop, synthesizedRedemptions, hcf]

theorem addRedemptionsToCashflows_error (L : Loan) (factors : List ℚ) (e : Error)
    (h : L.calculateNotionalsFromCashflows = Except.error e) :
    L.addRedemptionsToCashflows factors = Except.error e := by
  simp only [Loan.addRedemptionsToCashflows, h]

theorem synthesizedRedemptions_length (sched : List Nat) (nots : List ℚ)
    (factors : List ℚ) :
    (synthesizedRedemptions sched nots factors).length = sched.length - 1 := by
  simp [synthesizedRedemptions]

/-- The record of breakpoint `i` sits at position `i - 1` of the synthesized records. -/
theorem synthesizedRedemptions_get (sched : List Nat) (nots : List ℚ) (factors : List ℚ)
    (i : Nat) (h1 : 1 ≤ i) (hi : i < sched.length) :
    (synthesizedRedemptions sched nots factors)[i - 1]? =
      some (principalRecord sched nots factors i) := by
  unfold synthesizedRedemptions
  rw [List.getElem?_map, List.getElem?_range' 1 1 (by omega : i - 1 < sched.length - 1)]
  simp only [Option.map_some', one_mul]
  congr 2
  omega

theorem stable_sort_perm (l : List CashFlow) : (stable_sort l).Perm l :=
  List.perm_insertionSort notLater l

theorem stable_sort_sorted (l : List CashFlow) : (stable_sort l).Sorted notLater :=
  List.sorted_insertionSort notLater l

/-- C4: for every notional schedule with `n ≥ 2` breakpoints and every factor vector
`f`, the loop of `addRedemptionsToCashflows` emits for each index `i` in `1..n-1` a
principal record of amount `(F_i / 100) * (notionals_[i-1] - notionals_[i])`, with
`F_i = f[i]` if present, else the last element of `f`, else `100`; when `F_i = 100` the
amount is `notionals_[i-1] - notionals_[i]`.  And whenever the schedule builder
succeeds, `addRedemptionsToCashflows` succeeds and `redemptions_` holds exactly these
records for the schedule built. -/
theorem C4_redemption_amounts :
    (∀ (sched : List Nat) (nots : List ℚ) (f : List ℚ),
      sched.length = nots.length → 2 ≤ sched.length →
      ∃ ps, redemptionLoop sched nots f (sched.length - 1) 1 = Except.ok ps ∧
        ∀ i, 1 ≤ i → i < sched.length →
          ∃ p, ps[i - 1]? = some p ∧
            p.amount = specFactor f i / 100 * (nots.getD (i - 1) 0 - nots.getD i 0) ∧
            (specFactor f i = 100 → p.amount = nots.getD (i - 1) 0 - nots.getD i 0)) ∧
    (∀ (L L1 : Loan) (f : List ℚ),
      L.calculateNotionalsFromCashflows = Except.ok L1 →
      ∃ L2, L.addRedemptionsToCashflows f = Except.ok L2 ∧
        L2.notionalSchedule_ = L1.notionalSchedule_ ∧ L2.notionals_ = L1.notionals_ ∧
        L1.notionalSchedule_.length = L1.notionals_.length ∧
        2 ≤ L1.notionalSchedule_.length ∧
        redemptionLoop L1.notionalSchedule_ L1.notionals_ f
          (L1.notionalSchedule_.length - 1) 1 = Except.ok L2.redemptions_) := by
  constructor
  · intro sched nots f hlen h2
    refine ⟨synthesizedRedemptions sched nots f, ?_, ?_⟩
    · exact redemptionLoop_eq sched nots f hlen (sched.length - 1) 1 (le_refl 1) (by omega)
    · intro i h1 hi
      refine ⟨principalRecord sched nots f i,
        synthesizedRedemptions_get sched nots f i h1 hi, rfl, ?_⟩
      intro hF
      show specFactor f i / 100 * _ = _
      rw [hF]
      norm_num
  · intro L L1 f h
    obtain ⟨hlen, h2, _, hadd⟩ := addRedemptionsToCashflows_eq L L1 f h
    exact ⟨_, hadd, rfl, rfl, hlen, h2,
      redemptionLoop_eq _ _ f hlen _ 1 (le_refl 1) (by omega)⟩

theorem exampleLoan_built :
    exampleLoan.calculateNotionalsFromCashflows = Except.ok exampleBuilt :=
  calculateNotionalsFromCashflows_ok exampleLoan [0, 20, 30] [100, 50, 0] (by decide!)

/-- C4 on the schedule `[null, 20, 30]` with notionals `[100, 50, 0]` and factors
`[100, 90]` (both records take the factor 90), and on the loan built from
`exampleLeg`. -/
theorem C4_redemption_amounts_witness :
    (∃ ps, redemptionLoop [0, 20, 30] [100, 50, 0] [100, 90] ([0, 20, 30].length - 1) 1 =
        Except.ok ps ∧
      ∀ i, 1 ≤ i → i < [0, 20, 30].length →
        ∃ p, ps[i - 1]? = some p ∧
          p.amount = specFactor [100, 90] i / 100 *
            (([100, 50, 0] : List ℚ).getD (i - 1) 0 - ([100, 50, 0] : List ℚ).getD i 0) ∧
          (specFactor [100, 90] i = 100 →
            p.amount = ([100, 50, 0] : List ℚ).getD (i - 1) 0 -
              ([100, 50, 0] : List ℚ).getD i 0)) ∧
    (∃ L2, exampleLoan.addRedemptionsToCashflows [100, 90] = Except.ok L2 ∧
        L2.notionalSchedule_ = exampleBuilt.notionalSchedule_ ∧
        L2.notionals_ = exampleBuilt.notionals_ ∧
        exampleBuilt.notionalSchedule_.length = exampleBuilt.notionals_.length ∧
        2 ≤ exampleBuilt.notionalSchedule_.length ∧
        redemptionLoop exampleBuilt.notionalSchedule_ exampleBuilt.notionals_ [100, 90]
          (exampleBuilt.notionalSchedule_.length - 1) 1 = Except.ok L2.redemptions_) :=
  ⟨C4_redemption_amounts.1 [0, 20, 30] [100, 50, 0] [100, 90] rfl (by decide),
   C4_redemption_amounts.2 exampleLoan exampleBuilt [100, 90] exampleLoan_built⟩

/-- C5: whenever the schedule builder succeeds with `n` breakpoints (`n ≥ 2` then),
`addRedemptionsToCashflows` succeeds and produces exactly `n - 1` principal records,
whatever their amounts: the record of index `i` (`1 ≤ i ≤ n - 1`) is dated
`notionalSchedule_[i]`, is a `Redemption` for `i = n - 1` and an `AmortizingPayment`
before; `redemptions_` holds exactly these records in index order, and the ledger is a
rearrangement of the old ledger followed by them, so it grows by exactly `n - 1`. -/
theorem C5_one_record_per_breakpoint (L L1 : Loan) (f : List ℚ)
    (h : L.calculateNotionalsFromCashflows = Except.ok L1) :
    ∃ L2, L.addRedemptionsToCashflows f = Except.ok L2 ∧
      L2.notionalSchedule_ = L1.notionalSchedule_ ∧
      2 ≤ L2.notionalSchedule_.length ∧
      L2.redemptions_.length = L2.notionalSchedule_.length - 1 ∧
      (∀ i, 1 ≤ i → i < L2.notionalSchedule_.length →
        ∃ p, L2.redemptions_[i - 1]? = some p ∧
          p.date = L2.notionalSchedule_.getD i nullDate ∧
          p.kind = (if i = L2.notionalSchedule_.length - 1 then Kind.redemption
                    else Kind.amortizingPayment)) ∧
      L2.cashflows_.Perm (L.cashflows_ ++ L2.redemptions_) ∧
      L2.cashflows_.length = L.cashflows_.length + (L2.notionalSchedule_.length - 1) := by
  obtain ⟨_, h2, _, hadd⟩ := addRedemptionsToCashflows_eq L L1 f h
  refine ⟨_, hadd, rfl, h2, synthesizedRedemptions_length _ _ f, ?_, stable_sort_perm _, ?_⟩
  · intro i h1 hi
    refine ⟨principalRecord L1.notionalSchedule_ L1.notionals_ f i,
      synthesizedRedemptions_get _ _ f i h1 hi, rfl, ?_⟩
    show (if i + 1 = L1.notionalSchedule_.length then Kind.redemption
      else Kind.amortizingPayment) = _
    have hi2 : i < L1.notionalSchedule_.length := hi
    by_cases hlast : i + 1 = L1.notionalSchedule_.length
    · have hlast2 : i = L1.notionalSchedule_.length - 1 := by omega
      rw [if_pos hlast]
      exact (if_pos hlast2).symm
    · have hlast2 : ¬ (i = L1.notionalSchedule_.length - 1) := by omega
      rw [if_neg hlast]
      exact (if_neg hlast2).symm
  · rw [(stable_sort_perm _).length_eq, List.length_append,
      synthesizedRedemptions_length]

/-- C5 on the loan built from `exampleLeg`. -/
theorem C5_one_record_per_breakpoint_witness :
    ∃ L2, exampleLoan.addRedemptionsToCashflows [] = Except.ok L2 ∧
      L2.notionalSchedule_ = exampleBuilt.notionalSchedule_ ∧
      2 ≤ L2.notionalSchedule_.length ∧
      L2.redemptions_.length = L2.notionalSchedule_.length - 1 ∧
      (∀ i, 1 ≤ i → i < L2.notionalSchedule_.length →
        ∃ p, L2.redemptions_[i - 1]? = some p ∧
          p.date = L2.notionalSchedule_.getD i nullDate ∧
          p.kind = (if i = L2.notionalSchedule_.length - 1 then Kind.redemption
                    else Kind.amortizingPayment)) ∧
      L2.cashflows_.Perm (exampleLoan.cashflows_ ++ L2.redemptions_) ∧
      L2.cashflows_.length =
        exampleLoan.cashflows_.length + (L2.notionalSchedule_.length - 1) :=
  C5_one_record_per_breakpoint exampleLoan exampleBuilt [] exampleLoan_built

/-! The ledger after synthesis -/

theorem orderedInsert_filter_coupon (c : CashFlow) (l : List CashFlow)
    (hc : c.isCoupon = true)
    (hl : ∀ x ∈ l, x.isCoupon = true → notLater c x) :
    (l.orderedInsert notLater c).filter CashFlow.isCoupon =
      c :: l.filter CashFlow.isCoupon := by
  induction l with
  | nil => simp [hc]
  | cons b l ih =>
    by_cases hcb : notLater c b
    · have hins : (b :: l).orderedInsert notLater c = c :: b :: l := by
        simp [List.orderedInsert, hcb]
      rw [hins, List.filter_cons_of_pos hc]
    · have hb : b.isCoupon = false := by
        cases hbc : b.isCoupon with
        | false => rfl
        | true => exact absurd (hl b (List.mem_cons_self _ _) hbc) hcb
      have hins : (b :: l).orderedInsert notLater c = b :: l.orderedInsert notLater c := by
        simp [List.orderedInsert, hcb]
      have hbn : ¬ (b.isCoupon = true) := by rw [hb]; exact Bool.false_ne_true
      rw [hins, List.filter_cons_of_neg hbn, List.filter_cons_of_neg hbn]
      exact ih (fun x hx => hl x (List.mem_cons_of_mem _ hx))

theorem orderedInsert_principalAfterCoupon (c : CashFlow) (l : List CashFlow)
    (hc : c.isCoupon = true) (hl : l.Pairwise principalAfterCoupon) :
    (l.orderedInsert notLater c).Pairwise principalAfterCoupon := by
  induction l with
  | nil => simp
  | cons b l ih =>
    by_cases hcb : notLater c b
    · have hins : (b :: l).orderedInsert notLater c = c :: b :: l := by
        simp [List.orderedInsert, hcb]
      rw [hins]
      exact List.pairwise_cons.mpr ⟨fun x _ _ _ => hc, hl⟩
    · have hins : (b :: l).orderedInsert notLater c = b :: l.orderedInsert notLater c := by
        simp [List.orderedInsert, hcb]
      rw [hins]
      obtain ⟨hb, htail⟩ := List.pairwise_cons.mp hl
      refine List.pairwise_cons.mpr ⟨?_, ih htail⟩
      intro x hx
      rcases (List.mem_orderedInsert notLater).mp hx with hxc | hxl
      · intro hdate _
        rw [hxc] at hdate
        rw [notLater_iff] at hcb
        omega
      · exact hb x hxl

/-- Stable sort of a date-sorted run of coupons followed by principal records: the
coupons keep their order, and no principal precedes a coupon of the same date. -/
theorem stable_sort_coupons_then_principals (cs ps : List CashFlow)
    (hcs : ∀ c ∈ cs, c.isCoupon = true) (hps : ∀ p ∈ ps, p.isCoupon = false)
    (hsorted : cs.Sorted notLater) :
    (stable_sort (cs ++ ps)).filter CashFlow.isCoupon = cs ∧
    (stable_sort (cs ++ ps)).Pairwise principalAfterCoupon := by
  unfold stable_sort
  induction cs with
  | nil =>
    constructor
    · rw [List.nil_append, List.filter_eq_nil_iff]
      intro x hx
      rw [hps x ((List.mem_insertionSort notLater).mp hx)]
      exact Bool.false_ne_true
    · rw [List.nil_append]
      apply List.pairwise_of_forall_mem_list
      intro a _ b hb _ hbc
      rw [hps b ((List.mem_insertionSort notLater).mp hb)] at hbc
      exact absurd hbc Bool.false_ne_true
  | cons c cs ih =>
    obtain ⟨hfilter, hpw⟩ := ih (fun x hx => hcs x (List.mem_cons_of_mem _ hx))
      hsorted.of_cons
    have hc : c.isCoupon = true := hcs c (List.mem_cons_self _ _)
    have hstep : List.insertionSort notLater (c :: cs ++ ps) =
        (List.insertionSort notLater (cs ++ ps)).orderedInsert notLater c := rfl
    rw [hstep]
    constructor
    · rw [orderedInsert_filter_coupon c _ hc, hfilter]
      intro x hx hxc
      rcases List.mem_append.mp ((List.mem_insertionSort notLater).mp hx) with h1 | h1
      · exact List.rel_of_sorted_cons hsorted x h1
      · rw [hps x h1] at hxc
        exact absurd hxc Bool.false_ne_true
    · exact orderedInsert_principalAfterCoupon c _ hc hpw

theorem principalRecord_not_coupon (sched : List Nat) (nots : List ℚ) (factors : List ℚ)
    (i : Nat) : (principalRecord sched nots factors i).isCoupon = false := by
  unfold principalRecord CashFlow.isCoupon
  by_cases h : i + 1 = sched.length <;> simp [h]

theorem synthesizedRedemptions_not_coupon (sched : List Nat) (nots : List ℚ)
    (factors : List ℚ) :
    ∀ p ∈ synthesizedRedemptions sched nots factors, p.isCoupon = false := by
  intro p hp
  obtain ⟨i, _, hi⟩ := List.mem_map.mp hp
  rw [← hi]
  exact principalRecord_not_coupon sched nots factors i

/-- What a successful construction did: the coupons were non-empty and sorted, the
issue date, if given, is earlier than the first payment date, and the ledger and the
schedule come from `addRedemptionsToCashflows` on the sorted coupons. -/
theorem construct_ok (srt : StdSort) (settlementDays : Nat) (calendar : Calendar)
    (issueDate : Nat) (coupons : List CashFlow) (L : Loan) (hne : coupons ≠ [])
    (h : Loan.construct srt settlementDays calendar issueDate coupons = Except.ok L) :
    ∃ L0 : Loan, L0.cashflows_ = srt.run coupons ∧
      L0.addRedemptionsToCashflows [] = Except.ok L := by
  unfold Loan.construct at h
  have hlast : coupons.getLast? = some (coupons.getLast hne) :=
    List.getLast?_eq_getLast _ hne
  simp only [hlast] at h
  split at h
  · cases h
  · exact ⟨_, rfl, h⟩

theorem exampleConstructed_eq :
    Loan.construct insertionStdSort 0 exampleCalendar nullDate exampleLeg =
      Except.ok exampleConstructed := by
  with_unfolding_all rfl

/-- C6: for every loan constructed from a non-empty list of coupons only, the ledger is
a permutation of the coupons plus the synthesized principal records, is sorted by date
ascending, no principal record precedes a coupon bearing the same date, and the
coupons appear in the order they had after the constructor's sort, before synthesis. -/
theorem C6_ledger_invariant (srt : StdSort) (settlementDays : Nat) (calendar : Calendar)
    (issueDate : Nat) (coupons : List CashFlow) (L : Loan)
    (hne : coupons ≠ [])
    (hcoupons : ∀ c ∈ coupons, c.isCoupon = true)
    (h : Loan.construct srt settlementDays calendar issueDate coupons = Except.ok L) :
    L.cashflows_.Perm (coupons ++ L.redemptions_) ∧
    (∀ p ∈ L.redemptions_, p.isCoupon = false) ∧
    L.cashflows_.Pairwise (fun a b => a.date ≤ b.date) ∧
    L.cashflows_.Pairwise
      (fun a b => a.date = b.date → b.isCoupon = true → a.isCoupon = true) ∧
    L.cashflows_.filter CashFlow.isCoupon = srt.run coupons := by
  obtain ⟨L0, hcf, hadd⟩ := construct_ok srt settlementDays calendar issueDate coupons L hne h
  cases hcalc : L0.calculateNotionalsFromCashflows with
  | error e =>
    rw [addRedemptionsToCashflows_error L0 [] e hcalc] at hadd
    cases hadd
  | ok L1 =>
    obtain ⟨_, _, _, heq⟩ := addRedemptionsToCashflows_eq L0 L1 [] hcalc
    rw [heq] at hadd
    cases hadd
    have hps := synthesizedRedemptions_not_coupon L1.notionalSchedule_ L1.notionals_ []
    have hcs : ∀ c ∈ srt.run coupons, c.isCoupon = true :=
      fun c hc => hcoupons c ((srt.perm coupons).mem_iff.mp hc)
    obtain ⟨hfilter, hpw⟩ := stable_sort_coupons_then_principals (srt.run coupons)
      (synthesizedRedemptions L1.notionalSchedule_ L1.notionals_ []) hcs hps
      (srt.sorted coupons)
    rw [hcf]
    refine ⟨?_, hps, ?_, hpw, hfilter⟩
    · exact (stable_sort_perm _).trans ((srt.perm coupons).append_right _)
    · exact (stable_sort_sorted _).imp (fun {a b} hab => (notLater_iff a b).mp hab)

/-- C6 on the loan constructed from `exampleLeg`. -/
theorem C6_ledger_invariant_witness :
    exampleConstructed.cashflows_.Perm (exampleLeg ++ exampleConstructed.redemptions_) ∧
    (∀ p ∈ exampleConstructed.redemptions_, p.isCoupon = false) ∧
    exampleConstructed.cashflows_.Pairwise (fun a b => a.date ≤ b.date) ∧
    exampleConstructed.cashflows_.Pairwise
      (fun a b => a.date = b.date → b.isCoupon = true → a.isCoupon = true) ∧
    exampleConstructed.cashflows_.filter CashFlow.isCoupon =
      insertionStdSort.run exampleLeg :=
  C6_ledger_invariant insertionStdSort 0 exampleCalendar nullDate exampleLeg
    exampleConstructed (by decide) (by decide) exampleConstructed_eq

/-! Notional lookup -/

/-- On a range of `v` in date order, the loop of `std::lower_bound` returns the
partition point of `value`: everything before it is below `value`, everything from it
on is not. -/
theorem lowerBoundLoop_spec (v : List Nat) (value : Nat) (fuel first count : Nat)
    (hfuel : count ≤ fuel)
    (hsorted : ∀ j k, first ≤ j → j ≤ k → k < first + count →
      v.getD j nullDate ≤ v.getD k nullDate) :
    first ≤ lowerBoundLoop v value fuel first count ∧
    lowerBoundLoop v value fuel first count ≤ first + count ∧
    (∀ j, first ≤ j → j < lowerBoundLoop v value fuel first count →
      v.getD j nullDate < value) ∧
    (∀ j, lowerBoundLoop v value fuel first count ≤ j → j < first + count →
      value ≤ v.getD j nullDate) := by
  induction fuel generalizing first count with
  | zero =>
    have hc : count = 0 := by omega
    subst hc
    refine ⟨le_refl _, by simp [lowerBoundLoop], ?_, ?_⟩
    · intro j h1 h2
      simp only [lowerBoundLoop] at h2
      omega
    · intro j h1 h2
      simp only [lowerBoundLoop] at h1
      omega
  | succ fuel ih =>
    by_cases hc : count = 0
    · subst hc
      refine ⟨by simp [lowerBoundLoop], by simp [lowerBoundLoop], ?_, ?_⟩
      · intro j h1 h2
        simp only [lowerBoundLoop, if_true] at h2
        omega
      · intro j h1 h2
        simp only [lowerBoundLoop, if_true] at h1
        omega
    · by_cases hlt : v.getD (first + count / 2) nullDate < value
      · have hrec : lowerBoundLoop v value (fuel + 1) first count =
            lowerBoundLoop v value fuel (first + count / 2 + 1)
              (count - (count / 2 + 1)) := by
          simp only [lowerBoundLoop, hc, hlt, if_true, if_false]
        have hdiv : count / 2 < count := Nat.div_lt_self (Nat.pos_of_ne_zero hc) (by decide)
        obtain ⟨h1, h2, h3, h4⟩ := ih (first + count / 2 + 1) (count - (count / 2 + 1))
          (by omega)
          (fun j k hj hjk hk => hsorted j k (by omega) hjk (by omega))
        rw [hrec]
        refine ⟨by omega, by omega, ?_, ?_⟩
        · intro j hj1 hj2
          by_cases hj : j ≤ first + count / 2
          · exact lt_of_le_of_lt (hsorted j (first + count / 2) hj1 hj (by omega)) hlt
          · exact h3 j (by omega) hj2
        · intro j hj1 hj2
          exact h4 j hj1 (by omega)
      · have hrec : lowerBoundLoop v value (fuel + 1) first count =
            lowerBoundLoop v value fuel first (count / 2) := by
          simp only [lowerBoundLoop, hc, hlt, if_true, if_false]
        have hdiv : count / 2 < count := Nat.div_lt_self (Nat.pos_of_ne_zero hc) (by decide)
        obtain ⟨h1, h2, h3, h4⟩ := ih first (count / 2) (by omega)
          (fun j k hj hjk hk => hsorted j k hj hjk (by omega))
        rw [hrec]
        refine ⟨h1, by omega, h3, ?_⟩
        intro j hj1 hj2
        by_cases hj : j < first + count / 2
        · exact h4 j hj1 hj
        · exact le_trans (not_lt.mp hlt)
            (hsorted (first + count / 2) j (by omega) (by omega) hj2)

/-- Dates in order from index 1 on, in index form. -/
theorem sorted_tail_getD (v : List Nat) (h : v.tail.Pairwise (fun a b => a ≤ b))
    (j k : Nat) (hj : 1 ≤ j) (hjk : j ≤ k) (hk : k < v.length) :
    v.getD j nullDate ≤ v.getD k nullDate := by
  cases v with
  | nil => simp at hk
  | cons a t =>
    obtain ⟨j1, rfl⟩ : ∃ j1, j = j1 + 1 := ⟨j - 1, by omega⟩
    obtain ⟨k1, rfl⟩ : ∃ k1, k = k1 + 1 := ⟨k - 1, by omega⟩
    simp only [List.length_cons] at hk
    have hk1 : k1 < t.length := by omega
    have hj1 : j1 < t.length := by omega
    simp only [List.tail_cons] at h
    simp only [List.getD_cons_succ]
    rw [List.getD_eq_getElem t nullDate hj1, List.getD_eq_getElem t nullDate hk1]
    by_cases hlt : j1 < k1
    · exact (List.pairwise_iff_getElem.mp h) j1 k1 hj1 hk1 hlt
    · have : j1 = k1 := by omega
      subst this
      exact le_refl _

/-- With dates in order from index 1 on, `lower_bound` from index 1 finds the least
index `i ≥ 1` whose date is not before `d`. -/
theorem lower_bound_eq (v : List Nat) (d i : Nat)
    (hsorted : v.tail.Pairwise (fun a b => a ≤ b))
    (hi1 : 1 ≤ i) (hin : i < v.length)
    (hge : d ≤ v.getD i nullDate)
    (hleast : ∀ j, 1 ≤ j → j < i → v.getD j nullDate < d) :
    lower_bound v 1 v.length d = i := by
  obtain ⟨h1, h2, h3, h4⟩ := lowerBoundLoop_spec v d (v.length - 1) 1 (v.length - 1)
    (le_refl _)
    (fun j k hj hjk hk => sorted_tail_getD v hsorted j k hj hjk (by omega))
  unfold lower_bound
  by_contra hne
  rcases Nat.lt_or_gt_of_ne hne with hlt | hgt
  · have := hleast _ h1 hlt
    have := h4 _ (le_refl _) (by omega)
    omega
  · have := h3 i hi1 hgt
    omega

theorem getLast?_eq_getD (v : List Nat) (h : v ≠ []) :
    v.getLast? = some (v.getD (v.length - 1) nullDate) := by
  have hpos : 0 < v.length := List.length_pos.mpr h
  rw [List.getLast?_eq_getLast v h, List.getLast_eq_getElem,
    List.getD_eq_getElem v nullDate (by omega)]

/-- `Loan::notional` at a non-null date not after the last breakpoint, given the index
`lower_bound` returns. -/
theorem notional_of_lower_bound (L : Loan) (S : Settings) (d i : Nat)
    (hd0 : d ≠ nullDate)
    (hlen : L.notionals_.length = L.notionalSchedule_.length)
    (hi1 : 1 ≤ i) (hin : i < L.notionalSchedule_.length)
    (hlast : d ≤ L.notionalSchedule_.getD (L.notionalSchedule_.length - 1) nullDate)
    (hidx : lower_bound L.notionalSchedule_ 1 L.notionalSchedule_.length d = i) :
    L.notional S d =
      Except.ok (if d < L.notionalSchedule_.getD i nullDate then L.notionals_.getD (i - 1) 0
                 else L.notionals_.getD i 0) := by
  have hne : L.notionalSchedule_ ≠ [] := by
    intro hnil
    rw [hnil] at hin
    simp at hin
  have hnot : ¬ (d > L.notionalSchedule_.getD (L.notionalSchedule_.length - 1) nullDate) :=
    not_lt.mpr hlast
  unfold Loan.notional
  simp only [hd0, if_false, getLast?_eq_getD _ hne, hnot, hidx,
    vectorAt_of_lt L.notionalSchedule_ i nullDate hin]
  by_cases hlt : d < L.notionalSchedule_.getD i nullDate
  · simp only [hlt, if_true]
    exact vectorAt_of_lt L.notionals_ (i - 1) 0 (by omega)
  · simp only [hlt, if_false]
    exact vectorAt_of_lt L.notionals_ i 0 (by omega)

/-- `Loan::notional` at a non-null date after the last breakpoint is `0`. -/
theorem notional_after_maturity (L : Loan) (S : Settings) (d : Nat)
    (hd0 : d ≠ nullDate) (hne : L.notionalSchedule_ ≠ [])
    (hafter : L.notionalSchedule_.getD (L.notionalSchedule_.length - 1) nullDate < d) :
    L.notional S d = Except.ok 0 := by
  unfold Loan.notional
  simp only [hd0, if_false, getLast?_eq_getD _ hne, gt_iff_lt, hafter, if_true]

/-- C7: for every schedule with `n ≥ 2` breakpoints (dates and notionals) whose dates
from index 1 on are in order, and every non-null date `d`, if `i ≥ 1` is the least
index with `notionalSchedule_[i] ≥ d` (there is one exactly when `d` is not after the
last breakpoint), then `notional(d)` is `notionals_[i]` if `notionalSchedule_[i] = d`
and `notionals_[i-1]` otherwise. -/
theorem C7_notional_boundary_rule (L : Loan) (S : Settings) (d i : Nat)
    (hn : 2 ≤ L.notionalSchedule_.length)
    (hlen : L.notionals_.length = L.notionalSchedule_.length)
    (hsorted : L.notionalSchedule_.tail.Pairwise (fun a b => a ≤ b))
    (hd0 : d ≠ nullDate)
    (hi1 : 1 ≤ i) (hin : i < L.notionalSchedule_.length)
    (hge : d ≤ L.notionalSchedule_.getD i nullDate)
    (hleast : ∀ j, 1 ≤ j → j < i → L.notionalSchedule_.getD j nullDate < d) :
    L.notional S d =
      Except.ok (if L.notionalSchedule_.getD i nullDate = d then L.notionals_.getD i 0
                 else L.notionals_.getD (i - 1) 0) := by
  have hlast : d ≤ L.notionalSchedule_.getD (L.notionalSchedule_.length - 1) nullDate :=
    le_trans hge (sorted_tail_getD _ hsorted i _ hi1 (by omega) (by omega))
  rw [notional_of_lower_bound L S d i hd0 hlen hi1 hin hlast
    (lower_bound_eq _ d i hsorted hi1 hin hge hleast)]
  by_cases heq : L.notionalSchedule_.getD i nullDate = d
  · have hlt : ¬ (d < L.notionalSchedule_.getD i nullDate) := by omega
    rw [if_neg hlt, if_pos heq]
  · have hlt : d < L.notionalSchedule_.getD i nullDate := by omega
    rw [if_pos hlt, if_neg heq]

/-- C7 on the loan constructed from `exampleLeg`, at the date `25` between the
breakpoints `20` and `30`. -/
theorem C7_notional_boundary_rule_witness :
    exampleConstructed.notional { evaluationDate := 1 } 25 =
      Except.ok (if exampleConstructed.notionalSchedule_.getD 2 nullDate = 25
                 then exampleConstructed.notionals_.getD 2 0
                 else exampleConstructed.notionals_.getD (2 - 1) 0) :=
  C7_notional_boundary_rule exampleConstructed { evaluationDate := 1 } 25 2
    (by decide) (by decide) (by decide) (by decide) (by decide) (by decide) (by decide)
    (fun j h1 h2 => by
      have hj : j = 1 := by omega
      subst hj
      decide)

/-- The loop keeps the schedule dates in the order `R` of the payment dates. -/
theorem notionalLoop_schedule_order (R : Nat → Nat → Prop)
    (hR : ∀ a b c, R a b → R b c → R a c)
    (l : List CashFlow) (st st1 : NotionalState)
    (h : notionalLoop l st = Except.ok st1)
    (hl : l.Pairwise (fun a b => R a.date b.date))
    (hnext : st.notionals_ ≠ [] → ∀ c ∈ l, R st.lastPaymentDate c.date)
    (hnonempty : st.notionalSchedule_ ≠ [])
    (hseed : st.notionals_ = [] → st.notionalSchedule_.tail = [])
    (htail : st.notionalSchedule_.tail.Pairwise R)
    (hlast : ∀ x ∈ st.notionalSchedule_.tail, R x st.lastPaymentDate) :
    st1.notionalSchedule_ ≠ [] ∧
    (st1.notionals_ = [] → st1.notionalSchedule_.tail = []) ∧
    st1.notionalSchedule_.tail.Pairwise R ∧
    (∀ x ∈ st1.notionalSchedule_.tail, R x st1.lastPaymentDate) := by
  induction l generalizing st with
  | nil =>
    cases h
    exact ⟨hnonempty, hseed, htail, hlast⟩
  | cons cf rest ih =>
    obtain ⟨hcf, hrest⟩ := List.pairwise_cons.mp hl
    cases hstep : notionalStep st cf with
    | error e1 =>
      rw [notionalLoop_cons_error cf rest st e1 hstep] at h
      cases h
    | ok st2 =>
      rw [notionalLoop_cons_ok cf rest st st2 hstep] at h
      unfold notionalStep at hstep
      split at hstep
      · cases hstep
        exact ih st h hrest (fun hn c hc => hnext hn c (List.mem_cons_of_mem _ hc))
          hnonempty hseed htail hlast
      · split at hstep
        · next hnone =>
          cases hstep
          have hnil : st.notionals_ = [] := List.getLast?_eq_none_iff.mp hnone
          refine ih _ h hrest (fun _ c hc => hcf c hc) hnonempty
            (fun hn => absurd hn (by simp)) htail ?_
          intro x hx
          rw [hseed hnil] at hx
          cases hx
        · next back hback =>
          have hne : st.notionals_ ≠ [] := by
            intro hnil
            rw [hnil] at hback
            cases hback
          have hcur : R st.lastPaymentDate cf.date := hnext hne cf (List.mem_cons_self _ _)
          split at hstep
          · split at hstep
            · cases hstep
              have htl : (st.notionalSchedule_ ++ [st.lastPaymentDate]).tail =
                  st.notionalSchedule_.tail ++ [st.lastPaymentDate] :=
                List.tail_append_of_ne_nil hnonempty
              refine ih _ h hrest (fun _ c hc => hcf c hc) (by simp)
                (fun hn => absurd hn (by simp)) ?_ ?_
              · rw [htl, List.pairwise_append]
                refine ⟨htail, List.pairwise_singleton _ _, ?_⟩
                intro a ha b hb
                rw [List.mem_singleton] at hb
                rw [hb]
                exact hlast a ha
              · intro x hx
                rw [htl] at hx
                rcases List.mem_append.mp hx with hx | hx
                · exact hR _ _ _ (hlast x hx) hcur
                · rw [List.mem_singleton] at hx
                  rw [hx]
                  exact hcur
            · cases hstep
          · cases hstep
            exact ih _ h hrest (fun _ c hc => hcf c hc) hnonempty hseed htail
              (fun x hx => hR _ _ _ (hlast x hx) hcur)

/-- On a ledger in the date order `R`, the schedule built starts with the null date and
its dates from index 1 on are in the order `R`. -/
theorem notionalsFromCashflows_schedule_order (R : Nat → Nat → Prop)
    (hR : ∀ a b c, R a b → R b c → R a c)
    (cfs : List CashFlow) (sched : List Nat) (nots : List ℚ)
    (h : notionalsFromCashflows cfs = Except.ok (sched, nots))
    (hl : cfs.Pairwise (fun a b => R a.date b.date)) :
    sched.tail.Pairwise R := by
  obtain ⟨st, hloop, _, hs, _⟩ := (notionalsFromCashflows_ok_iff cfs sched nots).mp h
  obtain ⟨hne, _, htail, hlast⟩ := notionalLoop_schedule_order R hR cfs notionalInit st
    hloop hl (fun hn => absurd rfl hn) (by simp [notionalInit]) (fun _ => rfl)
    List.Pairwise.nil (fun x hx => by cases hx)
  rw [hs, List.tail_append_of_ne_nil hne, List.pairwise_append]
  refine ⟨htail, List.pairwise_singleton _ _, ?_⟩
  intro a ha b hb
  rw [List.mem_singleton] at hb
  rw [hb]
  exact hlast a ha

/-- The schedule, the principal records and the ledger of a constructed loan. -/
theorem construct_schedule (srt : StdSort) (settlementDays : Nat) (calendar : Calendar)
    (issueDate : Nat) (coupons : List CashFlow) (L : Loan) (hne : coupons ≠ [])
    (h : Loan.construct srt settlementDays calendar issueDate coupons = Except.ok L) :
    ∃ sched nots, notionalsFromCashflows (srt.run coupons) = Except.ok (sched, nots) ∧
      L.notionalSchedule_ = sched ∧ L.notionals_ = nots ∧
      L.redemptions_ = synthesizedRedemptions sched nots [] ∧
      L.cashflows_ = stable_sort (srt.run coupons ++ synthesizedRedemptions sched nots []) := by
  obtain ⟨L0, hcf, hadd⟩ := construct_ok srt settlementDays calendar issueDate coupons L hne h
  cases hcalc : L0.calculateNotionalsFromCashflows with
  | error e =>
    rw [addRedemptionsToCashflows_error L0 [] e hcalc] at hadd
    cases hadd
  | ok L1 =>
    obtain ⟨_, _, _, heq⟩ := addRedemptionsToCashflows_eq L0 L1 [] hcalc
    rw [heq] at hadd
    cases hadd
    obtain ⟨sched, nots, hn, hL1⟩ := (calculateNotionalsFromCashflows_ok_iff L0 L1).mp hcalc
    rw [hcf] at hn
    refine ⟨sched, nots, hn, ?_, ?_, ?_, ?_⟩
    · rw [hL1]
    · rw [hL1]
    · rw [hL1]
    · rw [hL1, hcf]

/-- The last notional of a built schedule is `0`. -/
theorem notionalsFromCashflows_last_zero (cfs : List CashFlow) (sched : List Nat)
    (nots : List ℚ) (h : notionalsFromCashflows cfs = Except.ok (sched, nots)) :
    nots.getD (sched.length - 1) 0 = 0 := by
  obtain ⟨hlen, _⟩ := notionalsFromCashflows_length cfs sched nots h
  obtain ⟨st, _, _, _, hn⟩ := (notionalsFromCashflows_ok_iff cfs sched nots).mp h
  rw [hlen, hn]
  simp [List.getD, List.getElem?_append_right]

theorem isTradable_of_notional (L : Loan) (S : Settings) (d : Nat) (x : ℚ)
    (hd0 : d ≠ nullDate) (h : L.notional S d = Except.ok x) :
    L.isTradable S d = Except.ok (x != 0) := by
  unfold Loan.isTradable LoanFunctions.isTradable
  simp only [hd0, if_false, h]

/-- C8 (as amended): for every loan constructed from a non-empty coupon list and every
non-null date `d` that is strictly after the final breakpoint date, or equal to it while
every earlier breakpoint date (from index 1) is strictly before it, `notional(d)` is
`0` and `isTradable(d)` is `false`. -/
theorem C8_zero_from_final_breakpoint (srt : StdSort) (settlementDays : Nat)
    (calendar : Calendar) (issueDate : Nat) (coupons : List CashFlow) (L : Loan)
    (S : Settings) (d : Nat)
    (hne : coupons ≠ [])
    (h : Loan.construct srt settlementDays calendar issueDate coupons = Except.ok L)
    (hd0 : d ≠ nullDate)
    (hd : L.notionalSchedule_.getD (L.notionalSchedule_.length - 1) nullDate < d ∨
      (d = L.notionalSchedule_.getD (L.notionalSchedule_.length - 1) nullDate ∧
        ∀ j, 1 ≤ j → j < L.notionalSchedule_.length - 1 →
          L.notionalSchedule_.getD j nullDate < d)) :
    L.notional S d = Except.ok 0 ∧ L.isTradable S d = Except.ok false := by
  obtain ⟨sched, nots, hn, hs, hno, _, _⟩ :=
    construct_schedule srt settlementDays calendar issueDate coupons L hne h
  obtain ⟨hlen, h2⟩ := notionalsFromCashflows_length _ sched nots hn
  have hzero := notionalsFromCashflows_last_zero _ sched nots hn
  have hsorted : sched.tail.Pairwise (fun a b => a ≤ b) :=
    notionalsFromCashflows_schedule_order (fun a b => a ≤ b)
      (fun a b c hab hbc => le_trans hab hbc) _ sched nots hn
      ((srt.sorted coupons).imp (fun {a b} hab => (notLater_iff a b).mp hab))
  rw [← hs] at hlen h2 hzero hsorted
  rw [← hno] at hlen hzero
  have hnot : L.notional S d = Except.ok 0 := by
    rcases hd with hafter | ⟨heq, hbefore⟩
    · exact notional_after_maturity L S d hd0
        (by intro hnil; rw [hnil] at h2; simp at h2) hafter
    · have hidx := lower_bound_eq L.notionalSchedule_ d (L.notionalSchedule_.length - 1)
        hsorted (by omega) (by omega) (le_of_eq heq) hbefore
      rw [notional_of_lower_bound L S d (L.notionalSchedule_.length - 1) hd0 hlen.symm
        (by omega) (by omega) (le_of_eq heq) hidx]
      have hlt : ¬ (d < L.notionalSchedule_.getD (L.notionalSchedule_.length - 1) nullDate) := by
        omega
      rw [if_neg hlt, hzero]
  refine ⟨hnot, ?_⟩
  rw [isTradable_of_notional L S d 0 hd0 hnot]
  rfl

/-- C8 (as amended) on the loan constructed from `exampleLeg`, at its final breakpoint
date `30`. -/
theorem C8_zero_from_final_breakpoint_witness :
    exampleConstructed.notional { evaluationDate := 1 } 30 = Except.ok 0 ∧
    exampleConstructed.isTradable { evaluationDate := 1 } 30 = Except.ok false :=
  C8_zero_from_final_breakpoint insertionStdSort 0 exampleCalendar nullDate exampleLeg
    exampleConstructed { evaluationDate := 1 } 30 (by decide) exampleConstructed_eq
    (by decide)
    (Or.inr ⟨by decide, fun j h1 h2 => by
      have h3 : j < 2 := h2
      have hj : j = 1 := by omega
      subst hj
      decide⟩)

/-- C8 as stated fails: from the date-sorted coupons (date 10, nominal 100) and
(date 10, nominal 50) the schedule is `[null, 10, 10]` with notionals `[100, 50, 0]`;
at the final breakpoint date `10` the lookup stops at the first breakpoint dated `10`,
so `notional(10) = 50` and `isTradable(10)` is `true`. -/
theorem C8_counterexample :
    List.Sorted notLater [Coupon 10 5 100, Coupon 10 5 50] ∧
    (Loan.construct insertionStdSort 0 exampleCalendar nullDate
        [Coupon 10 5 100, Coupon 10 5 50]).map
      (fun L => (L.notionalSchedule_, L.notionals_)) =
      Except.ok ([0, 10, 10], [100, 50, 0]) ∧
    (Loan.construct insertionStdSort 0 exampleCalendar nullDate
        [Coupon 10 5 100, Coupon 10 5 50]).bind
      (fun L => L.notional { evaluationDate := 1 } 10) = Except.ok 50 ∧
    (Loan.construct insertionStdSort 0 exampleCalendar nullDate
        [Coupon 10 5 100, Coupon 10 5 50]).bind
      (fun L => L.isTradable { evaluationDate := 1 } 10) = Except.ok true := by
  refine ⟨?_, by decide!, by decide!, by decide!⟩
  rw [sorted_notLater_iff]
  simp [Coupon]

/-! Tradability -/

theorem notional_null (L : Loan) (S : Settings) :
    L.notional S (L.settlementDate S nullDate) = L.notional S nullDate := by
  unfold Loan.notional
  by_cases h : L.settlementDate S nullDate = nullDate
  · simp only [h, if_true]
  · simp only [h, if_false, if_true]

/-- `isTradable(d)` is `notional(d) != 0`, errors carried over. -/
theorem isTradable_eq (L : Loan) (S : Settings) (d : Nat) :
    L.isTradable S d = (L.notional S d).map (fun n => n != 0) := by
  unfold Loan.isTradable LoanFunctions.isTradable
  by_cases hd : d = nullDate
  · simp only [hd, if_true, notional_null]
    cases L.notional S nullDate <;> rfl
  · simp only [hd, if_false]
    cases L.notional S d <;> rfl

/-- On coupons with strictly increasing dates the constructor's sort changes nothing. -/
theorem stdSort_of_strict (srt : StdSort) (coupons : List CashFlow)
    (h : coupons.Pairwise earlier_than) : srt.run coupons = coupons := by
  have hnodup : (coupons.map CashFlow.date).Nodup := by
    rw [List.Nodup, List.pairwise_map]
    exact h.imp (fun {a b} hab => Nat.ne_of_lt hab)
  have hnodup2 : ((srt.run coupons).map CashFlow.date).Nodup :=
    ((srt.perm coupons).map CashFlow.date).nodup_iff.mpr hnodup
  have hle : ((srt.run coupons).map CashFlow.date).Sorted (fun a b => a ≤ b) := by
    rw [List.Sorted, List.pairwise_map]
    exact (srt.sorted coupons).imp (fun {a b} hab => (notLater_iff a b).mp hab)
  have hlt : ((srt.run coupons).map CashFlow.date).Sorted (fun a b => a < b) :=
    hle.lt_of_le hnodup2
  have hs : (srt.run coupons).Sorted earlier_than := by
    rw [List.Sorted, List.pairwise_map] at hlt
    exact hlt
  exact List.eq_of_perm_of_sorted (srt.perm coupons) hs h

/-- After a coupon has been scanned, `lastPaymentDate` is its date. -/
theorem notionalStep_lastPaymentDate (st st1 : NotionalState) (cf : CashFlow)
    (hc : cf.isCoupon = true) (h : notionalStep st cf = Except.ok st1) :
    st1.lastPaymentDate = cf.date := by
  unfold notionalStep at h
  split at h
  · next hnone =>
    unfold CashFlow.isCoupon at hc
    unfold CashFlow.nominal? at hnone
    split at hc
    · simp_all
    · cases hc
  · split at h
    · cases h; rfl
    · split at h
      · split at h
        · cases h; rfl
        · cases h
      · cases h; rfl

theorem notionalLoop_lastPaymentDate (pre : List CashFlow) (c : CashFlow)
    (st st1 : NotionalState) (hc : c.isCoupon = true)
    (h : notionalLoop (pre ++ [c]) st = Except.ok st1) :
    st1.lastPaymentDate = c.date := by
  rw [notionalLoop_append] at h
  cases hp : notionalLoop pre st with
  | error e => rw [hp] at h; cases h
  | ok st2 =>
    rw [hp] at h
    simp only [] at h
    cases hstep : notionalStep st2 c with
    | error e => rw [notionalLoop_cons_error c [] st2 e hstep] at h; cases h
    | ok st3 =>
      rw [notionalLoop_cons_ok c [] st2 st3 hstep] at h
      have h3 : st3 = st1 := by simpa [notionalLoop] using h
      rw [← h3]
      exact notionalStep_lastPaymentDate st2 st3 c hc hstep

/-- Dates strictly increasing from index 1 on, in index form. -/
theorem strict_tail_getD (v : List Nat) (h : v.tail.Pairwise (fun a b => a < b))
    (j k : Nat) (hj : 1 ≤ j) (hjk : j < k) (hk : k < v.length) :
    v.getD j nullDate < v.getD k nullDate := by
  cases v with
  | nil => simp at hk
  | cons a t =>
    obtain ⟨j1, rfl⟩ : ∃ j1, j = j1 + 1 := ⟨j - 1, by omega⟩
    obtain ⟨k1, rfl⟩ : ∃ k1, k = k1 + 1 := ⟨k - 1, by omega⟩
    simp only [List.length_cons] at hk
    have hk1 : k1 < t.length := by omega
    have hj1 : j1 < t.length := by omega
    simp only [List.tail_cons] at h
    simp only [List.getD_cons_succ]
    rw [List.getD_eq_getElem t nullDate hj1, List.getD_eq_getElem t nullDate hk1]
    exact (List.pairwise_iff_getElem.mp h) j1 k1 hj1 hk1 (by omega)

/-- Every notional of a built schedule but the last is the nominal of a coupon. -/
theorem notionalsFromCashflows_mem (cfs : List CashFlow) (sched : List Nat)
    (nots : List ℚ) (h : notionalsFromCashflows cfs = Except.ok (sched, nots))
    (j : Nat) (hj : j < sched.length - 1) :
    nots.getD j 0 ∈ couponNominals cfs := by
  obtain ⟨hlen, _⟩ := notionalsFromCashflows_length cfs sched nots h
  obtain ⟨st, hloop, _, _, hn⟩ := (notionalsFromCashflows_ok_iff cfs sched nots).mp h
  obtain ⟨hmem, _, _⟩ := notionalLoop_mem cfs notionalInit st hloop
  have hl : nots.length = st.notionals_.length + 1 := by rw [hn]; simp
  have hj2 : j < st.notionals_.length := by omega
  have hget : nots.getD j 0 = st.notionals_[j] := by
    rw [hn, List.getD_eq_getElem _ 0 (by simp; omega), List.getElem_append_left hj2]
  rw [hget]
  rcases hmem _ (List.getElem_mem hj2) with h0 | h0
  · simp [notionalInit] at h0
  · exact h0

/-- The final breakpoint date of a schedule built from coupons only is the date of the
last coupon. -/
theorem notionalsFromCashflows_last_date (cfs : List CashFlow) (sched : List Nat)
    (nots : List ℚ) (hne : cfs ≠ [])
    (hc : (cfs.getLast hne).isCoupon = true)
    (h : notionalsFromCashflows cfs = Except.ok (sched, nots)) :
    sched.getD (sched.length - 1) nullDate = (cfs.getLast hne).date := by
  obtain ⟨st, hloop, _, hs, _⟩ := (notionalsFromCashflows_ok_iff cfs sched nots).mp h
  rw [← List.dropLast_append_getLast hne] at hloop
  have hlast := notionalLoop_lastPaymentDate _ _ notionalInit st hc hloop
  rw [hs, ← hlast]
  simp [List.getD, List.getElem?_append_right]

/-- Tradability on a schedule with strictly increasing dates from index 1 on,
positive notionals before the last and a last notional of `0`. -/
theorem isTradable_strict_schedule (L : Loan) (S : Settings) (d : Nat)
    (hd0 : d ≠ nullDate)
    (h2 : 2 ≤ L.notionalSchedule_.length)
    (hlen : L.notionals_.length = L.notionalSchedule_.length)
    (hstrict : L.notionalSchedule_.tail.Pairwise (fun a b => a < b))
    (hpos : ∀ j, j < L.notionalSchedule_.length - 1 → L.notionals_.getD j 0 ≠ 0)
    (hzero : L.notionals_.getD (L.notionalSchedule_.length - 1) 0 = 0) :
    L.isTradable S d = Except.ok
      (decide (d < L.notionalSchedule_.getD (L.notionalSchedule_.length - 1) nullDate)) := by
  have hne : L.notionalSchedule_ ≠ [] := by
    intro hnil; rw [hnil] at h2; simp at h2
  by_cases hafter : L.notionalSchedule_.getD (L.notionalSchedule_.length - 1) nullDate < d
  · rw [isTradable_of_notional L S d 0 hd0 (notional_after_maturity L S d hd0 hne hafter)]
    have hnlt : ¬ (d < L.notionalSchedule_.getD (L.notionalSchedule_.length - 1) nullDate) := by
      omega
    rw [decide_eq_false hnlt, bne_self_eq_false]
  · have hle : ∀ j k, 1 ≤ j → j ≤ k → k < 1 + (L.notionalSchedule_.length - 1) →
        L.notionalSchedule_.getD j nullDate ≤ L.notionalSchedule_.getD k nullDate := by
      intro j k hj hjk hk
      by_cases hjk2 : j < k
      · exact le_of_lt (strict_tail_getD _ hstrict j k hj hjk2 (by omega))
      · have : j = k := by omega
        subst this
        exact le_refl _
    obtain ⟨h1, hup, hbelow, habove⟩ := lowerBoundLoop_spec L.notionalSchedule_ d
      (L.notionalSchedule_.length - 1) 1 (L.notionalSchedule_.length - 1) (le_refl _) hle
    have hidx : lower_bound L.notionalSchedule_ 1 L.notionalSchedule_.length d =
        lowerBoundLoop L.notionalSchedule_ d (L.notionalSchedule_.length - 1) 1
          (L.notionalSchedule_.length - 1) := rfl
    generalize lowerBoundLoop L.notionalSchedule_ d (L.notionalSchedule_.length - 1) 1
      (L.notionalSchedule_.length - 1) = idx at h1 hup hbelow habove hidx
    have hidxn : idx ≤ L.notionalSchedule_.length - 1 := by
      by_contra hcon
      have := hbelow (L.notionalSchedule_.length - 1) (by omega) (by omega)
      omega
    have hnot := notional_of_lower_bound L S d idx hd0 hlen h1 (by omega) (by omega) hidx
    rw [isTradable_of_notional L S d _ hd0 hnot]
    have hge := habove idx (le_refl _) (by omega)
    by_cases hlt : d < L.notionalSchedule_.getD idx nullDate
    · have hidx1 : idx - 1 < L.notionalSchedule_.length - 1 := by omega
      have hdb : d < L.notionalSchedule_.getD (L.notionalSchedule_.length - 1) nullDate := by
        by_cases hi : idx = L.notionalSchedule_.length - 1
        · rw [← hi]; exact hlt
        · exact lt_trans hlt (strict_tail_getD _ hstrict idx _ h1 (by omega) (by omega))
      rw [if_pos hlt, decide_eq_true hdb, bne_iff_ne.mpr (hpos (idx - 1) hidx1)]
    · have heq : L.notionalSchedule_.getD idx nullDate = d := by omega
      by_cases hi : idx = L.notionalSchedule_.length - 1
      · have hdb : ¬ (d < L.notionalSchedule_.getD (L.notionalSchedule_.length - 1) nullDate) := by
          rw [← hi]; exact hlt
        rw [if_neg hlt, hi, hzero, decide_eq_false hdb, bne_self_eq_false]
      · have hdb : d < L.notionalSchedule_.getD (L.notionalSchedule_.length - 1) nullDate := by
          rw [← heq]
          exact strict_tail_getD _ hstrict idx _ h1 (by omega) (by omega)
        rw [if_neg hlt, decide_eq_true hdb, bne_iff_ne.mpr (hpos idx (by omega))]

/-- C9: `isTradable(d)` is `notional(d) != 0` (errors carried over); and for every loan
constructed from coupons with strictly positive nominals and strictly increasing payment
dates, the final breakpoint date is the last coupon's date and, at every non-null date
`d`, `isTradable(d)` holds iff `d` is strictly before that date. -/
theorem C9_tradable_iff_before_final_breakpoint :
    (∀ (L : Loan) (S : Settings) (d : Nat),
      L.isTradable S d = (L.notional S d).map (fun n => n != 0)) ∧
    (∀ (srt : StdSort) (settlementDays : Nat) (calendar : Calendar) (issueDate : Nat)
      (coupons : List CashFlow) (L : Loan) (S : Settings) (d : Nat)
      (hne : coupons ≠ []),
      (∀ c ∈ coupons, c.isCoupon = true) →
      (∀ x ∈ couponNominals coupons, 0 < x) →
      coupons.Pairwise (fun a b => a.date < b.date) →
      Loan.construct srt settlementDays calendar issueDate coupons = Except.ok L →
      d ≠ nullDate →
      L.notionalSchedule_.getLast? = some (coupons.getLast hne).date ∧
      L.isTradable S d = Except.ok (decide (d < (coupons.getLast hne).date))) := by
  refine ⟨isTradable_eq, ?_⟩
  intro srt settlementDays calendar issueDate coupons L S d hne hcoupons hpos hstrict h hd0
  obtain ⟨sched, nots, hn, hs, hno, _, _⟩ :=
    construct_schedule srt settlementDays calendar issueDate coupons L hne h
  rw [stdSort_of_strict srt coupons hstrict] at hn
  obtain ⟨hlen, h2⟩ := notionalsFromCashflows_length _ sched nots hn
  have hzero := notionalsFromCashflows_last_zero _ sched nots hn
  have hlastdate := notionalsFromCashflows_last_date coupons sched nots hne
    (hcoupons _ (List.getLast_mem hne)) hn
  have hsched : sched.tail.Pairwise (fun a b => a < b) :=
    notionalsFromCashflows_schedule_order (fun a b => a < b)
      (fun a b c hab hbc => lt_trans hab hbc) _ sched nots hn hstrict
  have hposn : ∀ j, j < sched.length - 1 → nots.getD j 0 ≠ 0 :=
    fun j hj => ne_of_gt (hpos _ (notionalsFromCashflows_mem coupons sched nots hn j hj))
  rw [← hs] at hlen h2 hzero hlastdate hsched hposn
  rw [← hno] at hlen hzero hposn
  have hnonempty : L.notionalSchedule_ ≠ [] := by
    intro hnil; rw [hnil] at h2; simp at h2
  refine ⟨?_, ?_⟩
  · rw [getLast?_eq_getD _ hnonempty, hlastdate]
  · rw [isTradable_strict_schedule L S d hd0 h2 hlen.symm hsched hposn hzero, hlastdate]

/-- C9 on the loan constructed from `exampleLeg`, at the date `25`. -/
theorem C9_tradable_iff_before_final_breakpoint_witness :
    exampleConstructed.isTradable { evaluationDate := 1 } 25 =
      (exampleConstructed.notional { evaluationDate := 1 } 25).map (fun n => n != 0) ∧
    exampleConstructed.notionalSchedule_.getLast? =
      some (exampleLeg.getLast (by decide)).date ∧
    exampleConstructed.isTradable { evaluationDate := 1 } 25 =
      Except.ok (decide (25 < (exampleLeg.getLast (by decide)).date)) :=
  ⟨C9_tradable_iff_before_final_breakpoint.1 exampleConstructed { evaluationDate := 1 } 25,
   C9_tradable_iff_before_final_breakpoint.2 insertionStdSort 0 exampleCalendar nullDate
    exampleLeg exampleConstructed { evaluationDate := 1 } 25 (by decide) (by decide)
    (by decide!)
    (by simp [exampleLeg, Coupon])
    exampleConstructed_eq (by decide)⟩

/-! Clean price, accrued amount and dirty price -/

theorem notional_effectiveSettlement (L : Loan) (S : Settings) (settlement : Nat) :
    L.notional S (effectiveSettlement L S settlement) = L.notional S settlement := by
  unfold effectiveSettlement
  by_cases h : settlement = nullDate
  · simp only [h, if_true, notional_null]
  · simp only [h, if_false]

theorem requireTradable_ok (L : Loan) (S : Settings) (x : Nat) (n : ℚ)
    (hn : L.notional S x = Except.ok n) (h0 : n ≠ 0) :
    LoanFunctions.requireTradable S L x = Except.ok () := by
  have h := isTradable_eq L S x
  unfold Loan.isTradable at h
  unfold LoanFunctions.requireTradable
  rw [h, hn]
  simp only [Except.map, bne_iff_ne.mpr h0]

theorem requireTradable_zero (L : Loan) (S : Settings) (x : Nat)
    (hn : L.notional S x = Except.ok 0) :
    LoanFunctions.requireTradable S L x = Except.error Error.nonTradable := by
  have h := isTradable_eq L S x
  unfold Loan.isTradable at h
  unfold LoanFunctions.requireTradable
  rw [h, hn]
  simp only [Except.map, bne_self_eq_false]

theorem requireTradable_error (L : Loan) (S : Settings) (x : Nat) (e : Error)
    (hn : L.notional S x = Except.error e) :
    LoanFunctions.requireTradable S L x = Except.error e := by
  have h := isTradable_eq L S x
  unfold Loan.isTradable at h
  unfold LoanFunctions.requireTradable
  rw [h, hn]
  simp only [Except.map]

/-- `LoanFunctions::accruedAmount` at a tradable settlement date. -/
theorem lf_accruedAmount_tradable (L : Loan) (S : Settings) (C : CashFlowsLib)
    (settlement : Nat) (n : ℚ) (hn : L.notional S settlement = Except.ok n) (h0 : n ≠ 0) :
    LoanFunctions.accruedAmount S C L settlement =
      Except.ok (C.accruedAmount L.cashflows_ false (effectiveSettlement L S settlement)
        * 100 / n) := by
  have hn2 := notional_effectiveSettlement L S settlement
  rw [hn] at hn2
  have hreq := requireTradable_ok L S _ n hn2 h0
  unfold effectiveSettlement at hn2 hreq
  unfold LoanFunctions.accruedAmount effectiveSettlement
  simp only [hreq, hn2]

/-- `LoanFunctions::dirtyPrice` at a tradable settlement date. -/
theorem lf_dirtyPriceRate_tradable (L : Loan) (S : Settings) (C : CashFlowsLib)
    (y : InterestRate) (settlement : Nat) (n : ℚ)
    (hn : L.notional S settlement = Except.ok n) (h0 : n ≠ 0) :
    LoanFunctions.dirtyPriceRate S C L y settlement =
      Except.ok (C.npv L.cashflows_ y false (effectiveSettlement L S settlement)
        * 100 / n) := by
  have hn2 := notional_effectiveSettlement L S settlement
  rw [hn] at hn2
  have hreq := requireTradable_ok L S _ n hn2 h0
  unfold effectiveSettlement at hn2 hreq
  unfold LoanFunctions.dirtyPriceRate effectiveSettlement
  simp only [hreq, hn2]

theorem loan_accruedAmount_tradable (L : Loan) (S : Settings) (C : CashFlowsLib)
    (settlement : Nat) (n : ℚ) (hn : L.notional S settlement = Except.ok n) (h0 : n ≠ 0) :
    L.accruedAmount S C settlement = LoanFunctions.accruedAmount S C L settlement := by
  unfold Loan.accruedAmount
  simp only [hn, h0, if_false]

theorem lf_dirtyPriceRate_error (L : Loan) (S : Settings) (C : CashFlowsLib)
    (y : InterestRate) (settlement : Nat) (e : Error)
    (hreq : LoanFunctions.requireTradable S L (effectiveSettlement L S settlement) =
      Except.error e) :
    LoanFunctions.dirtyPriceRate S C L y settlement = Except.error e := by
  unfold effectiveSettlement at hreq
  unfold LoanFunctions.dirtyPriceRate
  simp only [hreq]

/-- On every settlement date the `LoanFunctions` clean price plus accrued amount is the
`LoanFunctions` dirty price, failures included. -/
theorem lf_clean_plus_accrued (L : Loan) (S : Settings) (C : CashFlowsLib)
    (y : InterestRate) (settlement : Nat) :
    (LoanFunctions.cleanPriceRate S C L y settlement).bind
        (fun c => (LoanFunctions.accruedAmount S C L settlement).map (fun a => c + a)) =
      LoanFunctions.dirtyPriceRate S C L y settlement := by
  have hn2 := notional_effectiveSettlement L S settlement
  cases hn : L.notional S settlement with
  | error e =>
    rw [hn] at hn2
    have hd := lf_dirtyPriceRate_error L S C y settlement e
      (requireTradable_error L S _ e hn2)
    unfold LoanFunctions.cleanPriceRate
    rw [hd]
    rfl
  | ok n =>
    by_cases h0 : n = 0
    · rw [hn, h0] at hn2
      have hd := lf_dirtyPriceRate_error L S C y settlement Error.nonTradable
        (requireTradable_zero L S _ hn2)
      unfold LoanFunctions.cleanPriceRate
      rw [hd]
      rfl
    · have hd := lf_dirtyPriceRate_tradable L S C y settlement n hn h0
      have ha := lf_accruedAmount_tradable L S C settlement n hn h0
      have hla := loan_accruedAmount_tradable L S C settlement n hn h0
      unfold LoanFunctions.cleanPriceRate
      rw [hla, hd, ha]
      simp only [Except.bind, Except.map, sub_add_cancel]

/-- At every settlement date at which the loan is tradable (`notional(settlement)` is
defined and not `0`) and for every yield, `LoanFunctions::cleanPrice`, `accruedAmount`
and `dirtyPrice` succeed with clean + accrued = dirty, and `Loan::cleanPrice`,
`Loan::accruedAmount` and `Loan::dirtyPrice` return the same three values; on every
settlement date the `LoanFunctions` identity holds with failures included (the three
calls fail alike). -/
theorem clean_plus_accrued_is_dirty :
    (∀ (L : Loan) (S : Settings) (C : CashFlowsLib) (y : ℚ) (dc comp freq : Nat)
      (settlement : Nat) (n : ℚ),
      L.notional S settlement = Except.ok n → n ≠ 0 →
      ∃ c a,
        LoanFunctions.cleanPrice S C L y dc comp freq settlement = Except.ok c ∧
        LoanFunctions.accruedAmount S C L settlement = Except.ok a ∧
        LoanFunctions.dirtyPrice S C L y dc comp freq settlement = Except.ok (c + a) ∧
        L.cleanPrice S C y dc comp freq settlement = Except.ok c ∧
        L.accruedAmount S C settlement = Except.ok a ∧
        L.dirtyPrice S C y dc comp freq settlement = Except.ok (c + a)) ∧
    (∀ (L : Loan) (S : Settings) (C : CashFlowsLib) (y : ℚ) (dc comp freq : Nat)
      (settlement : Nat),
      (LoanFunctions.cleanPrice S C L y dc comp freq settlement).bind
          (fun c => (LoanFunctions.accruedAmount S C L settlement).map (fun a => c + a)) =
        LoanFunctions.dirtyPrice S C L y dc comp freq settlement) := by
  constructor
  · intro L S C y dc comp freq settlement n hn h0
    have hd := lf_dirtyPriceRate_tradable L S C
      { rate := y, dayCounter := dc, compounding := comp, frequency := freq }
      settlement n hn h0
    have ha := lf_accruedAmount_tradable L S C settlement n hn h0
    have hla := loan_accruedAmount_tradable L S C settlement n hn h0
    have hc : LoanFunctions.cleanPrice S C L y dc comp freq settlement =
        Except.ok
          (C.npv L.cashflows_
              { rate := y, dayCounter := dc, compounding := comp, frequency := freq }
              false (effectiveSettlement L S settlement) * 100 / n -
            C.accruedAmount L.cashflows_ false (effectiveSettlement L S settlement)
              * 100 / n) := by
      unfold LoanFunctions.cleanPrice LoanFunctions.cleanPriceRate
      rw [hd, hla, ha]
    refine ⟨_, _, hc, ha, ?_, hc, hla.trans ha, ?_⟩
    · unfold LoanFunctions.dirtyPrice
      rw [hd, sub_add_cancel]
    · unfold Loan.dirtyPrice
      simp only [hn, h0, if_false, hc, hla, ha]
  · intro L S C y dc comp freq settlement
    exact lf_clean_plus_accrued L S C _ settlement

/-- C10 at the final breakpoint date 30 of the loan constructed from `exampleLeg`, where
the notional is `0`: `Loan::accruedAmount` and `Loan::dirtyPrice(y, ...)` test the
notional and return `0`, while `Loan::cleanPrice(y, ...)`, which has no such test, fails
with "non tradable", so that clean + accrued is not the dirty price; the three
`LoanFunctions` calls fail alike. -/
theorem C10_loan_clean_price_fails_at_zero_notional :
    exampleConstructed.notional { evaluationDate := 1 } 30 = Except.ok 0 ∧
    exampleConstructed.cleanPrice { evaluationDate := 1 } exampleCashFlows
      (1 / 20) 0 0 1 30 = Except.error Error.nonTradable ∧
    exampleConstructed.accruedAmount { evaluationDate := 1 } exampleCashFlows 30 =
      Except.ok 0 ∧
    exampleConstructed.dirtyPrice { evaluationDate := 1 } exampleCashFlows
      (1 / 20) 0 0 1 30 = Except.ok 0 ∧
    LoanFunctions.cleanPrice { evaluationDate := 1 } exampleCashFlows exampleConstructed
      (1 / 20) 0 0 1 30 = Except.error Error.nonTradable ∧
    LoanFunctions.accruedAmount { evaluationDate := 1 } exampleCashFlows
      exampleConstructed 30 = Except.error Error.nonTradable ∧
    LoanFunctions.dirtyPrice { evaluationDate := 1 } exampleCashFlows exampleConstructed
      (1 / 20) 0 0 1 30 = Except.error Error.nonTradable := by
  refine ⟨by decide!, by decide!, by decide!, by decide!, by decide!, by decide!,
    by decide!⟩

/-! Yield from price -/

theorem effectiveSettlement_idem (L : Loan) (S : Settings) (settlement : Nat) :
    effectiveSettlement L S (effectiveSettlement L S settlement) =
      effectiveSettlement L S settlement := by
  unfold effectiveSettlement
  by_cases h : settlement = nullDate
  · by_cases h2 : L.settlementDate S nullDate = nullDate
    · simp only [h, if_true, h2]
    · simp only [h, if_true, h2, if_false]
  · simp only [h, if_false]

theorem tradableSettlement_ok (L : Loan) (S : Settings) (settlement : Nat) (n : ℚ)
    (hn : L.notional S settlement = Except.ok n) (h0 : n ≠ 0) :
    LoanFunctions.tradableSettlement S L settlement =
      Except.ok (effectiveSettlement L S settlement) := by
  have hn2 := notional_effectiveSettlement L S settlement
  rw [hn] at hn2
  have hreq := requireTradable_ok L S _ n hn2 h0
  unfold effectiveSettlement at hreq
  unfold LoanFunctions.tradableSettlement effectiveSettlement
  simp only [hreq]

theorem tradableSettlement_zero (L : Loan) (S : Settings) (settlement : Nat)
    (hn : L.notional S settlement = Except.ok 0) :
    LoanFunctions.tradableSettlement S L settlement = Except.error Error.nonTradable := by
  have hn2 := notional_effectiveSettlement L S settlement
  rw [hn] at hn2
  have hreq := requireTradable_zero L S _ hn2
  unfold effectiveSettlement at hreq
  unfold LoanFunctions.tradableSettlement
  simp only [hreq]

/-- `LoanFunctions::cleanPrice` at a tradable settlement date. -/
theorem lf_cleanPrice_tradable (L : Loan) (S : Settings) (C : CashFlowsLib) (y : ℚ)
    (dc comp freq : Nat) (settlement : Nat) (n : ℚ)
    (hn : L.notional S settlement = Except.ok n) (h0 : n ≠ 0) :
    LoanFunctions.cleanPrice S C L y dc comp freq settlement =
      Except.ok
        (C.npv L.cashflows_
            { rate := y, dayCounter := dc, compounding := comp, frequency := freq }
            false (effectiveSettlement L S settlement) * 100 / n -
          C.accruedAmount L.cashflows_ false (effectiveSettlement L S settlement)
            * 100 / n) := by
  have hd := lf_dirtyPriceRate_tradable L S C
    { rate := y, dayCounter := dc, compounding := comp, frequency := freq }
    settlement n hn h0
  have ha := lf_accruedAmount_tradable L S C settlement n hn h0
  have hla := loan_accruedAmount_tradable L S C settlement n hn h0
  unfold LoanFunctions.cleanPrice LoanFunctions.cleanPriceRate
  rw [hd, hla, ha]

/-- `LoanFunctions::yield` at a tradable settlement date: the call of the root finder it
ends in, on the NPV target `(cleanPrice + accrued) / (100 / notional)`. -/
theorem lf_yield_tradable (L : Loan) (S : Settings) (C : CashFlowsLib) (p : ℚ)
    (dc comp freq : Nat) (settlement : Nat) (accuracy : ℚ) (maxIterations : Nat)
    (guess : ℚ) (n : ℚ)
    (hn : L.notional S settlement = Except.ok n) (h0 : n ≠ 0) :
    LoanFunctions.yield S C L p dc comp freq settlement accuracy maxIterations guess =
      C.yield L.cashflows_
        ((p + C.accruedAmount L.cashflows_ false (effectiveSettlement L S settlement)
            * 100 / n) / (100 / n))
        dc comp freq false (effectiveSettlement L S settlement)
        (effectiveSettlement L S settlement) accuracy maxIterations guess := by
  have hn2 := notional_effectiveSettlement L S settlement
  rw [hn] at hn2
  have ht := tradableSettlement_ok L S settlement n hn h0
  have hla := loan_accruedAmount_tradable L S C (effectiveSettlement L S settlement) n hn2 h0
  have ha := lf_accruedAmount_tradable L S C (effectiveSettlement L S settlement) n hn2 h0
  rw [effectiveSettlement_idem] at ha
  unfold LoanFunctions.yield
  simp only [ht, hla, ha, hn2]

/-- C12: for every loan and settlement date with `notional(settlement) == 0`,
`Loan::dirtyPrice(y, dc, comp, freq, settlement)`, `Loan::yield(cleanPrice, dc, comp,
freq, settlement, ...)` and `Loan::accruedAmount(settlement)` each return exactly `0`,
without failing and whatever the analytics functions are (they are not consulted). -/
theorem C12_zero_notional_short_circuit (L : Loan) (S : Settings) (settlement : Nat)
    (hn : L.notional S settlement = Except.ok 0) :
    ∀ (C : CashFlowsLib) (y p : ℚ) (dc comp freq : Nat) (accuracy : ℚ)
      (maxEvaluations : Nat),
      L.dirtyPrice S C y dc comp freq settlement = Except.ok 0 ∧
      L.yield S C p dc comp freq settlement accuracy maxEvaluations = Except.ok 0 ∧
      L.accruedAmount S C settlement = Except.ok 0 := by
  intro C y p dc comp freq accuracy maxEvaluations
  refine ⟨?_, ?_, ?_⟩
  · unfold Loan.dirtyPrice
    simp only [hn, if_true]
  · unfold Loan.yield
    simp only [hn, if_true]
  · unfold Loan.accruedAmount
    simp only [hn, if_true]

/-- C12 on the loan constructed from `exampleLeg`, at its final breakpoint date `30`,
with the analytics of `exampleCashFlows`. -/
theorem C12_zero_notional_short_circuit_witness :
    exampleConstructed.dirtyPrice { evaluationDate := 1 } exampleCashFlows (1 / 20) 0 0 1 30 =
      Except.ok 0 ∧
    exampleConstructed.yield { evaluationDate := 1 } exampleCashFlows 98 0 0 1 30
      (1 / 100000000) 100 = Except.ok 0 ∧
    exampleConstructed.accruedAmount { evaluationDate := 1 } exampleCashFlows 30 =
      Except.ok 0 :=
  C12_zero_notional_short_circuit exampleConstructed { evaluationDate := 1 } 30
    (by decide!) exampleCashFlows (1 / 20) 98 0 0 1 (1 / 100000000) 100

/-- C13 at a failing input: the loan constructed from `exampleLeg`, valued on day 31
after its last cash flow (settlement date 31, notional `0`, settlement value `0`).
`Loan::cleanPrice(y, ...)` fails with "non tradable" and the no-argument
`Loan::dirtyPrice()` and `Loan::cleanPrice()` divide by the zero notional, while
`Loan::dirtyPrice(y, ...)` returns `0`. -/
theorem C13_clean_price_not_short_circuited :
    exampleExpired.settlementDate { evaluationDate := 31 } nullDate = 31 ∧
    exampleExpired.notional { evaluationDate := 31 } 31 = Except.ok 0 ∧
    exampleExpired.cleanPrice { evaluationDate := 31 } exampleCashFlows (1 / 20) 0 0 1 31 =
      Except.error Error.nonTradable ∧
    exampleExpired.dirtyPriceTheoretical { evaluationDate := 31 } =
      Except.error Error.divisionByZero ∧
    exampleExpired.cleanPriceTheoretical { evaluationDate := 31 } exampleCashFlows =
      Except.error Error.divisionByZero ∧
    exampleExpired.dirtyPrice { evaluationDate := 31 } exampleCashFlows (1 / 20) 0 0 1 31 =
      Except.ok 0 := by
  refine ⟨by decide!, by decide!, by decide!, by decide!, by decide!, by decide!⟩

/-- C14 at a failing input: on the loan constructed from `exampleLeg`, at its final
breakpoint date `30` (notional `0`), the (rate, day counter, compounding, frequency)
overloads of `basisPointValue` and `yieldValueBasisPoint` return the value of the
external function, while their `InterestRate` overloads, `accruedAmount`, `bps`,
`duration` and `convexity` fail with "non tradable". -/
theorem C14_basis_point_value_unguarded :
    exampleConstructed.notional { evaluationDate := 1 } 30 = Except.ok 0 ∧
    LoanFunctions.basisPointValue exampleCashFlows exampleConstructed (1 / 20) 0 0 1 30 =
      Except.ok 6 ∧
    LoanFunctions.yieldValueBasisPoint exampleCashFlows exampleConstructed (1 / 20) 0 0 1 30 =
      Except.ok 7 ∧
    LoanFunctions.basisPointValueRate { evaluationDate := 1 } exampleCashFlows
      exampleConstructed { rate := 1 / 20, dayCounter := 0, compounding := 0, frequency := 1 }
      30 = Except.error Error.nonTradable ∧
    LoanFunctions.yieldValueBasisPointRate { evaluationDate := 1 } exampleCashFlows
      exampleConstructed { rate := 1 / 20, dayCounter := 0, compounding := 0, frequency := 1 }
      30 = Except.error Error.nonTradable ∧
    LoanFunctions.accruedAmount { evaluationDate := 1 } exampleCashFlows exampleConstructed
      30 = Except.error Error.nonTradable ∧
    LoanFunctions.bps { evaluationDate := 1 } exampleCashFlows exampleConstructed
      (1 / 20) 0 0 1 30 = Except.error Error.nonTradable ∧
    LoanFunctions.duration { evaluationDate := 1 } exampleCashFlows exampleConstructed
      (1 / 20) 0 0 1 0 30 = Except.error Error.nonTradable ∧
    LoanFunctions.convexity { evaluationDate := 1 } exampleCashFlows exampleConstructed
      (1 / 20) 0 0 1 30 = Except.error Error.nonTradable := by
  refine ⟨by decide!, by decide!, by decide!, by decide!, by decide!, by decide!,
    by decide!, by decide!, by decide!⟩

/-! Settlement date -/

/-- C15: for every as-of date `d` (the evaluation date when `d` is null),
`settlementDate(d)` is `calendar.advance(d, settlementDays)` when no issue date is set,
and the later of that date and `issueDate` when one is set; with an issue date,
`settlementDate(d) >= issueDate`. -/
theorem C15_settlement_date (L : Loan) (S : Settings) (d : Nat) :
    (L.issueDate_ = nullDate →
      L.settlementDate S d =
        L.calendar_.advance (if d = nullDate then S.evaluationDate else d)
          L.settlementDays_) ∧
    (L.issueDate_ ≠ nullDate →
      L.settlementDate S d =
        max (L.calendar_.advance (if d = nullDate then S.evaluationDate else d)
          L.settlementDays_) L.issueDate_ ∧
      L.issueDate_ ≤ L.settlementDate S d) := by
  constructor
  · intro h
    unfold Loan.settlementDate
    simp only [h, if_true]
  · intro h
    have heq : L.settlementDate S d =
        max (L.calendar_.advance (if d = nullDate then S.evaluationDate else d)
          L.settlementDays_) L.issueDate_ := by
      unfold Loan.settlementDate
      simp only [h, if_false]
    exact ⟨heq, by rw [heq]; exact le_max_right _ _⟩

/-- C15 on the loan constructed from `exampleLeg` (no issue date, as-of date 12) and on
`exampleIssued` (issue date 14, as-of date null, evaluation date 3). -/
theorem C15_settlement_date_witness :
    exampleConstructed.settlementDate { evaluationDate := 3 } 12 =
      exampleConstructed.calendar_.advance
        (if 12 = nullDate then ({ evaluationDate := 3 } : Settings).evaluationDate else 12)
        exampleConstructed.settlementDays_ ∧
    exampleIssued.settlementDate { evaluationDate := 3 } nullDate =
      max (exampleIssued.calendar_.advance
            (if nullDate = nullDate then ({ evaluationDate := 3 } : Settings).evaluationDate
             else nullDate)
            exampleIssued.settlementDays_)
        exampleIssued.issueDate_ ∧
    exampleIssued.issueDate_ ≤ exampleIssued.settlementDate { evaluationDate := 3 } nullDate :=
  ⟨(C15_settlement_date exampleConstructed { evaluationDate := 3 } 12).1 (by decide),
   (C15_settlement_date exampleIssued { evaluationDate := 3 } nullDate).2 (by decide)⟩

/-! Construction failures -/

theorem notionalsFromCashflows_error_kind (cfs : List CashFlow) (e : Error)
    (h : notionalsFromCashflows cfs = Except.error e) :
    e = Error.increasingCouponNotionals ∨ e = Error.noCouponsProvided := by
  unfold notionalsFromCashflows at h
  cases hloop : notionalLoop cfs notionalInit with
  | error e1 =>
    rw [hloop] at h
    simp only [Except.error.injEq] at h
    rw [← h]
    exact Or.inl (notionalLoop_error cfs notionalInit e1 hloop)
  | ok st =>
    rw [hloop] at h
    simp only [] at h
    split at h
    · simp only [Except.error.injEq] at h
      exact Or.inr h.symm
    · cases h

/-- `addRedemptionsToCashflows` fails only as the schedule builder does. -/
theorem addRedemptionsToCashflows_error_kind (L : Loan) (factors : List ℚ) (e : Error)
    (h : L.addRedemptionsToCashflows factors = Except.error e) :
    L.calculateNotionalsFromCashflows = Except.error e ∧
    (e = Error.increasingCouponNotionals ∨ e = Error.noCouponsProvided) := by
  cases hcalc : L.calculateNotionalsFromCashflows with
  | ok L1 =>
    obtain ⟨_, _, _, heq⟩ := addRedemptionsToCashflows_eq L L1 factors hcalc
    rw [heq] at h
    cases h
  | error e1 =>
    rw [addRedemptionsToCashflows_error L factors e1 hcalc] at h
    simp only [Except.error.injEq] at h
    rw [← h]
    refine ⟨rfl, ?_⟩
    unfold Loan.calculateNotionalsFromCashflows at hcalc
    cases hn : notionalsFromCashflows L.cashflows_ with
    | error e2 =>
      rw [hn] at hcalc
      simp only [Except.error.injEq] at hcalc
      rw [← hcalc]
      exact notionalsFromCashflows_error_kind _ e2 hn
    | ok pr =>
      rw [hn] at hcalc
      cases hcalc

/-- The issue-date check on a ledger that starts with `c0`. -/
theorem requireIssueDate_cons (L : Loan) (c0 : CashFlow) (t : List CashFlow)
    (h : L.cashflows_ = c0 :: t) :
    L.requireIssueDate =
      if L.issueDate_ ≠ nullDate ∧ ¬ (L.issueDate_ < c0.date)
      then Except.error Error.issueDateNotEarlier else Except.ok () := by
  unfold Loan.requireIssueDate
  rw [h]
  by_cases h0 : L.issueDate_ = nullDate
  · simp [h0]
  · by_cases hlt : L.issueDate_ < c0.date
    · simp [h0, hlt, vectorAt]
    · simp [h0, hlt, vectorAt]

/-- The outcome of the constructor on a non-empty coupon list, with the first cash flow
of the sorted ledger named. -/
theorem construct_cons (srt : StdSort) (settlementDays : Nat) (calendar : Calendar)
    (issueDate : Nat) (coupons : List CashFlow) (hne : coupons ≠ [])
    (c0 : CashFlow) (t : List CashFlow) (hrun : srt.run coupons = c0 :: t) :
    Loan.construct srt settlementDays calendar issueDate coupons =
      if issueDate ≠ nullDate ∧ ¬ (issueDate < c0.date)
      then Except.error Error.issueDateNotEarlier
      else
        ({ settlementDays_ := settlementDays, calendar_ := calendar,
           notionalSchedule_ := [], notionals_ := [],
           cashflows_ := srt.run coupons, redemptions_ := [],
           maturityDate_ := (coupons.getLast hne).date, issueDate_ := issueDate,
           settlementValue_ := none } : Loan).addRedemptionsToCashflows [] := by
  have hlast : coupons.getLast? = some (coupons.getLast hne) :=
    List.getLast?_eq_getLast _ hne
  have hreq := requireIssueDate_cons
    ({ settlementDays_ := settlementDays, calendar_ := calendar,
       notionalSchedule_ := [], notionals_ := [],
       cashflows_ := srt.run coupons, redemptions_ := [],
       maturityDate_ := nullDate, issueDate_ := issueDate,
       settlementValue_ := none } : Loan) c0 t hrun
  by_cases hbad : issueDate ≠ nullDate ∧ ¬ (issueDate < c0.date)
  · rw [if_pos hbad] at hreq
    rw [if_pos hbad]
    unfold Loan.construct
    simp only [hlast, hreq]
  · rw [if_neg hbad] at hreq
    rw [if_neg hbad]
    unfold Loan.construct
    simp only [hlast, hreq]

/-- The first cash flow of the sorted ledger carries the earliest payment date. -/
theorem stdSort_head_earliest (srt : StdSort) (coupons : List CashFlow)
    (c0 : CashFlow) (t : List CashFlow) (hrun : srt.run coupons = c0 :: t) :
    c0 ∈ coupons ∧ ∀ c ∈ coupons, c0.date ≤ c.date := by
  have hperm := srt.perm coupons
  have hsorted := srt.sorted coupons
  rw [hrun] at hperm hsorted
  refine ⟨hperm.mem_iff.mp (List.mem_cons_self _ _), ?_⟩
  intro c hc
  rcases List.mem_cons.mp (hperm.mem_iff.mpr hc) with h1 | h1
  · rw [h1]
  · exact (notLater_iff c0 c).mp (List.rel_of_sorted_cons hsorted c h1)

/-- C16 (as amended): constructing a loan from a non-empty coupon list, in any input
order, fails with the "issue date must be earlier than first payment date" error iff
the issue date is non-null and not strictly earlier than the earliest coupon payment
date (some coupon is paid on or before it); a null issue date never raises it. -/
theorem C16_issue_date_check (srt : StdSort) (settlementDays : Nat) (calendar : Calendar)
    (issueDate : Nat) (coupons : List CashFlow) (hne : coupons ≠ []) :
    Loan.construct srt settlementDays calendar issueDate coupons =
        Except.error Error.issueDateNotEarlier ↔
      issueDate ≠ nullDate ∧ ∃ c ∈ coupons, c.date ≤ issueDate := by
  cases hrun : srt.run coupons with
  | nil =>
    have hlen := (srt.perm coupons).length_eq
    rw [hrun] at hlen
    exact absurd (List.length_eq_zero.mp hlen.symm) hne
  | cons c0 t =>
    obtain ⟨hmem, hmin⟩ := stdSort_head_earliest srt coupons c0 t hrun
    rw [construct_cons srt settlementDays calendar issueDate coupons hne c0 t hrun]
    by_cases hbad : issueDate ≠ nullDate ∧ ¬ (issueDate < c0.date)
    · rw [if_pos hbad]
      constructor
      · intro _
        exact ⟨hbad.1, c0, hmem, not_lt.mp hbad.2⟩
      · intro _
        rfl
    · rw [if_neg hbad]
      constructor
      · intro h
        obtain ⟨_, hkind⟩ := addRedemptionsToCashflows_error_kind _ [] _ h
        rcases hkind with hk | hk <;> cases hk
      · rintro ⟨h0, c, hc, hle⟩
        exfalso
        apply hbad
        refine ⟨h0, ?_⟩
        have := hmin c hc
        omega

/-- C16 (as amended) on `exampleLeg` with the issue date 10, the first payment date. -/
theorem C16_issue_date_check_witness :
    Loan.construct insertionStdSort 0 exampleCalendar 10 exampleLeg =
        Except.error Error.issueDateNotEarlier ↔
      10 ≠ nullDate ∧ ∃ c ∈ exampleLeg, c.date ≤ 10 :=
  C16_issue_date_check insertionStdSort 0 exampleCalendar 10 exampleLeg (by decide)

/-- C16 as stated fails: with the issue date 5, strictly earlier than every payment
date, the construction from coupons of nominals 50 then 75 still fails, with
"increasing coupon notionals". -/
theorem C16_counterexample :
    (∀ c ∈ [Coupon 10 5 50, Coupon 20 5 75], 5 < c.date) ∧
    (Loan.construct insertionStdSort 0 exampleCalendar 5
        [Coupon 10 5 50, Coupon 20 5 75]).map (fun L => L.cashflows_) =
      Except.error Error.increasingCouponNotionals := by
  refine ⟨by decide, by decide!⟩

/-- Cash flows that are not coupons leave the loop state as it is. -/
theorem notionalLoop_no_coupons (l : List CashFlow) (st : NotionalState)
    (h : couponNominals l = []) : notionalLoop l st = Except.ok st := by
  induction l with
  | nil => rfl
  | cons cf rest ih =>
    cases hv : cf.nominal? with
    | some v =>
      rw [couponNominals_cons_coupon cf rest v hv] at h
      cases h
    | none =>
      rw [couponNominals_cons_other cf rest hv] at h
      rw [notionalLoop_cons_ok cf rest st st (notionalStep_not_coupon st cf hv)]
      exact ih h

/-- C17: `calculateNotionalsFromCashflows` fails with "no coupons provided" exactly when
the ledger holds no coupon (it is empty or holds only other cash flows); with at least
one coupon present it never raises that error. -/
theorem C17_no_coupons_provided (L : Loan) :
    L.calculateNotionalsFromCashflows = Except.error Error.noCouponsProvided ↔
      couponNominals L.cashflows_ = [] := by
  constructor
  · intro h
    by_contra hne
    unfold Loan.calculateNotionalsFromCashflows notionalsFromCashflows at h
    cases hloop : notionalLoop L.cashflows_ notionalInit with
    | error e =>
      rw [hloop] at h
      simp only [Except.error.injEq] at h
      have := notionalLoop_error _ _ e hloop
      rw [h] at this
      cases this
    | ok st =>
      obtain ⟨_, hnonempty, _⟩ := notionalLoop_mem _ notionalInit st hloop
      have hst := hnonempty hne
      rw [hloop] at h
      have hempty : st.notionals_.isEmpty = false := by
        cases hl : st.notionals_ with
        | nil => exact absurd hl hst
        | cons a l => rfl
      simp only [hempty] at h
      cases h
  · intro h
    apply calculateNotionalsFromCashflows_error
    unfold notionalsFromCashflows
    rw [notionalLoop_no_coupons _ _ h]
    rfl

/-- C18 (as amended): constructing a loan from an empty coupon list does not fail; the
constructor skips the sort, the issue-date check and the synthesis and returns a loan
whose ledger, redemptions and notional schedule are empty, whatever the issue date. -/
theorem C18_empty_coupon_list (srt : StdSort) (settlementDays : Nat) (calendar : Calendar)
    (issueDate : Nat) :
    Loan.construct srt settlementDays calendar issueDate [] =
      Except.ok
        { settlementDays_ := settlementDays, calendar_ := calendar,
          notionalSchedule_ := [], notionals_ := [],
          cashflows_ := [], redemptions_ := [],
          maturityDate_ := nullDate, issueDate_ := issueDate, settlementValue_ := none } :=
  rfl

/-- C18 as stated fails: on the empty coupon list, with or without an issue date, the
constructor returns a loan whose ledger and notional schedule are empty. -/
theorem C18_counterexample :
    (Loan.construct insertionStdSort 0 exampleCalendar nullDate []).map
        (fun L => (L.cashflows_, L.notionalSchedule_, L.notionals_, L.redemptions_)) =
      Except.ok ([], [], [], []) ∧
    (Loan.construct insertionStdSort 0 exampleCalendar 14 []).map
        (fun L => (L.cashflows_, L.notionalSchedule_, L.notionals_, L.redemptions_)) =
      Except.ok ([], [], [], []) := by
  refine ⟨by decide!, by decide!⟩

/-! The single redemption -/

theorem notionalStep_length_mono (st st1 : NotionalState) (cf : CashFlow)
    (h : notionalStep st cf = Except.ok st1) :
    st.notionals_.length ≤ st1.notionals_.length := by
  unfold notionalStep at h
  split at h
  · cases h; exact le_refl _
  · split at h
    · cases h; simp
    · split at h
      · split at h
        · cases h; simp
        · cases h
      · cases h; exact le_refl _

theorem notionalLoop_length_mono (l : List CashFlow) (st st1 : NotionalState)
    (h : notionalLoop l st = Except.ok st1) :
    st.notionals_.length ≤ st1.notionals_.length := by
  induction l generalizing st with
  | nil => cases h; exact le_refl _
  | cons cf rest ih =>
    cases hstep : notionalStep st cf with
    | error e1 =>
      rw [notionalLoop_cons_error cf rest st e1 hstep] at h
      cases h
    | ok st2 =>
      rw [notionalLoop_cons_ok cf rest st st2 hstep] at h
      exact le_trans (notionalStep_length_mono st st2 cf hstep) (ih st2 h)

/-- From a running notional `r` the loop records no further notional exactly when every
coupon nominal it scans is close to `r`. -/
theorem notionalLoop_single_run (l : List CashFlow) (st st1 : NotionalState) (r : ℚ)
    (hr : st.notionals_.getLast? = some r)
    (h : notionalLoop l st = Except.ok st1) :
    st1.notionals_.length = st.notionals_.length ↔
      ∀ x ∈ couponNominals l, close x r = true := by
  induction l generalizing st with
  | nil =>
    cases h
    simp [couponNominals]
  | cons cf rest ih =>
    cases hv : cf.nominal? with
    | none =>
      rw [notionalLoop_cons_ok cf rest st st (notionalStep_not_coupon st cf hv)] at h
      rw [couponNominals_cons_other cf rest hv]
      exact ih st hr h
    | some v =>
      rw [couponNominals_cons_coupon cf rest v hv]
      cases hc : close v r with
      | true =>
        rw [notionalLoop_cons_ok cf rest st _ (notionalStep_same st cf v r hv hr hc)] at h
        have := ih { st with lastPaymentDate := cf.date } hr h
        rw [this]
        constructor
        · intro hall x hx
          rcases List.mem_cons.mp hx with hx | hx
          · rw [hx]; exact hc
          · exact hall x hx
        · intro hall x hx
          exact hall x (List.mem_cons_of_mem _ hx)
      | false =>
        by_cases hlt : v < r
        · rw [notionalLoop_cons_ok cf rest st _ (notionalStep_lower st cf v r hv hr hc hlt)]
            at h
          have hmono := notionalLoop_length_mono rest _ st1 h
          simp only [List.length_append, List.length_singleton] at hmono
          constructor
          · intro hlen
            omega
          · intro hall
            have := hall v (List.mem_cons_self _ _)
            rw [hc] at this
            cases this
        · rw [notionalLoop_cons_error cf rest st _
            (notionalStep_higher st cf v r hv hr hc hlt)] at h
          cases h

/-- The schedule builder records a single notional exactly when every coupon nominal is
close to the first one. -/
theorem notionalLoop_single_run_init (l : List CashFlow) (st st1 : NotionalState)
    (hst : st.notionals_ = [])
    (h : notionalLoop l st = Except.ok st1) :
    st1.notionals_.length = 1 ↔
      couponNominals l ≠ [] ∧
        ∀ x ∈ couponNominals l, close x ((couponNominals l).headD 0) = true := by
  induction l generalizing st with
  | nil =>
    cases h
    simp [couponNominals, hst]
  | cons cf rest ih =>
    cases hv : cf.nominal? with
    | none =>
      rw [notionalLoop_cons_ok cf rest st st (notionalStep_not_coupon st cf hv)] at h
      rw [couponNominals_cons_other cf rest hv]
      exact ih st hst h
    | some v =>
      rw [notionalLoop_cons_ok cf rest st _ (notionalStep_seed st cf v hv hst)] at h
      rw [couponNominals_cons_coupon cf rest v hv]
      have hlast : ([v] : List ℚ).getLast? = some v := rfl
      have := notionalLoop_single_run rest
        { st with notionals_ := [v], lastPaymentDate := cf.date } st1 v hlast h
      simp only [List.length_singleton] at this
      rw [this]
      simp only [List.headD_cons]
      constructor
      · intro hall
        refine ⟨by simp, ?_⟩
        intro x hx
        rcases List.mem_cons.mp hx with hx | hx
        · rw [hx]; exact close_self v
        · exact hall x hx
      · rintro ⟨_, hall⟩ x hx
        exact hall x (List.mem_cons_of_mem _ hx)

/-- A built schedule has exactly two breakpoints iff every coupon nominal is close to the
first coupon's. -/
theorem notionalsFromCashflows_two_breakpoints (cfs : List CashFlow) (sched : List Nat)
    (nots : List ℚ) (h : notionalsFromCashflows cfs = Except.ok (sched, nots)) :
    sched.length = 2 ↔
      ∀ x ∈ couponNominals cfs, close x ((couponNominals cfs).headD 0) = true := by
  obtain ⟨hlen, _⟩ := notionalsFromCashflows_length cfs sched nots h
  obtain ⟨st, hloop, hne, _, hn⟩ := (notionalsFromCashflows_ok_iff cfs sched nots).mp h
  have hsingle := notionalLoop_single_run_init cfs notionalInit st rfl hloop
  have hcoupons : couponNominals cfs ≠ [] := by
    intro hnil
    rw [notionalLoop_no_coupons cfs notionalInit hnil] at hloop
    cases hloop
    exact hne rfl
  have hl : nots.length = st.notionals_.length + 1 := by rw [hn]; simp
  constructor
  · intro h2
    exact (hsingle.mp (by omega)).2
  · intro hall
    have := hsingle.mpr ⟨hcoupons, hall⟩
    omega

theorem redemption_ok_iff (L : Loan) (p : CashFlow) :
    L.redemption = Except.ok p ↔ L.redemptions_ = [p] := by
  unfold Loan.redemption
  constructor
  · intro h
    split at h
    · next hlen =>
      obtain ⟨a, ha⟩ := List.length_eq_one.mp hlen
      rw [ha] at h
      simp only [List.getLast?_singleton, Except.ok.injEq] at h
      rw [ha, h]
    · cases h
  · intro h
    rw [h]
    rfl

theorem redemption_error (L : Loan) (h : L.redemptions_.length ≠ 1) :
    L.redemption = Except.error Error.multipleRedemptions := by
  unfold Loan.redemption
  rw [if_neg h]

/-- C19: `redemption()` returns the single principal record iff `redemptions_` holds
exactly one record and fails with "multiple redemption cash flows given" otherwise; for
a loan constructed from a non-empty coupon list it succeeds iff the notional schedule
has exactly 2 breakpoints, which is the case iff every coupon nominal is close to
(within the tolerance of) the first coupon's nominal. -/
theorem C19_single_redemption :
    (∀ (L : Loan) (p : CashFlow), L.redemption = Except.ok p ↔ L.redemptions_ = [p]) ∧
    (∀ (L : Loan), L.redemptions_.length ≠ 1 →
      L.redemption = Except.error Error.multipleRedemptions) ∧
    (∀ (srt : StdSort) (settlementDays : Nat) (calendar : Calendar) (issueDate : Nat)
      (coupons : List CashFlow) (L : Loan),
      coupons ≠ [] →
      Loan.construct srt settlementDays calendar issueDate coupons = Except.ok L →
      ((∃ p, L.redemption = Except.ok p) ↔ L.notionalSchedule_.length = 2) ∧
      (L.notionalSchedule_.length = 2 ↔
        ∀ x ∈ couponNominals (srt.run coupons),
          close x ((couponNominals (srt.run coupons)).headD 0) = true)) := by
  refine ⟨redemption_ok_iff, redemption_error, ?_⟩
  intro srt settlementDays calendar issueDate coupons L hne h
  obtain ⟨sched, nots, hn, hs, _, hred, _⟩ :=
    construct_schedule srt settlementDays calendar issueDate coupons L hne h
  have hlen : L.redemptions_.length = L.notionalSchedule_.length - 1 := by
    rw [hred, hs]
    exact synthesizedRedemptions_length sched nots []
  obtain ⟨_, h2⟩ := notionalsFromCashflows_length _ sched nots hn
  rw [← hs] at h2
  refine ⟨?_, ?_⟩
  · constructor
    · rintro ⟨p, hp⟩
      have := (redemption_ok_iff L p).mp hp
      rw [this] at hlen
      simp only [List.length_singleton] at hlen
      omega
    · intro hl
      obtain ⟨a, ha⟩ := List.length_eq_one.mp (by omega : L.redemptions_.length = 1)
      exact ⟨a, (redemption_ok_iff L a).mpr ha⟩
  · rw [hs]
    exact notionalsFromCashflows_two_breakpoints _ sched nots hn

/-- C19 on the loan constructed from `exampleLeg`: three breakpoints, two principal
records, no single redemption. -/
theorem C19_single_redemption_witness :
    (exampleConstructed.redemption = Except.ok (Redemption 50 30) ↔
      exampleConstructed.redemptions_ = [Redemption 50 30]) ∧
    exampleConstructed.redemption = Except.error Error.multipleRedemptions ∧
    ((∃ p, exampleConstructed.redemption = Except.ok p) ↔
      exampleConstructed.notionalSchedule_.length = 2) ∧
    (exampleConstructed.notionalSchedule_.length = 2 ↔
      ∀ x ∈ couponNominals (insertionStdSort.run exampleLeg),
        close x ((couponNominals (insertionStdSort.run exampleLeg)).headD 0) = true) :=
  ⟨C19_single_redemption.1 exampleConstructed (Redemption 50 30),
   C19_single_redemption.2.1 exampleConstructed (by decide),
   C19_single_redemption.2.2 insertionStdSort 0 exampleCalendar nullDate exampleLeg
     exampleConstructed (by decide) exampleConstructed_eq⟩

/-! The single-redemption set-up -/

/-- C20: for every notional `N`, factor `R` and date `D`, `setSingleRedemption(N, R, D)`
leaves `notionals_ = [N, 0]`, `notionalSchedule_ = [null date, D]`, `redemptions_` = the
one `Redemption` of amount `N * R / 100` dated `D`, and the ledger = the earlier ledger
followed by that record; afterwards `notional(d) = N` for every non-null `d < D`,
`notional(d) = 0` for every non-null `d >= D`, and `redemption()` returns the record. -/
theorem C20_set_single_redemption (L : Loan) (N R : ℚ) (D : Nat) :
    (L.setSingleRedemption N R D).notionals_ = [N, 0] ∧
    (L.setSingleRedemption N R D).notionalSchedule_ = [nullDate, D] ∧
    (L.setSingleRedemption N R D).redemptions_ = [Redemption (N * R / 100) D] ∧
    (L.setSingleRedemption N R D).cashflows_ =
      L.cashflows_ ++ [Redemption (N * R / 100) D] ∧
    (∀ (S : Settings) (d : Nat), d ≠ nullDate → d < D →
      (L.setSingleRedemption N R D).notional S d = Except.ok N) ∧
    (∀ (S : Settings) (d : Nat), d ≠ nullDate → D ≤ d →
      (L.setSingleRedemption N R D).notional S d = Except.ok 0) ∧
    (L.setSingleRedemption N R D).redemption = Except.ok (Redemption (N * R / 100) D) := by
  refine ⟨rfl, rfl, rfl, rfl, ?_, ?_, rfl⟩
  · intro S d hd0 hlt
    have hnot : ¬ (d > D) := by omega
    have hnlt : ¬ (D < d) := by omega
    simp [Loan.notional, Loan.setSingleRedemption, Loan.setSingleRedemptionCashflow,
      Redemption, hd0, hnot, lower_bound, lowerBoundLoop, hnlt, vectorAt, hlt]
  · intro S d hd0 hle
    by_cases hgt : d > D
    · simp [Loan.notional, Loan.setSingleRedemption, Loan.setSingleRedemptionCashflow,
        Redemption, hd0, hgt]
    · have heq : d = D := by omega
      subst heq
      simp [Loan.notional, Loan.setSingleRedemption, Loan.setSingleRedemptionCashflow,
        Redemption, hd0, lower_bound, lowerBoundLoop, vectorAt]

/-- C20 on a bullet of notional 1,000,000 redeemed at 100 on day 40, added to the empty
loan: notional on day 39 and on day 40. -/
theorem C20_set_single_redemption_witness :
    ((Loan.ofCashflows []).setSingleRedemption 1000000 100 40).notional
        { evaluationDate := 1 } 39 = Except.ok 1000000 ∧
    ((Loan.ofCashflows []).setSingleRedemption 1000000 100 40).notional
        { evaluationDate := 1 } 40 = Except.ok 0 :=
  ⟨(C20_set_single_redemption (Loan.ofCashflows []) 1000000 100 40).2.2.2.2.1
      { evaluationDate := 1 } 39 (by decide) (by decide),
   (C20_set_single_redemption (Loan.ofCashflows []) 1000000 100 40).2.2.2.2.2.1
      { evaluationDate := 1 } 40 (by decide) (by decide)⟩

theorem isCoupon_false_iff (cf : CashFlow) : cf.isCoupon = false ↔ cf.nominal? = none := by
  unfold CashFlow.isCoupon CashFlow.nominal?
  cases cf.kind <;> simp

theorem notionalLoop_filter_coupon (l : List CashFlow) (st : NotionalState) :
    notionalLoop (l.filter CashFlow.isCoupon) st = notionalLoop l st := by
  induction l generalizing st with
  | nil => rfl
  | cons c t ih =>
    by_cases hc : c.isCoupon = true
    · rw [List.filter_cons_of_pos hc]
      simp only [notionalLoop]
      cases notionalStep st c with
      | error e => rfl
      | ok st1 => exact ih st1
    · have hc1 : c.isCoupon = false := by simpa using hc
      rw [List.filter_cons_of_neg hc]
      simp only [notionalLoop]
      rw [notionalStep_not_coupon st c ((isCoupon_false_iff c).mp hc1)]
      exact ih st

theorem notionalsFromCashflows_filter_coupon (cfs : List CashFlow) :
    notionalsFromCashflows (cfs.filter CashFlow.isCoupon) = notionalsFromCashflows cfs := by
  unfold notionalsFromCashflows
  rw [notionalLoop_filter_coupon]

theorem stable_sort_filter_coupon (cs ps : List CashFlow)
    (hps : ∀ p ∈ ps, p.isCoupon = false) (hsorted : cs.Sorted notLater) :
    (stable_sort (cs ++ ps)).filter CashFlow.isCoupon = cs.filter CashFlow.isCoupon := by
  have hsub : List.Sublist cs (stable_sort (cs ++ ps)) :=
    List.sublist_insertionSort hsorted (List.sublist_append_left cs ps)
  have hsubf : List.Sublist (cs.filter CashFlow.isCoupon)
      ((stable_sort (cs ++ ps)).filter CashFlow.isCoupon) :=
    hsub.filter _
  have hperm : ((stable_sort (cs ++ ps)).filter CashFlow.isCoupon).Perm
      ((cs ++ ps).filter CashFlow.isCoupon) :=
    (List.perm_insertionSort notLater (cs ++ ps)).filter _
  have hpsf : ps.filter CashFlow.isCoupon = [] := by
    rw [List.filter_eq_nil_iff]
    intro p hp
    rw [hps p hp]
    simp
  rw [List.filter_append, hpsf, List.append_nil] at hperm
  exact (hsubf.eq_of_length hperm.length_eq.symm).symm

/-- C22: the notional schedule depends only on the coupon subsequence of the ledger, in
ledger order.  `calculateNotionalsFromCashflows` gives the same outcome on a ledger and
on that ledger with every non-coupon record removed; and when a date-sorted ledger has
gone through `addRedemptionsToCashflows`, running it again on the resulting ledger, which
now holds the synthesized principal records, reproduces the loan's schedule. -/
theorem C22_schedule_from_coupon_subsequence (cfs : List CashFlow) :
    notionalsFromCashflows (cfs.filter CashFlow.isCoupon) = notionalsFromCashflows cfs ∧
    ∀ (L L2 : Loan) (factors : List ℚ), L.cashflows_ = cfs → cfs.Sorted notLater →
      L.addRedemptionsToCashflows factors = Except.ok L2 →
      notionalsFromCashflows L2.cashflows_ =
        Except.ok (L2.notionalSchedule_, L2.notionals_) ∧
      L2.calculateNotionalsFromCashflows = Except.ok L2 := by
  refine ⟨notionalsFromCashflows_filter_coupon cfs, ?_⟩
  intro L L2 factors hcfs hsorted h
  cases hcalc : L.calculateNotionalsFromCashflows with
  | error e =>
    unfold Loan.addRedemptionsToCashflows at h
    rw [hcalc] at h
    cases h
  | ok L1 =>
    obtain ⟨_, _, hcf, heq⟩ := addRedemptionsToCashflows_eq L L1 factors hcalc
    rw [heq] at h
    have hL2 := (Except.ok.inj h).symm
    have hsched : notionalsFromCashflows L.cashflows_ =
        Except.ok (L1.notionalSchedule_, L1.notionals_) := by
      unfold Loan.calculateNotionalsFromCashflows at hcalc
      cases hn : notionalsFromCashflows L.cashflows_ with
      | error e => rw [hn] at hcalc; cases hcalc
      | ok p =>
        obtain ⟨sched, nots⟩ := p
        rw [hn] at hcalc
        have := (Except.ok.inj hcalc).symm
        rw [this]
    have key : notionalsFromCashflows L2.cashflows_ =
        Except.ok (L2.notionalSchedule_, L2.notionals_) := by
      rw [hL2]
      show notionalsFromCashflows (stable_sort (L.cashflows_ ++
          synthesizedRedemptions L1.notionalSchedule_ L1.notionals_ factors)) = _
      rw [← notionalsFromCashflows_filter_coupon,
        stable_sort_filter_coupon _ _ (synthesizedRedemptions_not_coupon _ _ _)
          (hcfs ▸ hsorted),
        notionalsFromCashflows_filter_coupon]
      exact hsched
    refine ⟨key, ?_⟩
    rw [calculateNotionalsFromCashflows_ok L2 _ _ key]

theorem C22_schedule_from_coupon_subsequence_witness :
    notionalsFromCashflows (exampleConstructed.cashflows_.filter CashFlow.isCoupon) =
      notionalsFromCashflows exampleConstructed.cashflows_ ∧
    exampleLeg.Sorted notLater ∧
    Loan.addRedemptionsToCashflows { exampleLoan with maturityDate_ := 30 } [] =
      Except.ok exampleConstructed ∧
    notionalsFromCashflows exampleConstructed.cashflows_ = Except.ok ([0, 20, 30], [100, 50, 0]) :=
  ⟨(C22_schedule_from_coupon_subsequence exampleConstructed.cashflows_).1,
   by rw [sorted_notLater_iff]; simp [exampleLeg, Coupon],
   by with_unfolding_all rfl,
   ((C22_schedule_from_coupon_subsequence exampleLeg).2
      { exampleLoan with maturityDate_ := 30 } exampleConstructed []
      rfl (by rw [sorted_notLater_iff]; simp [exampleLeg, Coupon])
      (by with_unfolding_all rfl)).1⟩

theorem notionalStep_decreasing (st st1 : NotionalState) (cf : CashFlow)
    (h : notionalStep st cf = Except.ok st1)
    (hc : st.notionals_.Chain' (fun a b => b < a)) :
    st1.notionals_.Chain' (fun a b => b < a) := by
  unfold notionalStep at h
  split at h
  · cases h; exact hc
  · split at h
    · next hnone =>
      cases h
      have hnil : st.notionals_ = [] := List.getLast?_eq_none_iff.mp hnone
      simp [hnil]
    · next back hback =>
      split at h
      · split at h
        · next hlt =>
          cases h
          rw [List.chain'_append]
          refine ⟨hc, List.chain'_singleton _, ?_⟩
          intro x hx y hy
          rw [hback] at hx
          cases hx
          simp only [List.head?_cons, Option.mem_def, Option.some.injEq] at hy
          rw [← hy]
          exact hlt
        · cases h
      · cases h
        exact hc

theorem notionalLoop_decreasing (l : List CashFlow) (st st1 : NotionalState)
    (h : notionalLoop l st = Except.ok st1)
    (hc : st.notionals_.Chain' (fun a b => b < a)) :
    st1.notionals_.Chain' (fun a b => b < a) := by
  induction l generalizing st with
  | nil => cases h; exact hc
  | cons cf rest ih =>
    cases hstep : notionalStep st cf with
    | error e1 =>
      rw [notionalLoop_cons_error cf rest st e1 hstep] at h
      cases h
    | ok st2 =>
      rw [notionalLoop_cons_ok cf rest st st2 hstep] at h
      exact ih st2 h (notionalStep_decreasing st st2 cf hstep hc)

theorem notionalsFromCashflows_decreasing (cfs : List CashFlow) (sched : List Nat)
    (nots : List ℚ) (h : notionalsFromCashflows cfs = Except.ok (sched, nots)) :
    nots.dropLast.Chain' (fun a b => b < a) := by
  obtain ⟨st, hloop, _, _, hn⟩ := (notionalsFromCashflows_ok_iff cfs sched nots).mp h
  rw [hn, List.dropLast_concat]
  exact notionalLoop_decreasing cfs notionalInit st hloop (by simp [notionalInit])

theorem notionalsFromCashflows_head (cfs : List CashFlow) (sched : List Nat)
    (nots : List ℚ) (h : notionalsFromCashflows cfs = Except.ok (sched, nots)) :
    sched.head? = some nullDate := by
  obtain ⟨st, hloop, _, hs, _⟩ := (notionalsFromCashflows_ok_iff cfs sched nots).mp h
  have key : ∀ (l : List CashFlow) (st0 st1 : NotionalState),
      notionalLoop l st0 = Except.ok st1 → st0.notionalSchedule_.head? = some nullDate →
      st1.notionalSchedule_.head? = some nullDate := by
    intro l
    induction l with
    | nil => intro st0 st1 h0 hh; cases h0; exact hh
    | cons cf rest ih =>
      intro st0 st1 h0 hh
      cases hstep : notionalStep st0 cf with
      | error e1 =>
        rw [notionalLoop_cons_error cf rest st0 e1 hstep] at h0
        cases h0
      | ok st2 =>
        rw [notionalLoop_cons_ok cf rest st0 st2 hstep] at h0
        refine ih st2 st1 h0 ?_
        unfold notionalStep at hstep
        split at hstep
        · cases hstep; exact hh
        · split at hstep
          · cases hstep; exact hh
          · split at hstep
            · split at hstep
              · cases hstep
                cases hs0 : st0.notionalSchedule_ with
                | nil => rw [hs0] at hh; cases hh
                | cons a t => rw [hs0] at hh; simpa using hh
              · cases hstep
            · cases hstep; exact hh
  have h1 := key cfs notionalInit st hloop rfl
  rw [hs]
  cases hs0 : st.notionalSchedule_ with
  | nil => rw [hs0] at h1; cases h1
  | cons a t => rw [hs0] at h1; simpa using h1

theorem notionalsFromCashflows_wellFormed (cfs : List CashFlow) (sched : List Nat)
    (nots : List ℚ) (h : notionalsFromCashflows cfs = Except.ok (sched, nots))
    (hsorted : cfs.Sorted notLater) : wellFormedSchedule sched nots := by
  obtain ⟨hlen, h2⟩ := notionalsFromCashflows_length cfs sched nots h
  refine ⟨hlen, h2, notionalsFromCashflows_head cfs sched nots h, ?_,
    notionalsFromCashflows_decreasing cfs sched nots h,
    notionalsFromCashflows_last_zero cfs sched nots h⟩
  exact notionalsFromCashflows_schedule_order (fun a b => a ≤ b)
    (fun a b c hab hbc => Nat.le_trans hab hbc) cfs sched nots h
    (List.Pairwise.imp (fun {a b} hab => (notLater_iff a b).mp hab) hsorted)

theorem notionalsFromCashflows_strict (cfs : List CashFlow) (sched : List Nat)
    (nots : List ℚ) (h : notionalsFromCashflows cfs = Except.ok (sched, nots))
    (hstrict : (cfs.filter CashFlow.isCoupon).Pairwise (fun a b => a.date < b.date)) :
    sched.tail.Pairwise (fun a b => a < b) := by
  rw [← notionalsFromCashflows_filter_coupon] at h
  exact notionalsFromCashflows_schedule_order (fun a b => a < b)
    (fun a b c hab hbc => Nat.lt_trans hab hbc) _ sched nots h hstrict

/-- C27: after every successful `calculateNotionalsFromCashflows` on a date-sorted ledger,
and after every `setSingleRedemption`, the two schedule vectors have the same length
`n ≥ 2`, `notionalSchedule_[0]` is the null date, the dates from index 1 on are
non-decreasing (strictly increasing when the coupon dates of the ledger are strictly
increasing), consecutive notionals before the final entry are strictly decreasing and
`notionals_[n-1]` is 0. -/
theorem C27_schedule_well_formed :
    (∀ L L1 : Loan, L.cashflows_.Sorted notLater →
      L.calculateNotionalsFromCashflows = Except.ok L1 →
      wellFormedSchedule L1.notionalSchedule_ L1.notionals_ ∧
      ((L.cashflows_.filter CashFlow.isCoupon).Pairwise (fun a b => a.date < b.date) →
        L1.notionalSchedule_.tail.Pairwise (fun a b => a < b))) ∧
    (∀ (L : Loan) (notional redemption : ℚ) (date : Nat),
      wellFormedSchedule (L.setSingleRedemption notional redemption date).notionalSchedule_
        (L.setSingleRedemption notional redemption date).notionals_ ∧
      (L.setSingleRedemption notional redemption date).notionalSchedule_.tail.Pairwise
        (fun a b => a < b)) := by
  constructor
  · intro L L1 hsorted h
    have hsched : notionalsFromCashflows L.cashflows_ =
        Except.ok (L1.notionalSchedule_, L1.notionals_) := by
      unfold Loan.calculateNotionalsFromCashflows at h
      cases hn : notionalsFromCashflows L.cashflows_ with
      | error e => rw [hn] at h; cases h
      | ok p =>
        obtain ⟨sched, nots⟩ := p
        rw [hn] at h
        have := (Except.ok.inj h).symm
        rw [this]
    exact ⟨notionalsFromCashflows_wellFormed _ _ _ hsched hsorted,
      notionalsFromCashflows_strict _ _ _ hsched⟩
  · intro L notional redemption date
    refine ⟨⟨rfl, Nat.le_refl 2, rfl, ?_, ?_, rfl⟩, ?_⟩
    · simp [Loan.setSingleRedemption, Loan.setSingleRedemptionCashflow]
    · simp [Loan.setSingleRedemption, Loan.setSingleRedemptionCashflow]
    · simp [Loan.setSingleRedemption, Loan.setSingleRedemptionCashflow]

/-- C27 on the loan holding `exampleLeg`, whose coupon dates 10, 20, 30 are strictly
increasing: the schedule built is `[null, 20, 30]` with notionals `[100, 50, 0]`. -/
theorem C27_schedule_well_formed_witness :
    exampleLoan.cashflows_.Sorted notLater ∧
    exampleLoan.calculateNotionalsFromCashflows = Except.ok exampleBuilt ∧
    (exampleLoan.cashflows_.filter CashFlow.isCoupon).Pairwise
      (fun a b => a.date < b.date) ∧
    wellFormedSchedule exampleBuilt.notionalSchedule_ exampleBuilt.notionals_ ∧
    exampleBuilt.notionalSchedule_.tail.Pairwise (fun a b => a < b) :=
  ⟨by rw [sorted_notLater_iff]; simp [exampleLoan, Loan.ofCashflows, exampleLeg, Coupon],
   exampleLoan_built,
   by simp [exampleLoan, Loan.ofCashflows, exampleLeg, Coupon, CashFlow.isCoupon],
   (C27_schedule_well_formed.1 exampleLoan exampleBuilt
     (by rw [sorted_notLater_iff]; simp [exampleLoan, Loan.ofCashflows, exampleLeg, Coupon])
     exampleLoan_built).1,
   (C27_schedule_well_formed.1 exampleLoan exampleBuilt
     (by rw [sorted_notLater_iff]; simp [exampleLoan, Loan.ofCashflows, exampleLeg, Coupon])
     exampleLoan_built).2
     (by simp [exampleLoan, Loan.ofCashflows, exampleLeg, Coupon, CashFlow.isCoupon])⟩

theorem lower_bound_range (v : List Nat) (d : Nat)
    (hsorted : v.tail.Pairwise (fun a b => a ≤ b)) (h2 : 2 ≤ v.length)
    (hle : d ≤ v.getD (v.length - 1) nullDate) :
    1 ≤ lower_bound v 1 v.length d ∧ lower_bound v 1 v.length d ≤ v.length - 1 ∧
    (∀ j, 1 ≤ j → j < lower_bound v 1 v.length d → v.getD j nullDate < d) ∧
    d ≤ v.getD (lower_bound v 1 v.length d) nullDate := by
  obtain ⟨h1, hup, hbelow, habove⟩ := lowerBoundLoop_spec v d (v.length - 1) 1
    (v.length - 1) (le_refl _)
    (fun j k hj hjk hk => sorted_tail_getD v hsorted j k hj hjk (by omega))
  have hidx : lower_bound v 1 v.length d =
      lowerBoundLoop v d (v.length - 1) 1 (v.length - 1) := rfl
  rw [hidx]
  generalize lowerBoundLoop v d (v.length - 1) 1 (v.length - 1) = idx
    at h1 hup hbelow habove
  have hidxn : idx ≤ v.length - 1 := by
    by_contra hcon
    have := hbelow (v.length - 1) (by omega) (by omega)
    omega
  exact ⟨h1, hidxn, hbelow, habove idx (le_refl _) (by omega)⟩

theorem getD_mem_of_lt (l : List ℚ) (i : Nat) (h : i < l.length) : l.getD i 0 ∈ l := by
  rw [List.getD_eq_getElem l 0 h]
  exact List.getElem_mem h

/-- C28: on a schedule whose two vectors have the same length `n ≥ 2` and whose dates
are sorted from index 1 on, `notional(d)` at a non-null date `d` is safe.  Past the last
breakpoint it returns 0 without a lookup; otherwise the index found by `lower_bound`
over the positions `1 .. n-1` satisfies `1 ≤ index ≤ n-1`, so that the reads of
`notionalSchedule_[index]`, `notionals_[index]` and `notionals_[index-1]` are in range,
and the value returned is an element of `notionals_`. -/
theorem C28_lookup_safety (L : Loan) (S : Settings) (d : Nat)
    (hd0 : d ≠ nullDate)
    (h2 : 2 ≤ L.notionalSchedule_.length)
    (hlen : L.notionals_.length = L.notionalSchedule_.length)
    (hsorted : L.notionalSchedule_.tail.Pairwise (fun a b => a ≤ b)) :
    (L.notionalSchedule_.getD (L.notionalSchedule_.length - 1) nullDate < d →
      L.notional S d = Except.ok 0) ∧
    (d ≤ L.notionalSchedule_.getD (L.notionalSchedule_.length - 1) nullDate →
      1 ≤ lower_bound L.notionalSchedule_ 1 L.notionalSchedule_.length d ∧
      lower_bound L.notionalSchedule_ 1 L.notionalSchedule_.length d ≤
        L.notionalSchedule_.length - 1 ∧
      (∃ di, vectorAt L.notionalSchedule_
        (lower_bound L.notionalSchedule_ 1 L.notionalSchedule_.length d) = Except.ok di) ∧
      (∃ x, vectorAt L.notionals_
        (lower_bound L.notionalSchedule_ 1 L.notionalSchedule_.length d) = Except.ok x) ∧
      (∃ x, vectorAt L.notionals_
        (lower_bound L.notionalSchedule_ 1 L.notionalSchedule_.length d - 1) =
          Except.ok x) ∧
      ∃ x ∈ L.notionals_, L.notional S d = Except.ok x) := by
  have hne : L.notionalSchedule_ ≠ [] := by
    intro hnil; rw [hnil] at h2; simp at h2
  refine ⟨fun hafter => notional_after_maturity L S d hd0 hne hafter, ?_⟩
  intro hle
  obtain ⟨h1, hn, _, _⟩ := lower_bound_range L.notionalSchedule_ d hsorted h2 hle
  have hnot := notional_of_lower_bound L S d _ hd0 hlen h1 (by omega) hle rfl
  refine ⟨h1, hn, ⟨_, vectorAt_of_lt _ _ nullDate (by omega)⟩,
    ⟨_, vectorAt_of_lt _ _ 0 (by omega)⟩, ⟨_, vectorAt_of_lt _ _ 0 (by omega)⟩, ?_⟩
  by_cases hlt : d < L.notionalSchedule_.getD
      (lower_bound L.notionalSchedule_ 1 L.notionalSchedule_.length d) nullDate
  · rw [if_pos hlt] at hnot
    exact ⟨_, getD_mem_of_lt _ _ (by omega), hnot⟩
  · rw [if_neg hlt] at hnot
    exact ⟨_, getD_mem_of_lt _ _ (by omega), hnot⟩

/-- C28 on the loan constructed from `exampleLeg` (schedule `[null, 20, 30]`): at the
date 31, past the last breakpoint, the notional is 0; at the date 15 the index found is
in range and the notional is an element of `notionals_`, namely 100. -/
theorem C28_lookup_safety_witness :
    exampleConstructed.notional ⟨0⟩ 31 = Except.ok 0 ∧
    (1 ≤ lower_bound exampleConstructed.notionalSchedule_ 1
        exampleConstructed.notionalSchedule_.length 15 ∧
      lower_bound exampleConstructed.notionalSchedule_ 1
        exampleConstructed.notionalSchedule_.length 15 ≤
        exampleConstructed.notionalSchedule_.length - 1 ∧
      (∃ di, vectorAt exampleConstructed.notionalSchedule_
        (lower_bound exampleConstructed.notionalSchedule_ 1
          exampleConstructed.notionalSchedule_.length 15) = Except.ok di) ∧
      (∃ x, vectorAt exampleConstructed.notionals_
        (lower_bound exampleConstructed.notionalSchedule_ 1
          exampleConstructed.notionalSchedule_.length 15) = Except.ok x) ∧
      (∃ x, vectorAt exampleConstructed.notionals_
        (lower_bound exampleConstructed.notionalSchedule_ 1
          exampleConstructed.notionalSchedule_.length 15 - 1) = Except.ok x) ∧
      ∃ x ∈ exampleConstructed.notionals_,
        exampleConstructed.notional ⟨0⟩ 15 = Except.ok x) ∧
    exampleConstructed.notional ⟨0⟩ 15 = Except.ok 100 :=
  ⟨(C28_lookup_safety exampleConstructed ⟨0⟩ 31 (by decide) (by decide) (by decide)
      (by simp [exampleConstructed])).1 (by decide),
   (C28_lookup_safety exampleConstructed ⟨0⟩ 15 (by decide) (by decide) (by decide)
      (by simp [exampleConstructed])).2 (by decide),
   by decide!⟩

theorem specFactor_cons_succ (a : ℚ) (rest : List ℚ) (hrest : rest ≠ []) (j : Nat) :
    specFactor (a :: rest) (j + 1) = specFactor rest j := by
  cases rest with
  | nil => exact absurd rfl hrest
  | cons x t =>
    unfold specFactor
    rw [List.getElem?_cons_succ, List.getLast?_cons_cons]

theorem redemptionFactor_ignores_first (a b : ℚ) (rest : List ℚ) (hrest : rest ≠ [])
    (i : Nat) (h1 : 1 ≤ i) :
    redemptionFactor (a :: rest) i = redemptionFactor (b :: rest) i := by
  obtain ⟨j, rfl⟩ : ∃ j, i = j + 1 := ⟨i - 1, by omega⟩
  rw [redemptionFactor_eq_specFactor, redemptionFactor_eq_specFactor,
    specFactor_cons_succ a rest hrest, specFactor_cons_succ b rest hrest]

theorem redemptionLoop_ignores_first (sched : List Nat) (nots : List ℚ) (a b : ℚ)
    (rest : List ℚ) (hrest : rest ≠ []) (k i : Nat) (h1 : 1 ≤ i) :
    redemptionLoop sched nots (a :: rest) k i = redemptionLoop sched nots (b :: rest) k i := by
  induction k generalizing i with
  | zero => rfl
  | succ k ih =>
    have hp : redemptionPayment sched nots (a :: rest) i =
        redemptionPayment sched nots (b :: rest) i := by
      unfold redemptionPayment
      rw [redemptionFactor_ignores_first a b rest hrest i h1]
    simp only [redemptionLoop]
    rw [hp, ih (i + 1) (by omega)]

/-- C29: the first element of the redemption-factor vector is never applied when the
vector has two or more elements.  For every loan and every two factor vectors
`a :: rest` and `b :: rest` with `rest` non-empty (length at least 2, different at index
0 only), `addRedemptionsToCashflows` has the same outcome, hence the same principal
records; and the first principal record, that of breakpoint 1, is scaled by the second
element of the vector. -/
theorem C29_first_factor_never_applied (L : Loan) (a b : ℚ) (rest : List ℚ)
    (hrest : rest ≠ []) :
    L.addRedemptionsToCashflows (a :: rest) = L.addRedemptionsToCashflows (b :: rest) ∧
    ∀ L2 r, L.addRedemptionsToCashflows (a :: rest) = Except.ok L2 →
      rest.head? = some r →
      ∃ p, L2.redemptions_[0]? = some p ∧
        p.date = L2.notionalSchedule_.getD 1 nullDate ∧
        p.amount = r / 100 * (L2.notionals_.getD 0 0 - L2.notionals_.getD 1 0) := by
  constructor
  · unfold Loan.addRedemptionsToCashflows
    cases L.calculateNotionalsFromCashflows with
    | error e => rfl
    | ok L1 =>
      simp only []
      rw [redemptionLoop_ignores_first _ _ a b rest hrest _ 1 (le_refl 1)]
  · intro L2 r h hr
    cases hcalc : L.calculateNotionalsFromCashflows with
    | error e =>
      unfold Loan.addRedemptionsToCashflows at h
      rw [hcalc] at h
      cases h
    | ok L1 =>
      obtain ⟨_, h2, _, heq⟩ := addRedemptionsToCashflows_eq L L1 (a :: rest) hcalc
      rw [heq] at h
      have hL2 := (Except.ok.inj h).symm
      rw [hL2]
      refine ⟨principalRecord L1.notionalSchedule_ L1.notionals_ (a :: rest) 1,
        synthesizedRedemptions_get _ _ _ 1 (le_refl 1) (by omega), rfl, ?_⟩
      have hf : specFactor (a :: rest) 1 = r := by
        cases rest with
        | nil => exact absurd rfl hrest
        | cons x t =>
          simp only [List.head?_cons, Option.some.injEq] at hr
          rw [← hr]
          simp [specFactor]
      show specFactor (a :: rest) 1 / 100 * _ = _
      rw [hf]

/-- C29 on the loan holding `exampleLeg`: the factor vectors `[0, 90]` and `[100, 90]`
give the same records, and the record of breakpoint 1 is `90 / 100 * (100 - 50) = 45`. -/
theorem C29_first_factor_never_applied_witness :
    exampleLoan.addRedemptionsToCashflows [0, 90] =
      exampleLoan.addRedemptionsToCashflows [100, 90] ∧
    (Except.map Loan.redemptions_ (exampleLoan.addRedemptionsToCashflows [0, 90]) =
      Except.ok [AmortizingPayment 45 20, Redemption 45 30]) :=
  ⟨(C29_first_factor_never_applied exampleLoan 0 100 [90] (by simp)).1, by decide!⟩

theorem notionalStep_head (st st1 : NotionalState) (cf : CashFlow)
    (h : notionalStep st cf = Except.ok st1) :
    st1.notionals_.head? = (st.notionals_ ++ couponNominals [cf]).head? := by
  unfold notionalStep at h
  split at h
  · next hnone =>
    cases h
    rw [couponNominals_cons_other cf [] hnone]
    simp [couponNominals]
  · next v hv =>
    rw [couponNominals_cons_coupon cf [] v hv]
    split at h
    · next hnone =>
      cases h
      have hnil : st.notionals_ = [] := List.getLast?_eq_none_iff.mp hnone
      simp [hnil]
    · next back hback =>
      have hne : st.notionals_ ≠ [] := by
        intro hnil; rw [hnil] at hback; cases hback
      obtain ⟨a, t, hat⟩ := List.exists_cons_of_ne_nil hne
      split at h
      · split at h
        · cases h; simp [hat]
        · cases h
      · cases h; simp [hat]

theorem notionalLoop_head (l : List CashFlow) (st st1 : NotionalState)
    (h : notionalLoop l st = Except.ok st1) :
    st1.notionals_.head? = (st.notionals_ ++ couponNominals l).head? := by
  induction l generalizing st with
  | nil => cases h; simp [couponNominals]
  | cons cf rest ih =>
    cases hstep : notionalStep st cf with
    | error e1 =>
      rw [notionalLoop_cons_error cf rest st e1 hstep] at h
      cases h
    | ok st2 =>
      rw [notionalLoop_cons_ok cf rest st st2 hstep] at h
      rw [ih st2 h]
      have h2 := notionalStep_head st st2 cf hstep
      have hsplit : couponNominals (cf :: rest) = couponNominals [cf] ++ couponNominals rest := by
        show List.filterMap _ ([cf] ++ rest) = _
        rw [List.filterMap_append]
        rfl
      rw [hsplit, ← List.append_assoc]
      cases hs2 : st2.notionals_ with
      | nil =>
        rw [hs2] at h2
        cases hx : st.notionals_ ++ couponNominals [cf] with
        | nil => rfl
        | cons a t => rw [hx] at h2; cases h2
      | cons a t =>
        rw [hs2] at h2
        cases hx : st.notionals_ ++ couponNominals [cf] with
        | nil => rw [hx] at h2; cases h2
        | cons a2 t2 =>
          rw [hx] at h2
          simp only [List.head?_cons, Option.some.injEq] at h2
          simp [h2]

theorem notionalsFromCashflows_first (cfs : List CashFlow) (sched : List Nat)
    (nots : List ℚ) (h : notionalsFromCashflows cfs = Except.ok (sched, nots)) :
    ∃ v, (couponNominals cfs).head? = some v ∧ nots.getD 0 0 = v := by
  obtain ⟨st, hloop, hne, _, hn⟩ := (notionalsFromCashflows_ok_iff cfs sched nots).mp h
  have hh := notionalLoop_head cfs notionalInit st hloop
  obtain ⟨a, t, hat⟩ := List.exists_cons_of_ne_nil hne
  rw [hat] at hh
  refine ⟨a, ?_, ?_⟩
  · simpa [notionalInit] using hh.symm
  · rw [hn, hat]
    rfl

theorem sum_range'_telescope (g : Nat → ℚ) (c : ℚ) (k s : Nat) (hs : 1 ≤ s) :
    ((List.range' s k).map (fun i => c * (g (i - 1) - g i))).sum =
      c * (g (s - 1) - g (s + k - 1)) := by
  induction k generalizing s with
  | zero => simp
  | succ k ih =>
    rw [List.range'_succ, List.map_cons, List.sum_cons, ih (s + 1) (by omega)]
    have h1 : s + 1 - 1 = s := by omega
    have h2 : s + 1 + k - 1 = s + (k + 1) - 1 := by omega
    rw [h1, h2]
    ring

theorem synthesizedRedemptions_sum (sched : List Nat) (nots : List ℚ) (factors : List ℚ)
    (R : ℚ) (hR : ∀ i, 1 ≤ i → specFactor factors i = R) :
    ((synthesizedRedemptions sched nots factors).map CashFlow.amount).sum =
      R / 100 * (nots.getD 0 0 - nots.getD (sched.length - 1) 0) := by
  unfold synthesizedRedemptions
  rw [List.map_map]
  have hcongr : (List.range' 1 (sched.length - 1)).map
      (CashFlow.amount ∘ principalRecord sched nots factors) =
      (List.range' 1 (sched.length - 1)).map
        (fun i => R / 100 * ((fun j => nots.getD j 0) (i - 1) - (fun j => nots.getD j 0) i)) := by
    apply List.map_congr_left
    intro i hi
    rw [List.mem_range'_1] at hi
    show specFactor factors i / 100 * _ = _
    rw [hR i hi.1]
  rw [hcongr, sum_range'_telescope (fun j => nots.getD j 0) (R / 100) _ 1 (le_refl 1)]
  have : 1 + (sched.length - 1) - 1 = sched.length - 1 := by omega
  rw [this]

theorem specFactor_default (i : Nat) : specFactor [] i = 100 := by
  simp [specFactor]

theorem specFactor_constant (factors : List ℚ) (R : ℚ) (hne : factors ≠ [])
    (hall : ∀ x ∈ factors, x = R) (i : Nat) : specFactor factors i = R := by
  unfold specFactor
  cases hi : factors[i]? with
  | some x =>
    exact hall x (List.getElem?_mem hi)
  | none =>
    cases hl : factors.getLast? with
    | none => exact absurd (List.getLast?_eq_none_iff.mp hl) hne
    | some b => exact hall b (List.mem_of_getLast?_eq_some hl)

/-- C26 (as amended): principal conservation, in exact arithmetic.  For every loan
constructed from a non-empty coupon list (default redemption factors, 100) the amounts
of all synthesized principal records sum exactly to the initial notional
`notionals_[0]`, which is the nominal of the first coupon of the sorted ledger; and when
`addRedemptionsToCashflows` is given a factor vector all of whose elements are `R`, they
sum to `R / 100` times that notional. -/
theorem C26_principal_conservation :
    (∀ (srt : StdSort) (settlementDays : Nat) (calendar : Calendar) (issueDate : Nat)
      (coupons : List CashFlow) (L : Loan),
      coupons ≠ [] →
      Loan.construct srt settlementDays calendar issueDate coupons = Except.ok L →
      (L.redemptions_.map CashFlow.amount).sum = L.notionals_.getD 0 0 ∧
      (couponNominals (srt.run coupons)).head? = some (L.notionals_.getD 0 0)) ∧
    (∀ (L L2 : Loan) (factors : List ℚ) (R : ℚ),
      factors ≠ [] → (∀ x ∈ factors, x = R) →
      L.addRedemptionsToCashflows factors = Except.ok L2 →
      (L2.redemptions_.map CashFlow.amount).sum = R / 100 * L2.notionals_.getD 0 0 ∧
      (couponNominals L.cashflows_).head? = some (L2.notionals_.getD 0 0)) := by
  constructor
  · intro srt settlementDays calendar issueDate coupons L hne h
    obtain ⟨sched, nots, hsched, hs, hn, hr, _⟩ :=
      construct_schedule srt settlementDays calendar issueDate coupons L hne h
    obtain ⟨v, hv, hv0⟩ := notionalsFromCashflows_first _ sched nots hsched
    rw [hr, hn, synthesizedRedemptions_sum sched nots [] 100 (fun i _ => specFactor_default i),
      notionalsFromCashflows_last_zero _ sched nots hsched, hv, hv0]
    norm_num
  · intro L L2 factors R hne hall h
    cases hcalc : L.calculateNotionalsFromCashflows with
    | error e =>
      unfold Loan.addRedemptionsToCashflows at h
      rw [hcalc] at h
      cases h
    | ok L1 =>
      obtain ⟨_, _, _, heq⟩ := addRedemptionsToCashflows_eq L L1 factors hcalc
      rw [heq] at h
      have hL2 := (Except.ok.inj h).symm
      obtain ⟨sched, nots, hsched, hL1⟩ :=
        (calculateNotionalsFromCashflows_ok_iff L L1).mp hcalc
      obtain ⟨v, hv, hv0⟩ := notionalsFromCashflows_first _ sched nots hsched
      have hz := notionalsFromCashflows_last_zero _ sched nots hsched
      rw [hL2, hL1]
      show ((synthesizedRedemptions sched nots factors).map CashFlow.amount).sum =
        R / 100 * nots.getD 0 0 ∧ (couponNominals L.cashflows_).head? = some (nots.getD 0 0)
      rw [synthesizedRedemptions_sum sched nots factors R
        (fun i _ => specFactor_constant factors R hne hall i), hz, hv, hv0]
      norm_num

/-- C26 (as amended) on `exampleLeg`: the loan constructed from it has records of 50 and 50, summing
to the first nominal 100; with the factor vector `[90]` the records sum to 90. -/
theorem C26_principal_conservation_witness :
    Loan.construct insertionStdSort 0 exampleCalendar nullDate exampleLeg =
      Except.ok exampleConstructed ∧
    ((exampleConstructed.redemptions_.map CashFlow.amount).sum =
        exampleConstructed.notionals_.getD 0 0 ∧
      (couponNominals (insertionStdSort.run exampleLeg)).head? =
        some (exampleConstructed.notionals_.getD 0 0)) ∧
    exampleConstructed.notionals_.getD 0 0 = 100 ∧
    Except.map (fun L => (L.redemptions_.map CashFlow.amount).sum)
      (exampleLoan.addRedemptionsToCashflows [90]) = Except.ok 90 :=
  ⟨exampleConstructed_eq,
   C26_principal_conservation.1 insertionStdSort 0 exampleCalendar nullDate exampleLeg
     exampleConstructed (by simp [exampleLeg]) exampleConstructed_eq,
   by decide!, by decide!⟩

theorem stepLookup_index (dates : List Nat) (vals : List ℚ) (d m : Nat)
    (hm : m ≤ dates.length)
    (hbelow : ∀ j, j < m → dates.getD j nullDate ≤ d)
    (habove : m < dates.length → d < dates.getD m nullDate)
    (hlen : dates.length < vals.length) :
    stepLookup dates vals d = vals.getD m 0 := by
  induction dates generalizing vals m with
  | nil =>
    cases vals with
    | nil => simp at hlen
    | cons v vs =>
      have : m = 0 := by simpa using hm
      subst this
      rfl
  | cons D Ds ih =>
    cases vals with
    | nil => simp at hlen
    | cons v vs =>
      cases m with
      | zero =>
        have hlt : d < D := habove (by simp)
        simp only [stepLookup, if_pos hlt]
        rfl
      | succ m =>
        have hD : D ≤ d := hbelow 0 (by omega)
        have hnlt : ¬ d < D := by omega
        simp only [stepLookup, if_neg hnlt]
        rw [ih vs m (by simpa using hm)
          (fun j hj => by
            have := hbelow (j + 1) (by omega)
            simpa using this)
          (fun hj => by
            have := habove (by simpa using hj)
            simpa using this)
          (by simpa using hlen)]
        rfl

theorem getD_tail (v : List Nat) (j : Nat) :
    v.tail.getD j nullDate = v.getD (j + 1) nullDate := by
  cases v with
  | nil => rfl
  | cons a t => rfl

theorem notional_eq_stepLookup (L : Loan) (S : Settings) (d : Nat)
    (hd0 : d ≠ nullDate)
    (h2 : 2 ≤ L.notionalSchedule_.length)
    (hlen : L.notionals_.length = L.notionalSchedule_.length)
    (hstrict : L.notionalSchedule_.tail.Pairwise (fun a b => a < b))
    (hzero : L.notionals_.getD (L.notionalSchedule_.length - 1) 0 = 0) :
    L.notional S d = Except.ok (stepLookup L.notionalSchedule_.tail L.notionals_ d) := by
  have hne : L.notionalSchedule_ ≠ [] := by
    intro hnil; rw [hnil] at h2; simp at h2
  have hsorted : L.notionalSchedule_.tail.Pairwise (fun a b => a ≤ b) :=
    hstrict.imp (fun h => Nat.le_of_lt h)
  have htl : L.notionalSchedule_.tail.length = L.notionalSchedule_.length - 1 := by simp
  by_cases hafter : L.notionalSchedule_.getD (L.notionalSchedule_.length - 1) nullDate < d
  · rw [notional_after_maturity L S d hd0 hne hafter,
      stepLookup_index _ _ d (L.notionalSchedule_.length - 1) (by omega)
        (fun j hj => by
          rw [getD_tail]
          have := sorted_tail_getD _ hsorted (j + 1) (L.notionalSchedule_.length - 1)
            (by omega) (by omega) (by omega)
          omega)
        (fun hj => by omega) (by omega), hzero]
  · have hle : d ≤ L.notionalSchedule_.getD (L.notionalSchedule_.length - 1) nullDate := by
      omega
    obtain ⟨h1, hn, hbelow, hge⟩ := lower_bound_range L.notionalSchedule_ d hsorted h2 hle
    have hnot := notional_of_lower_bound L S d _ hd0 hlen h1 (by omega) hle rfl
    rw [hnot]
    generalize lower_bound L.notionalSchedule_ 1 L.notionalSchedule_.length d = idx
      at h1 hn hbelow hge
    by_cases hlt : d < L.notionalSchedule_.getD idx nullDate
    · rw [if_pos hlt, stepLookup_index _ _ d (idx - 1) (by omega)
        (fun j hj => by
          rw [getD_tail]
          exact Nat.le_of_lt (hbelow (j + 1) (by omega) (by omega)))
        (fun _ => by
          rw [getD_tail]
          have : idx - 1 + 1 = idx := by omega
          rw [this]
          exact hlt)
        (by omega)]
    · have heq : L.notionalSchedule_.getD idx nullDate = d := by omega
      rw [if_neg hlt, stepLookup_index _ _ d idx (by omega)
        (fun j hj => by
          rw [getD_tail]
          by_cases hj1 : j + 1 = idx
          · rw [hj1, heq]
          · exact Nat.le_of_lt (hbelow (j + 1) (by omega) (by omega)))
        (fun hj => by
          rw [getD_tail, ← heq]
          exact strict_tail_getD _ hstrict idx (idx + 1) h1 (by omega) (by omega))
        (by omega)]

theorem paydowns_drop (sched : List Nat) (nots : List ℚ)
    (hlen : sched.length = nots.length) (k i : Nat) (h1 : 1 ≤ i)
    (hk : i + k = sched.length) :
    (List.range' i k).map
      (fun j => (sched.getD j nullDate, nots.getD (j - 1) 0 - nots.getD j 0)) =
      paydowns (sched.drop i) (nots.drop (i - 1)) := by
  induction k generalizing i with
  | zero =>
    have hi : sched.drop i = [] := List.drop_eq_nil_of_le (by omega)
    rw [hi]
    simp [paydowns]
  | succ k ih =>
    have hi : i < sched.length := by omega
    have hs : sched.drop i = sched.getD i nullDate :: sched.drop (i + 1) := by
      rw [List.getD_eq_getElem sched nullDate hi]
      exact List.drop_eq_getElem_cons hi
    have hn0 : nots.drop (i - 1) = nots.getD (i - 1) 0 :: nots.drop i := by
      have hi1 : i - 1 < nots.length := by omega
      rw [List.getD_eq_getElem nots 0 hi1, List.drop_eq_getElem_cons hi1]
      have : i - 1 + 1 = i := by omega
      rw [this]
    have hn1 : nots.drop i = nots.getD i 0 :: nots.drop (i + 1) := by
      have hi1 : i < nots.length := by omega
      rw [List.getD_eq_getElem nots 0 hi1]
      exact List.drop_eq_getElem_cons hi1
    rw [List.range'_succ, List.map_cons, ih (i + 1) (by omega) (by omega), hs, hn0]
    have : i + 1 - 1 = i := by omega
    rw [this]
    conv_rhs => rw [hn1]
    simp only [paydowns]
    rw [← hn1]

theorem synthesizedRedemptions_paydowns (sched : List Nat) (nots : List ℚ)
    (hlen : sched.length = nots.length) (h1 : 1 ≤ sched.length) :
    (synthesizedRedemptions sched nots []).map (fun p => (p.date, p.amount)) =
      paydowns sched.tail nots := by
  unfold synthesizedRedemptions
  rw [List.map_map]
  have hcongr : (List.range' 1 (sched.length - 1)).map
      ((fun p => (p.date, p.amount)) ∘ principalRecord sched nots []) =
      (List.range' 1 (sched.length - 1)).map
        (fun j => (sched.getD j nullDate, nots.getD (j - 1) 0 - nots.getD j 0)) := by
    apply List.map_congr_left
    intro i _
    show (sched.getD i nullDate, specFactor [] i / 100 * _) = _
    rw [specFactor_default]
    norm_num
  rw [hcongr, paydowns_drop sched nots hlen (sched.length - 1) 1 (le_refl 1) (by omega),
    List.drop_one]
  rfl

theorem stepLookup_of_lt_all (dates : List Nat) (w : ℚ) (vs : List ℚ) (d : Nat)
    (hall : ∀ x ∈ dates, d < x) : stepLookup dates (w :: vs) d = w := by
  cases dates with
  | nil => rfl
  | cons D Ds =>
    simp only [stepLookup, if_pos (hall D (List.mem_cons_self _ _))]

theorem paydowns_after_sum (dates : List Nat) (vals : List ℚ) (d : Nat)
    (hlen : vals.length = dates.length + 1)
    (hsorted : dates.Pairwise (fun a b => a ≤ b))
    (hzero : vals.getD dates.length 0 = 0) :
    (((paydowns dates vals).filter (fun p => decide (d < p.1))).map Prod.snd).sum =
      stepLookup dates vals d := by
  induction dates generalizing vals with
  | nil =>
    cases vals with
    | nil => simp at hlen
    | cons v vs =>
      have hv : v = 0 := by simpa using hzero
      cases vs with
      | nil => simp [paydowns, stepLookup, hv]
      | cons w t => simp at hlen
  | cons D Ds ih =>
    cases vals with
    | nil => simp at hlen
    | cons v vs =>
      cases vs with
      | nil => simp at hlen
      | cons w t =>
        have hih := ih (w :: t) (by simpa using hlen) (List.Pairwise.of_cons hsorted)
          (by simpa using hzero)
        simp only [paydowns]
        by_cases hlt : d < D
        · rw [List.filter_cons_of_pos (by simpa using hlt), List.map_cons, List.sum_cons,
            hih]
          have hall : ∀ x ∈ Ds, d < x := fun x hx =>
            Nat.lt_of_lt_of_le hlt (List.rel_of_pairwise_cons hsorted hx)
          rw [stepLookup_of_lt_all Ds w t d hall]
          simp only [stepLookup, if_pos hlt]
          ring
        · rw [List.filter_cons_of_neg (by simpa using hlt), hih]
          simp only [stepLookup, if_neg hlt]

theorem amountAfter_eq (l : List CashFlow) (d : Nat) :
    amountAfter l d =
      (((l.map (fun p => (p.date, p.amount))).filter (fun p => decide (d < p.1))).map
        Prod.snd).sum := by
  unfold amountAfter
  rw [List.filter_map, List.map_map]
  rfl

/-- C25 (as amended): consistency of the notional curve with the synthesized principal,
in exact arithmetic.  For every loan constructed from a non-empty coupon list (default
redemption factors) whose breakpoint dates are strictly increasing, and every non-null
date `d`, `notional(d)` is the sum of the amounts of the principal records of
`redemptions_` dated strictly after `d`. -/
theorem C25_notional_is_remaining_principal (srt : StdSort) (settlementDays : Nat)
    (calendar : Calendar) (issueDate : Nat) (coupons : List CashFlow) (L : Loan)
    (S : Settings) (d : Nat)
    (hne : coupons ≠ [])
    (h : Loan.construct srt settlementDays calendar issueDate coupons = Except.ok L)
    (hstrict : L.notionalSchedule_.tail.Pairwise (fun a b => a < b))
    (hd0 : d ≠ nullDate) :
    L.notional S d = Except.ok (amountAfter L.redemptions_ d) := by
  obtain ⟨sched, nots, hsched, hs, hn, hr, _⟩ :=
    construct_schedule srt settlementDays calendar issueDate coupons L hne h
  obtain ⟨hlen, h2⟩ := notionalsFromCashflows_length _ sched nots hsched
  have hzero := notionalsFromCashflows_last_zero _ sched nots hsched
  have htl : sched.tail.length = sched.length - 1 := by simp
  rw [notional_eq_stepLookup L S d hd0 (by rw [hs]; exact h2) (by rw [hs, hn]; exact hlen.symm)
    hstrict (by rw [hs, hn]; exact hzero), hr, amountAfter_eq,
    synthesizedRedemptions_paydowns sched nots hlen (by omega),
    paydowns_after_sum sched.tail nots d (by omega)
      ((hs ▸ hstrict).imp (fun hab => Nat.le_of_lt hab)) (by rw [htl]; exact hzero), hs, hn]

/-- C25 (as amended) on the loan constructed from `exampleLeg` (breakpoints 20 and 30, records of 50
and 50): at the date 15 the notional is 100, the sum of both records; at the breakpoint
20 it is 50, the record dated 30 alone. -/
theorem C25_notional_is_remaining_principal_witness :
    exampleConstructed.notional ⟨0⟩ 15 =
      Except.ok (amountAfter exampleConstructed.redemptions_ 15) ∧
    exampleConstructed.notional ⟨0⟩ 20 =
      Except.ok (amountAfter exampleConstructed.redemptions_ 20) ∧
    amountAfter exampleConstructed.redemptions_ 15 = 100 ∧
    amountAfter exampleConstructed.redemptions_ 20 = 50 :=
  ⟨C25_notional_is_remaining_principal insertionStdSort 0 exampleCalendar nullDate
     exampleLeg exampleConstructed ⟨0⟩ 15 (by simp [exampleLeg]) exampleConstructed_eq
     (by simp [exampleConstructed]) (by decide),
   C25_notional_is_remaining_principal insertionStdSort 0 exampleCalendar nullDate
     exampleLeg exampleConstructed ⟨0⟩ 20 (by simp [exampleLeg]) exampleConstructed_eq
     (by simp [exampleConstructed]) (by decide),
   by decide!, by decide!⟩

theorem runLastDate_spec (r : ℚ × List (Nat × ℚ)) (hr : r.2 ≠ []) :
    ∃ init last, runCoupons r = init ++ [last] ∧ last.date = runLastDate r := by
  rcases List.eq_nil_or_concat r.2 with hnil | ⟨ys, p, hp⟩
  · exact absurd hnil hr
  · refine ⟨ys.map (fun q => { date := q.1, amount := q.2, kind := Kind.coupon r.1 }),
      { date := p.1, amount := p.2, kind := Kind.coupon r.1 }, ?_, ?_⟩
    · unfold runCoupons
      rw [hp]
      simp
    · unfold runLastDate
      rw [hp]
      simp

theorem runCoupons_nominal (r : ℚ × List (Nat × ℚ)) (c : CashFlow)
    (hc : c ∈ runCoupons r) : c.nominal? = some r.1 := by
  unfold runCoupons at hc
  rw [List.mem_map] at hc
  obtain ⟨p, _, hp⟩ := hc
  rw [← hp]
  rfl

theorem runsCoupons_cons (r : ℚ × List (Nat × ℚ)) (rs : List (ℚ × List (Nat × ℚ))) :
    runsCoupons (r :: rs) = runCoupons r ++ runsCoupons rs := by
  simp [runsCoupons]

theorem stepLookup_runs (runs : List (ℚ × List (Nat × ℚ)))
    (hrun : ∀ r ∈ runs, r.2 ≠ [])
    (hdates : (runsCoupons runs).Pairwise (fun a b => a.date < b.date))
    (pre post : List CashFlow) (c : CashFlow) (v : ℚ) (d : Nat)
    (hsplit : runsCoupons runs = pre ++ c :: post)
    (hv : c.nominal? = some v)
    (hprev : ∀ p ∈ pre, p.date ≤ d)
    (hlt : d < c.date) :
    stepLookup (runs.map runLastDate) (runs.map Prod.fst ++ [0]) d = v := by
  induction runs generalizing pre with
  | nil =>
    have : ([] : List CashFlow) = pre ++ c :: post := hsplit
    simp at this
  | cons r rs ih =>
    rw [runsCoupons_cons] at hsplit hdates
    obtain ⟨init, last, hinit, hlast⟩ := runLastDate_spec r (hrun r (List.mem_cons_self _ _))
    have hfirst : ∀ x ∈ runCoupons r, x.date ≤ runLastDate r := by
      intro x hx
      have hp := (List.pairwise_append.mp hdates).1
      rw [hinit] at hx hp
      rw [← hlast]
      rcases List.mem_append.mp hx with h1 | h1
      · exact Nat.le_of_lt ((List.pairwise_append.mp hp).2.2 x h1 last (List.mem_singleton_self _))
      · rw [List.mem_singleton.mp h1]
    have hlastmem : last ∈ runCoupons r := by
      rw [hinit]; simp
    simp only [List.map_cons, List.cons_append]
    have later : ∀ a', pre = runCoupons r ++ a' → runsCoupons rs = a' ++ c :: post →
        stepLookup (runLastDate r :: rs.map runLastDate)
          (r.1 :: (rs.map Prod.fst ++ [0])) d = v := by
      intro a' hpre hrest
      have hle : runLastDate r ≤ d := by
        rw [← hlast]
        exact hprev last (by rw [hpre]; exact List.mem_append_left _ hlastmem)
      have hnlt : ¬ d < runLastDate r := by omega
      simp only [stepLookup, if_neg hnlt]
      exact ih (fun r1 hr1 => hrun r1 (List.mem_cons_of_mem _ hr1))
        (List.pairwise_append.mp hdates).2.1 a' hrest
        (fun p hp => hprev p (by rw [hpre]; exact List.mem_append_right _ hp))
    rcases List.append_eq_append_iff.mp hsplit with ⟨a', hpre, hrest⟩ | ⟨c', hr, hrest⟩
    · exact later a' hpre hrest
    · cases c' with
      | nil =>
        exact later [] (by rw [hr]; simp) (by simpa using hrest.symm)
      | cons x t =>
        have hx : c = x := by
          have := congrArg List.head? hrest
          simpa using this
        have hcmem : c ∈ runCoupons r := by
          rw [hr, hx]; simp
        have hvr : v = r.1 := by
          have := runCoupons_nominal r c hcmem
          rw [hv] at this
          exact Option.some.inj this
        have hltD : d < runLastDate r := Nat.lt_of_lt_of_le hlt (hfirst c hcmem)
        simp only [stepLookup, if_pos hltD]
        exact hvr.symm

theorem pairwise_le_of_getLast (pre : List CashFlow) (d : Nat)
    (hp : pre.Pairwise (fun a b => a.date < b.date))
    (hprev : ∀ p, pre.getLast? = some p → p.date ≤ d) :
    ∀ p ∈ pre, p.date ≤ d := by
  rcases List.eq_nil_or_concat pre with hnil | ⟨ys, q, hq⟩
  · intro p hp1
    rw [hnil] at hp1
    cases hp1
  · rw [List.concat_eq_append] at hq
    have hqd : q.date ≤ d := hprev q (by rw [hq]; simp)
    intro p hp1
    rw [hq] at hp1 hp
    rcases List.mem_append.mp hp1 with h1 | h1
    · have := (List.pairwise_append.mp hp).2.2 p h1 q (List.mem_singleton_self _)
      omega
    · rw [List.mem_singleton.mp h1]
      exact hqd

/-- C24: reconstruction round trip.  For every loan constructed from coupons with
strictly increasing payment dates whose nominals are exactly equal within a run and
strictly decreasing, beyond the tolerance of `close`, from one run to the next: for
every coupon `c` of the list and every non-null date `d` with `d < date(c)` that is not
before the date of the coupon preceding `c` (if there is one), `notional(d)` is the
declared nominal of `c`. -/
theorem C24_reconstruction_round_trip (srt : StdSort) (settlementDays : Nat)
    (calendar : Calendar) (issueDate : Nat) (runs : List (ℚ × List (Nat × ℚ)))
    (L : Loan) (S : Settings) (pre post : List CashFlow) (c : CashFlow) (v : ℚ) (d : Nat)
    (hne : runs ≠ []) (hrun : ∀ r ∈ runs, r.2 ≠ [])
    (hdesc : List.Chain' (fun a b => b < a ∧ close b a = false) (runs.map Prod.fst))
    (hdates : (runsCoupons runs).Pairwise (fun a b => a.date < b.date))
    (h : Loan.construct srt settlementDays calendar issueDate (runsCoupons runs) =
      Except.ok L)
    (hsplit : runsCoupons runs = pre ++ c :: post)
    (hv : c.nominal? = some v)
    (hd0 : d ≠ nullDate)
    (hprev : ∀ p, pre.getLast? = some p → p.date ≤ d)
    (hlt : d < c.date) :
    L.notional S d = Except.ok v := by
  have hcne : runsCoupons runs ≠ [] := by
    rw [hsplit]; simp
  obtain ⟨sched, nots, hsched, hs, hn, _, _⟩ :=
    construct_schedule srt settlementDays calendar issueDate (runsCoupons runs) L hcne h
  rw [stdSort_of_strict srt (runsCoupons runs) hdates] at hsched
  have hstrict := notionalsFromCashflows_schedule_order (fun a b => a < b)
    (fun a b c hab hbc => Nat.lt_trans hab hbc) _ sched nots hsched hdates
  obtain ⟨hlen, h2⟩ := notionalsFromCashflows_length _ sched nots hsched
  have hzero := notionalsFromCashflows_last_zero _ sched nots hsched
  have hruns := notionalsFromCashflows_runs runs hne hrun hdesc
  rw [hsched] at hruns
  have hpair := Except.ok.inj hruns
  have hs1 : sched = nullDate :: runs.map runLastDate := congrArg Prod.fst hpair
  have hn1 : nots = runs.map Prod.fst ++ [0] := congrArg Prod.snd hpair
  rw [notional_eq_stepLookup L S d hd0 (by rw [hs]; exact h2)
    (by rw [hs, hn]; exact hlen.symm) (by rw [hs]; exact hstrict)
    (by rw [hs, hn]; exact hzero), hs, hn, hs1, hn1]
  have hpre : pre.Pairwise (fun a b => a.date < b.date) := by
    rw [hsplit] at hdates
    exact (List.pairwise_append.mp hdates).1
  rw [List.tail_cons, stepLookup_runs runs hrun hdates pre post c v d hsplit hv
    (pairwise_le_of_getLast pre d hpre hprev) hlt]

/-- C24 on the loan constructed from `exampleLeg` (coupons dated 10, 20, 30 on the
nominals 100, 100, 50): at the date 20, the date of the second coupon and before that
of the third, the notional is 50, the nominal of the third coupon. -/
theorem C24_reconstruction_round_trip_witness :
    Loan.construct insertionStdSort 0 exampleCalendar nullDate (runsCoupons exampleRuns) =
      Except.ok exampleConstructed ∧
    runsCoupons exampleRuns = [Coupon 10 5 100, Coupon 20 5 100] ++ Coupon 30 5 50 :: [] ∧
    exampleConstructed.notional ⟨0⟩ 20 = Except.ok 50 :=
  ⟨by with_unfolding_all rfl, by decide!,
   C24_reconstruction_round_trip insertionStdSort 0 exampleCalendar nullDate exampleRuns
     exampleConstructed ⟨0⟩ [Coupon 10 5 100, Coupon 20 5 100] [] (Coupon 30 5 50) 50 20
     (by decide!) (by decide!)
     (by
       simp only [exampleRuns, List.map, List.chain'_cons, List.chain'_singleton]
       decide!)
     (by simp [runsCoupons, runCoupons, exampleRuns])
     (by with_unfolding_all rfl) (by decide!) rfl (by decide)
     (by
       intro p hp
       simp only [List.getLast?_cons_cons, List.getLast?_singleton, Option.some.injEq] at hp
       rw [← hp]
       decide)
     (by decide)⟩

theorem lf_zSpread_tradable (L : Loan) (S : Settings) (C : CashFlowsLib) (p : ℚ) (d : Nat)
    (dc comp freq : Nat) (settlement : Nat) (accuracy : ℚ) (maxIterations : Nat)
    (guess : ℚ) (n : ℚ)
    (hn : L.notional S settlement = Except.ok n) (h0 : n ≠ 0) :
    LoanFunctions.zSpread S C L p d dc comp freq settlement accuracy maxIterations guess =
      C.zSpread L.cashflows_ d
        ((p + C.accruedAmount L.cashflows_ false (effectiveSettlement L S settlement)
            * 100 / n) / (100 / n))
        dc comp freq false (effectiveSettlement L S settlement)
        (effectiveSettlement L S settlement) accuracy maxIterations guess := by
  have hn2 := notional_effectiveSettlement L S settlement
  rw [hn] at hn2
  have ht := tradableSettlement_ok L S settlement n hn h0
  have hla := loan_accruedAmount_tradable L S C (effectiveSettlement L S settlement) n hn2 h0
  have ha := lf_accruedAmount_tradable L S C (effectiveSettlement L S settlement) n hn2 h0
  rw [effectiveSettlement_idem] at ha
  unfold LoanFunctions.zSpread
  simp only [ht, hla, ha, hn2]

theorem settlementValueOfPrice_eq (L : Loan) (S : Settings) (C : CashFlowsLib) (p n a : ℚ)
    (hn : L.notional S (L.settlementDate S nullDate) = Except.ok n)
    (ha : L.accruedAmount S C (L.settlementDate S nullDate) = Except.ok a) :
    L.settlementValueOfPrice S C p = Except.ok ((p + a) / 100 * n) := by
  unfold Loan.settlementValueOfPrice
  simp only [hn, ha]

/-- C30: the price/NPV conversions are mutually inverse.  For every loan and settlement
date at which the loan is tradable (notional `n ≠ 0`), with `a` the accrued amount per
100 of notional that `Loan::accruedAmount` returns there: the NPV target that
`LoanFunctions::yield` and `LoanFunctions::zSpread` hand to the external solver for a
clean price `p` is `(p + a) * n / 100`; for the clean price `q` that
`LoanFunctions::cleanPrice` returns at the yield `y` this target is the NPV of the
ledger at `y`; and `Loan::settlementValue(p)` is `(p + a) / 100 * n` with the accrued
amount and the notional of the loan's settlement date. -/
theorem C30_price_npv_conversions (L : Loan) (S : Settings) (C : CashFlowsLib) (p y : ℚ)
    (d : Nat) (dc comp freq : Nat) (settlement : Nat) (accuracy : ℚ) (maxIterations : Nat)
    (guess : ℚ) (n : ℚ)
    (hn : L.notional S settlement = Except.ok n) (h0 : n ≠ 0) :
    ∃ a, L.accruedAmount S C settlement = Except.ok a ∧
      LoanFunctions.yield S C L p dc comp freq settlement accuracy maxIterations guess =
        C.yield L.cashflows_ ((p + a) * n / 100) dc comp freq false
          (effectiveSettlement L S settlement) (effectiveSettlement L S settlement)
          accuracy maxIterations guess ∧
      LoanFunctions.zSpread S C L p d dc comp freq settlement accuracy maxIterations guess =
        C.zSpread L.cashflows_ d ((p + a) * n / 100) dc comp freq false
          (effectiveSettlement L S settlement) (effectiveSettlement L S settlement)
          accuracy maxIterations guess ∧
      (∃ q, LoanFunctions.cleanPrice S C L y dc comp freq settlement = Except.ok q ∧
        (q + a) * n / 100 =
          C.npv L.cashflows_
            { rate := y, dayCounter := dc, compounding := comp, frequency := freq }
            false (effectiveSettlement L S settlement)) ∧
      (∀ n1 a1, L.notional S (L.settlementDate S nullDate) = Except.ok n1 →
        L.accruedAmount S C (L.settlementDate S nullDate) = Except.ok a1 →
        L.settlementValueOfPrice S C p = Except.ok ((p + a1) / 100 * n1)) := by
  refine ⟨C.accruedAmount L.cashflows_ false (effectiveSettlement L S settlement) * 100 / n,
    ?_, ?_, ?_, ?_, ?_⟩
  · rw [loan_accruedAmount_tradable L S C settlement n hn h0,
      lf_accruedAmount_tradable L S C settlement n hn h0]
  · rw [lf_yield_tradable L S C p dc comp freq settlement accuracy maxIterations guess n
      hn h0]
    congr 1
    field_simp
  · rw [lf_zSpread_tradable L S C p d dc comp freq settlement accuracy maxIterations guess n
      hn h0]
    congr 1
    field_simp
  · refine ⟨_, lf_cleanPrice_tradable L S C y dc comp freq settlement n hn h0, ?_⟩
    field_simp
  · intro n1 a1 hn1 ha1
    exact settlementValueOfPrice_eq L S C p n1 a1 hn1 ha1

/-- C30 on the loan constructed from `exampleLeg` at the settlement date 15 (notional
100, accrued amount 2 per 100): for the clean price 98 the target handed to both
solvers is `(98 + 2) * 100 / 100 = 100`. -/
theorem C30_price_npv_conversions_witness :
    ∃ a, exampleConstructed.accruedAmount ⟨15⟩ exampleCashFlows 15 = Except.ok a ∧
      LoanFunctions.yield ⟨15⟩ exampleCashFlows exampleConstructed 98 0 0 0 15 (1 / 100) 50
          (1 / 20) =
        exampleCashFlows.yield exampleConstructed.cashflows_ ((98 + a) * 100 / 100) 0 0 0
          false (effectiveSettlement exampleConstructed ⟨15⟩ 15)
          (effectiveSettlement exampleConstructed ⟨15⟩ 15) (1 / 100) 50 (1 / 20) ∧
      LoanFunctions.zSpread ⟨15⟩ exampleCashFlows exampleConstructed 98 0 0 0 0 15 (1 / 100)
          50 (1 / 20) =
        exampleCashFlows.zSpread exampleConstructed.cashflows_ 0 ((98 + a) * 100 / 100) 0 0 0
          false (effectiveSettlement exampleConstructed ⟨15⟩ 15)
          (effectiveSettlement exampleConstructed ⟨15⟩ 15) (1 / 100) 50 (1 / 20) ∧
      (∃ q, LoanFunctions.cleanPrice ⟨15⟩ exampleCashFlows exampleConstructed (1 / 20) 0 0 0
          15 = Except.ok q ∧
        (q + a) * 100 / 100 =
          exampleCashFlows.npv exampleConstructed.cashflows_
            { rate := 1 / 20, dayCounter := 0, compounding := 0, frequency := 0 }
            false (effectiveSettlement exampleConstructed ⟨15⟩ 15)) ∧
      (∀ n1 a1,
        exampleConstructed.notional ⟨15⟩ (exampleConstructed.settlementDate ⟨15⟩ nullDate) =
          Except.ok n1 →
        exampleConstructed.accruedAmount ⟨15⟩ exampleCashFlows
          (exampleConstructed.settlementDate ⟨15⟩ nullDate) = Except.ok a1 →
        exampleConstructed.settlementValueOfPrice ⟨15⟩ exampleCashFlows 98 =
          Except.ok ((98 + a1) / 100 * n1)) :=
  C30_price_npv_conversions exampleConstructed ⟨15⟩ exampleCashFlows 98 (1 / 20) 0 0 0 0 15
    (1 / 100) 50 (1 / 20) 100 (by decide!) (by norm_num)

theorem stdSort_of_perm_strict (srt : StdSort) (coupons sorted : List CashFlow)
    (hperm : coupons.Perm sorted) (h : sorted.Pairwise earlier_than) :
    srt.run coupons = sorted := by
  have hnodup : (sorted.map CashFlow.date).Nodup := by
    rw [List.Nodup, List.pairwise_map]
    exact h.imp (fun {a b} hab => Nat.ne_of_lt hab)
  have hp2 : (srt.run coupons).Perm sorted := (srt.perm coupons).trans hperm
  have hnodup2 : ((srt.run coupons).map CashFlow.date).Nodup :=
    (hp2.map CashFlow.date).nodup_iff.mpr hnodup
  have hle : ((srt.run coupons).map CashFlow.date).Sorted (fun a b => a ≤ b) := by
    rw [List.Sorted, List.pairwise_map]
    exact (srt.sorted coupons).imp (fun {a b} hab => (notLater_iff a b).mp hab)
  have hlt : ((srt.run coupons).map CashFlow.date).Sorted (fun a b => a < b) :=
    hle.lt_of_le hnodup2
  have hs : (srt.run coupons).Sorted earlier_than := by
    rw [List.Sorted, List.pairwise_map] at hlt
    exact hlt
  exact List.eq_of_perm_of_sorted hp2 hs h

/-- C23 at coupons passed latest first, dated 20 then 10, whatever `std::sort` does with
equal dates: the constructor records the date of `coupons.back()`, the last coupon as
passed, so `maturityDate()` is 10, while the ledger is sorted to the dates 10, 20, the
final breakpoint of the schedule is 20 and the final redemption record is dated 20. -/
theorem C23_maturity_from_unsorted_input (srt : StdSort) :
    (Loan.construct srt 0 exampleCalendar nullDate exampleUnsortedLeg).map
        (fun L => (L.maturityDate exampleCashFlows, L.cashflows_.map CashFlow.date,
          L.notionalSchedule_, L.redemptions_)) =
      Except.ok (10, [10, 20, 20], [0, 20], [Redemption 100 20]) := by
  have hrun : srt.run exampleUnsortedLeg = [Coupon 10 5 100, Coupon 20 5 100] :=
    stdSort_of_perm_strict srt _ _ (List.Perm.swap _ _ _) (by
      simp [earlier_than, Coupon])
  rw [construct_cons srt 0 exampleCalendar nullDate exampleUnsortedLeg
    (by simp [exampleUnsortedLeg]) _ _ hrun, if_neg (by simp), hrun]
  decide!

theorem setSingleRedemption_notional_before (L : Loan) (S : Settings) (N R : ℚ)
    (D d : Nat) (hd0 : d ≠ nullDate) (hlt : d < D) :
    (L.setSingleRedemption N R D).notional S d = Except.ok N := by
  have hnot : ¬ (d > D) := by omega
  have hnlt : ¬ (D < d) := by omega
  simp [Loan.notional, Loan.setSingleRedemption, Loan.setSingleRedemptionCashflow,
    Redemption, hd0, hnot, lower_bound, lowerBoundLoop, hnlt, vectorAt, hlt]

theorem simpleDiscount_zero (y : InterestRate) (s d : Nat) (hy : y.rate = 0) :
    simpleDiscount y s d = 1 := by
  simp [simpleDiscount, hy]

theorem npvModel_bullet (discount : InterestRate → Nat → Nat → ℚ) (leg : List CashFlow)
    (y : InterestRate) (s D : Nat) (A : ℚ)
    (hzero : discount y s D = 1)
    (hpast : ∀ cf ∈ leg, cf.date ≤ s) (hlt : s < D) :
    npvModel discount (leg ++ [Redemption A D]) y false s = A := by
  unfold npvModel
  have hnil : leg.filter (fun cf => decide (s < cf.date) ||
      (false && decide (s = cf.date))) = [] := by
    rw [List.filter_eq_nil_iff]
    intro cf hcf
    have := hpast cf hcf
    simp
    omega
  rw [List.filter_append, hnil]
  simp [Redemption, hlt, hzero]

/-- C21 (as amended): in exact arithmetic, for every single-redemption bullet loan of
non-zero notional set up by `setSingleRedemption` with the redemption factor 100, and
every settlement date before the redemption date after which the ledger holds no cash
flow but the redemption, the dirty price at a flat yield of 0% is exactly 100 per 100 of
notional and the clean price is 100 minus the accrued amount at settlement.  The
external NPV is the spec's: the future cash flows, each times its discount factor, which
is 1 at the rate 0. -/
theorem C21_bullet_at_zero_yield (L : Loan) (S : Settings) (C : CashFlowsLib)
    (discount : InterestRate → Nat → Nat → ℚ) (N : ℚ) (D : Nat) (dc comp freq : Nat)
    (settlement : Nat)
    (hnpv : ∀ leg y s, C.npv leg y false s = npvModel discount leg y false s)
    (hzero : ∀ y s d, y.rate = 0 → discount y s d = 1)
    (hN : N ≠ 0)
    (hs0 : effectiveSettlement (L.setSingleRedemption N 100 D) S settlement ≠ nullDate)
    (hbefore : effectiveSettlement (L.setSingleRedemption N 100 D) S settlement < D)
    (hpast : ∀ cf ∈ L.cashflows_,
      cf.date ≤ effectiveSettlement (L.setSingleRedemption N 100 D) S settlement) :
    ∃ a, (L.setSingleRedemption N 100 D).accruedAmount S C settlement = Except.ok a ∧
      LoanFunctions.dirtyPrice S C (L.setSingleRedemption N 100 D) 0 dc comp freq
        settlement = Except.ok 100 ∧
      LoanFunctions.cleanPrice S C (L.setSingleRedemption N 100 D) 0 dc comp freq
        settlement = Except.ok (100 - a) := by
  have hn : (L.setSingleRedemption N 100 D).notional S settlement = Except.ok N := by
    rw [← notional_effectiveSettlement]
    exact setSingleRedemption_notional_before L S N 100 D _ hs0 hbefore
  have hval : C.npv (L.setSingleRedemption N 100 D).cashflows_
      { rate := 0, dayCounter := dc, compounding := comp, frequency := freq } false
      (effectiveSettlement (L.setSingleRedemption N 100 D) S settlement) * 100 / N = 100 := by
    rw [hnpv]
    show npvModel discount (L.cashflows_ ++ [Redemption (N * 100 / 100) D]) _ false _
      * 100 / N = 100
    rw [npvModel_bullet discount L.cashflows_ _ _ D _ (hzero _ _ _ rfl) hpast hbefore]
    field_simp
  refine ⟨_, (loan_accruedAmount_tradable _ S C settlement N hn hN).trans
    (lf_accruedAmount_tradable _ S C settlement N hn hN), ?_, ?_⟩
  · unfold LoanFunctions.dirtyPrice
    rw [lf_dirtyPriceRate_tradable _ S C _ settlement N hn hN, hval]
  · rw [lf_cleanPrice_tradable _ S C 0 dc comp freq settlement N hn hN, hval]

/-- C21 (as amended) on the spec's scenario, a bullet of notional 1,000,000 redeemed at
100 on day 40 with no other cash flow, settling on day 10. -/
theorem C21_bullet_at_zero_yield_witness :
    ∃ a, exampleBullet.accruedAmount ⟨10⟩ modelCashFlows 10 = Except.ok a ∧
      LoanFunctions.dirtyPrice ⟨10⟩ modelCashFlows exampleBullet 0 0 0 0 10 =
        Except.ok 100 ∧
      LoanFunctions.cleanPrice ⟨10⟩ modelCashFlows exampleBullet 0 0 0 0 10 =
        Except.ok (100 - a) :=
  C21_bullet_at_zero_yield (Loan.ofCashflows []) ⟨10⟩ modelCashFlows simpleDiscount
    1000000 40 0 0 0 10 (fun _ _ _ => rfl)
    (fun y s d hy => by simp [simpleDiscount, hy]) (by norm_num) (by decide) (by decide)
    (fun cf hcf => by cases hcf)

/-- C21 as stated fails.  A bullet of notional 100 set up by `setSingleRedemption` with
the factor 100 on a ledger that holds a coupon of 5 to be paid after the settlement
date has the dirty price 105 at the yield 0% (clean price 103 with an accrued amount of
2, not 98); with the notional 0 the loan is not tradable and both prices fail.  And in
the `double` arithmetic of the source a bullet of notional 1314.13 with no other cash
flow has the redemption amount 1314.13 and the dirty price
`1314.13 * 100.0 / 1314.13 = 99.99999999999999` at the yield 0%, not 100. -/
theorem C21_counterexample :
    exampleCouponBullet.accruedAmount ⟨10⟩ modelCashFlows 10 = Except.ok 2 ∧
    LoanFunctions.dirtyPrice ⟨10⟩ modelCashFlows exampleCouponBullet 0 0 0 0 10 =
      Except.ok 105 ∧
    LoanFunctions.cleanPrice ⟨10⟩ modelCashFlows exampleCouponBullet 0 0 0 0 10 =
      Except.ok 103 ∧
    LoanFunctions.dirtyPrice ⟨10⟩ modelCashFlows
      ((Loan.ofCashflows []).setSingleRedemption 0 100 40) 0 0 0 0 10 =
      Except.error Error.nonTradable ∧
    LoanFunctions.cleanPrice ⟨10⟩ modelCashFlows
      ((Loan.ofCashflows []).setSingleRedemption 0 100 40) 0 0 0 0 10 =
      Except.error Error.nonTradable ∧
    roundDouble (131413 / 100) = doubleNotional ∧
    ((Loan.ofCashflows []).setSingleRedemptionDouble doubleNotional 100 40).cashflows_ =
      [Redemption doubleNotional 40] ∧
    LoanFunctions.dirtyPriceRateDouble ⟨10⟩ modelCashFlows
      ((Loan.ofCashflows []).setSingleRedemptionDouble doubleNotional 100 40)
      { rate := 0, dayCounter := 0, compounding := 0, frequency := 0 } 10 =
      Except.ok (7036874417766399 / 70368744177664) ∧
    (7036874417766399 / 70368744177664 : ℚ) ≠ 100 := by
  refine ⟨by decide!, by decide!, by decide!, by decide!, by decide!, by decide!,
    by decide!, by decide!, by decide!⟩

/-- C25 as stated fails in the `double` arithmetic of the source.  For the coupons on
the nominals 1000000.10 and 250000.07 the records carry the amounts
`1000000.10 - 250000.07 = 750000.03` (rounded) and 250000.07, both dated after day 5;
their sum is not `notional(5) = 1000000.10`, whether it is taken exactly or in `double`
arithmetic (1000000.1000000001). -/
theorem C25_counterexample :
    roundDouble (10000001 / 10) = doubleNominalA ∧
    roundDouble (25000007 / 100) = doubleNominalB ∧
    (Loan.addRedemptionsToCashflowsDouble (Loan.ofCashflows exampleDoubleLeg) []).map
        (fun L => (L.notionalSchedule_, L.redemptions_)) =
      Except.ok ([0, 10, 20],
        [AmortizingPayment (3221225600849019 / 4294967296) 10,
         Redemption doubleNominalB 20]) ∧
    (Loan.addRedemptionsToCashflowsDouble (Loan.ofCashflows exampleDoubleLeg) []).bind
        (fun L => L.notional ⟨0⟩ 5) = Except.ok doubleNominalA ∧
    (Loan.addRedemptionsToCashflowsDouble (Loan.ofCashflows exampleDoubleLeg) []).map
        (fun L => amountAfter L.redemptions_ 5) =
      Except.ok (17179870901986919 / 17179869184) ∧
    (Loan.addRedemptionsToCashflowsDouble (Loan.ofCashflows exampleDoubleLeg) []).map
        (fun L => sumDouble
          ((L.redemptions_.filter (fun p => decide (5 < p.date))).map CashFlow.amount)) =
      Except.ok (2147483862748365 / 2147483648) ∧
    (17179870901986919 / 17179869184 : ℚ) ≠ doubleNominalA ∧
    (2147483862748365 / 2147483648 : ℚ) ≠ doubleNominalA := by
  refine ⟨by decide!, by decide!, by decide!, by decide!, by decide!, by decide!,
    by decide!, by decide!⟩

/-- C26 as stated fails in the `double` arithmetic of the source.  For the coupons on
the nominals 1000000.10 and 250000.07 the two records carry the amounts 750000.03 (the
rounded difference) and 250000.07, and their sum is not `notionals_[0] = 1000000.10`:
taken exactly it is off by `2^-34`, and in `double` arithmetic it is
1000000.1000000001. -/
theorem C26_counterexample :
    (Loan.addRedemptionsToCashflowsDouble (Loan.ofCashflows exampleDoubleLeg) []).map
        (fun L => (L.notionals_, L.redemptions_.map CashFlow.amount)) =
      Except.ok ([doubleNominalA, doubleNominalB, 0],
        [3221225600849019 / 4294967296, doubleNominalB]) ∧
    (Loan.addRedemptionsToCashflowsDouble (Loan.ofCashflows exampleDoubleLeg) []).map
        (fun L => (L.redemptions_.map CashFlow.amount).sum - L.notionals_.getD 0 0) =
      Except.ok (1 / 2 ^ 34) ∧
    (Loan.addRedemptionsToCashflowsDouble (Loan.ofCashflows exampleDoubleLeg) []).map
        (fun L => sumDouble (L.redemptions_.map CashFlow.amount)) =
      Except.ok (2147483862748365 / 2147483648) ∧
    (2147483862748365 / 2147483648 : ℚ) ≠ doubleNominalA ∧
    roundDouble (10000001000000001 / 10000000000) = 2147483862748365 / 2147483648 := by
  refine ⟨by decide!, by decide!, by decide!, by decide!, by decide!⟩

end QuantLib
